import Mathlib

/-!
Verification development for the tabular transcoding core of the
np-helper-library repository (`Read Write To Sheets.js`, plus the
`getLastNonEmptyRow` helper from `Code.js`).

The host spreadsheet surface is modelled shallowly: a sheet is a ragged
grid of cells, each cell carrying a stored value and a formula string
("" meaning no formula).  Reads outside the grid yield empty cells, and
writes extend the grid, mirroring the host behaviour of padding with
empty strings and extending the table.  Writing a value to a cell clears
its formula (as on the host); writing a formula sets the formula text
and, since formula evaluation is host-determined and outside this model,
leaves the stored value field untouched.

JavaScript record objects are modelled as association lists from string
keys to cell values; property assignment replaces the first binding of a
key in place and otherwise appends, matching JS object insertion-order
semantics.  JS `Map` objects are modelled with the same
replace-or-append discipline, so that `Map.set` on a duplicate key keeps
the key's original position but the latest value.
-/

namespace NpHelper

/-- A spreadsheet cell value: text, number, boolean, or a date.  A date
carries the display string the host formatter would render and an
instant code; two dates are equal when both agree, which stands in for
the host storing instants (not object references) in cells. -/
inductive Value where
  | str (s : String)
  | num (n : Int)
  | boolean (b : Bool)
  | date (display : String) (code : Int)
deriving DecidableEq, Repr

/-- The empty cell value, the host's `""`. -/
def Value.emptyV : Value := .str ""

/-- JS truthiness of a cell value: `""`, `0` and `false` are falsy,
dates (objects) are always truthy. -/
def Value.truthy : Value → Bool
  | .str s => s ≠ ""
  | .num n => n ≠ 0
  | .boolean b => b
  | .date _ _ => true

/-- The string a value turns into when used as a JS object property key
(`obj[v]` coerces `v` with `String(v)`). -/
def Value.keyOf : Value → String
  | .str s => s
  | .num n => toString n
  | .boolean b => if b then "true" else "false"
  | .date d _ => d

/-- The display text of a value (`getDisplayValues`): for dates this is
the host-rendered display string; other values render as themselves. -/
def Value.displayOf : Value → String
  | .str s => s
  | .num n => toString n
  | .boolean b => if b then "TRUE" else "FALSE"
  | .date d _ => d

/-- Whether `typeof value === "object"` and
`Object.prototype.toString.call(value) === "[object Date]"`. -/
def Value.isDate : Value → Bool
  | .date _ _ => true
  | _ => false

/-- A cell: stored value plus formula text ("" when the cell holds no
formula). -/
structure Cell where
  value : Value
  formula : String
deriving DecidableEq, Repr

/-- The blank cell. -/
def Cell.emptyC : Cell := ⟨Value.emptyV, ""⟩

/-- A cell counts as content for `getLastRow` / `getLastColumn` when it
has a non-empty value or a formula. -/
def Cell.hasContent (c : Cell) : Bool := c.value ≠ Value.emptyV || c.formula ≠ ""

/-- A sheet: its name and a ragged grid of cells (row-major, 0-based
internally; missing entries read as blank cells). -/
structure Sheet where
  sname : String
  grid : List (List Cell)
deriving DecidableEq, Repr

/-- Write position `i` of a list, padding with `dflt` when the list is
shorter than `i` — the way a host write extends the table. -/
def setAt {α : Type} : List α → Nat → α → α → List α
  | _ :: t, 0, _, a => a :: t
  | [], 0, _, a => [a]
  | x :: t, n + 1, d, a => x :: setAt t n d a
  | [], n + 1, d, a => d :: setAt [] n d a

/-- 1-based position of the last element satisfying `p`, or 0 when none
does (the host's scan-from-the-end idiom). -/
def lastPos {α : Type} (p : α → Bool) : List α → Nat
  | [] => 0
  | a :: t =>
    let r := lastPos p t
    if r > 0 then r + 1 else if p a then 1 else 0

/-- Read a cell at 0-based coordinates; out-of-grid cells are blank. -/
def Sheet.cell0 (s : Sheet) (r c : Nat) : Cell :=
  (s.grid.getD r []).getD c Cell.emptyC

/-- Read a cell at the host's 1-based coordinates. -/
def Sheet.getCell (s : Sheet) (r c : Nat) : Cell := s.cell0 (r - 1) (c - 1)

/-- `getLastRow()`: 1-based index of the last row containing content
(value or formula), 0 for a contentless sheet. -/
def Sheet.getLastRow (s : Sheet) : Nat :=
  lastPos (fun row => row.any Cell.hasContent) s.grid

/-- `getLastColumn()`: 1-based index of the last column containing
content in any row, 0 for a contentless sheet. -/
def Sheet.getLastColumn (s : Sheet) : Nat :=
  (s.grid.map (lastPos Cell.hasContent)).foldr max 0

/-- `getRange(r, c, nR, nC).getValues()` (1-based origin): an
`nR × nC` matrix of stored values, padded with `""` outside the grid. -/
def Sheet.getValues (s : Sheet) (r c nR nC : Nat) : List (List Value) :=
  (List.range nR).map fun i =>
    (List.range nC).map fun j => (s.cell0 (r - 1 + i) (c - 1 + j)).value

/-- `getRange(...).getFormulas()`: the same matrix of formula texts. -/
def Sheet.getFormulas (s : Sheet) (r c nR nC : Nat) : List (List String) :=
  (List.range nR).map fun i =>
    (List.range nC).map fun j => (s.cell0 (r - 1 + i) (c - 1 + j)).formula

/-- `getRange(...).getDisplayValues()`: display texts of the same
matrix. -/
def Sheet.getDisplayValues (s : Sheet) (r c nR nC : Nat) : List (List String) :=
  (List.range nR).map fun i =>
    (List.range nC).map fun j => (s.cell0 (r - 1 + i) (c - 1 + j)).value.displayOf

/-- `getDataRange().getValues()`: rows `1..max(lastRow,1)` across
columns `1..max(lastCol,1)` (an empty sheet reads as `[[""]]`). -/
def Sheet.dataRangeValues (s : Sheet) : List (List Value) :=
  s.getValues 1 1 (max s.getLastRow 1) (max s.getLastColumn 1)

/-- Overwrite one cell (0-based), extending the grid as needed. -/
def Sheet.setCell0 (s : Sheet) (r c : Nat) (cell : Cell) : Sheet :=
  { s with grid := setAt s.grid r [] (setAt (s.grid.getD r []) c Cell.emptyC cell) }

/-- A host value write: stores the value and clears any formula. -/
def Sheet.writeValue0 (s : Sheet) (r c : Nat) (v : Value) : Sheet :=
  s.setCell0 r c ⟨v, ""⟩

/-- `setFormula` (1-based wrapper is below): records the formula text at
the cell.  The evaluated value of a formula is host-determined, so the
model leaves the stored value field as it was. -/
def Sheet.writeFormula0 (s : Sheet) (r c : Nat) (f : String) : Sheet :=
  s.setCell0 r c ⟨(s.cell0 r c).value, f⟩

/-- Write one row of values left to right starting at 0-based `(r, c)`. -/
def Sheet.setRow0 (s : Sheet) (r c : Nat) : List Value → Sheet
  | [] => s
  | v :: vs => (s.writeValue0 r c v).setRow0 r (c + 1) vs

/-- Write a matrix of values row by row starting at 0-based `(r, c)`. -/
def Sheet.setVals0 (s : Sheet) (r c : Nat) : List (List Value) → Sheet
  | [] => s
  | row :: rest => (s.setRow0 r c row).setVals0 (r + 1) c rest

/-- `getRange(r, c, _, _).setValues(m)` at 1-based origin. -/
def Sheet.setValuesM (s : Sheet) (r c : Nat) (m : List (List Value)) : Sheet :=
  s.setVals0 (r - 1) (c - 1) m

/-- `getRange(r, c).setFormula(f)` at 1-based coordinates. -/
def Sheet.setFormula1 (s : Sheet) (r c : Nat) (f : String) : Sheet :=
  s.writeFormula0 (r - 1) (c - 1) f

/-- `getRange(r, c, nR, nC).clearContent()`: blanks values and formulas
over the region (formatting, which the model does not track, is kept). -/
def Sheet.clearRegion (s : Sheet) (r c nR nC : Nat) : Sheet :=
  s.setValuesM r c (List.replicate nR (List.replicate nC Value.emptyV))

/-- Two sheets are observationally equal when every cell (value and
formula) agrees; physical grid padding is irrelevant. -/
def Sheet.EquivCells (s t : Sheet) : Prop :=
  ∀ r c : Nat, s.cell0 r c = t.cell0 r c

/-- `getRange(r, c).setValue(v)` at 1-based coordinates. -/
def Sheet.setValue1 (s : Sheet) (r c : Nat) (v : Value) : Sheet :=
  s.writeValue0 (r - 1) (c - 1) v

/-- A JS record object: an association list of string keys to values,
in insertion order (JS objects have at most one binding per key). -/
abbrev RecordObj := List (String × Value)

/-- `obj.hasOwnProperty(k)`. -/
def hasOwn (r : RecordObj) (k : String) : Bool := (r.lookup k).isSome

/-- `obj[k]` under a `hasOwnProperty` guard. -/
def getOrEmpty (r : RecordObj) (k : String) : Value := (r.lookup k).getD Value.emptyV

/-- JS property assignment `obj[k] = v`: replaces the binding of `k` in
place when present, else appends it. -/
def objSet (r : RecordObj) (k : String) (v : Value) : RecordObj :=
  if (r.lookup k).isSome then r.map (fun p => if p.1 = k then (k, v) else p)
  else r ++ [(k, v)]

/-- JS `Map.prototype.set`: replaces the value of an existing key in
place (keeping its position), else appends the entry. -/
def mapSet {α β : Type} [DecidableEq α] (m : List (α × β)) (k : α) (v : β) : List (α × β) :=
  if (m.lookup k).isSome then m.map (fun p => if p.1 = k then (k, v) else p)
  else m ++ [(k, v)]

/-- `Array.prototype.indexOf` as an optional index (the source always
compares against -1 before using the result). -/
def jsIndexOf {α : Type} [DecidableEq α] (l : List α) (a : α) : Option Nat :=
  l.findIdx? (fun x => x == a)

/-- JS `x || ""` applied to a possibly-absent value: falsy values
(absent, `""`, `0`, `false`) collapse to the empty string. -/
def jsOrEmpty : Option Value → Value
  | none => Value.emptyV
  | some v => if v.truthy then v else Value.emptyV

/-- The transpose helper of `sheetToObjectsV2`:
`matrix[0].map((_, c) => matrix.map(row => row[c]))`. -/
def transposeJS {α : Type} (dflt : α) (m : List (List α)) : List (List α) :=
  (List.range (m.getD 0 []).length).map fun c => m.map fun row => row.getD c dflt

/-- A single-quote character as a string (used to render the host's
log message without embedding quote characters in source literals). -/
def quoteS : String := String.singleton (Char.ofNat 39)

/-- The "The sheet '<name>' is empty." message text. -/
def emptySheetMessage (n : String) : String :=
  "The sheet " ++ quoteS ++ n ++ quoteS ++ " is empty."

/-- `getLastNonEmptyRow` (defined identically in `Code.js` and as an
inner helper of `objectsToSheetV2`): scan `getDataRange().getValues()`
from the bottom for a row with a non-empty value; 1 when none. -/
def Sheet.getLastNonEmptyRowS (s : Sheet) : Nat :=
  let values := s.dataRangeValues
  let r := lastPos (fun row => row.any (fun cell => cell ≠ Value.emptyV)) values
  if r = 0 then 1 else r

/-- The down-counting column scan of `getLastNonEmptyColumn`:
`scanColsDown q s0 n` checks 0-based columns `n-1, n-2, ..., s0` and
returns the first (highest) one satisfying `q`. -/
def scanColsDown (q : Nat → Bool) (s0 : Nat) : Nat → Option Nat
  | 0 => none
  | n + 1 => if n < s0 then none else if q n then some n else scanColsDown q s0 n

/-- Inner helper `getLastNonEmptyColumn(sheet, startCol)` of
`objectsToSheetV2`: scan columns from `lastCol` down to `startCol` for
one containing a non-empty value; `startCol` when none (or when the
sheet is contentless). -/
def Sheet.getLastNonEmptyColumnS (s : Sheet) (startCol : Nat) : Nat :=
  let lastCol := s.getLastColumn
  let lastRow := s.getLastRow
  if lastCol = 0 || lastRow = 0 then startCol
  else
    let data := s.getValues 1 1 lastRow lastCol
    match scanColsDown
        (fun c => data.any (fun row => row.getD c Value.emptyV ≠ Value.emptyV))
        (startCol - 1) lastCol with
    | some c => c + 1
    | none => startCol

/-- Options record of `objectsToSheetV2`. -/
structure WriteOptions where
  mode : String := "overwrite"
  pivot : Bool := false
  preserveFormulas : Bool := true
deriving DecidableEq, Repr

/-- The formula-restore double loop of normal-orientation overwrite:
replay each non-empty snapshotted formula at its original coordinate
`(startIndex + i, j + 1)`. -/
def restoreFormulasAt (startIndex : Nat) (formulas : List (List String)) (s : Sheet) : Sheet :=
  (List.range formulas.length).foldl (fun acc i =>
    (List.range (formulas.getD i []).length).foldl (fun acc2 j =>
      if (formulas.getD i []).getD j "" ≠ "" then
        acc2.setFormula1 (startIndex + i) (j + 1) ((formulas.getD i []).getD j "")
      else acc2) acc) s

/-- The formula-restore loop of pivot-orientation overwrite: replay each
non-empty snapshotted formula of the target column. -/
def restoreColFormulasAt (targetCol : Nat) (formulas : List (List String)) (s : Sheet) : Sheet :=
  (List.range formulas.length).foldl (fun acc i =>
    if (formulas.getD i []).getD 0 "" ≠ "" then
      acc.setFormula1 (i + 1) targetCol ((formulas.getD i []).getD 0 "")
    else acc) s

/-- One iteration of the preserve-formulas overlay loop (normal
orientation): read the target row's values and formulas, build the
merged row, write it, then replay formulas of the fields the record
does not supply. -/
def overlayRowStep (startIndex : Nat) (headers : List Value) (array : List RecordObj)
    (acc : Sheet) (i : Nat) : Sheet :=
  let targetRow := startIndex + i
  let obj := array.getD i []
  let currentValues := (acc.getValues targetRow 1 1 headers.length).getD 0 []
  let currentFormulas := (acc.getFormulas targetRow 1 1 headers.length).getD 0 []
  let newRow := (List.range headers.length).map fun j =>
    let header := headers.getD j Value.emptyV
    if hasOwn obj header.keyOf then getOrEmpty obj header.keyOf
    else currentValues.getD j Value.emptyV
  let acc2 := acc.setValuesM targetRow 1 [newRow]
  (List.range headers.length).foldl (fun acc3 j =>
    let header := headers.getD j Value.emptyV
    if !(hasOwn obj header.keyOf) && currentFormulas.getD j "" ≠ "" then
      acc3.setFormula1 targetRow (j + 1) (currentFormulas.getD j "")
    else acc3) acc2

/-- One iteration of the pivot-orientation overwrite loop: write one
record down the target column, snapshotting and replaying that column's
formulas when preservation is on. -/
def pivotOverwriteStep (startIndex : Nat) (properties : List Value) (numProperties : Nat)
    (preserveFormulas : Bool) (acc : Sheet) (p : Nat × RecordObj) : Sheet :=
  let targetCol := startIndex + p.1
  let obj := p.2
  let columnData := properties.map fun prop =>
    [if hasOwn obj prop.keyOf then getOrEmpty obj prop.keyOf else Value.emptyV]
  if preserveFormulas then
    let formulas := acc.getFormulas 1 targetCol numProperties 1
    let acc2 := acc.clearRegion 1 targetCol numProperties 1
    let acc3 := acc2.setValuesM 1 targetCol columnData
    restoreColFormulasAt targetCol formulas acc3
  else acc.setValuesM 1 targetCol columnData

/-- One iteration of the preserve-formulas overlay loop (pivot
orientation): merge one record into its target column and replay the
formulas of unsupplied fields. -/
def pivotOverlayStep (startIndex : Nat) (properties : List Value) (numProperties : Nat)
    (acc : Sheet) (p : Nat × RecordObj) : Sheet :=
  let targetCol := startIndex + p.1
  let obj := p.2
  let currentValues := acc.getValues 1 targetCol numProperties 1
  let currentFormulas := acc.getFormulas 1 targetCol numProperties 1
  let newColData := (List.range numProperties).map fun i =>
    let prop := properties.getD i Value.emptyV
    if hasOwn obj prop.keyOf then [getOrEmpty obj prop.keyOf]
    else currentValues.getD i []
  let acc2 := acc.setValuesM 1 targetCol newColData
  (List.range numProperties).foldl (fun acc3 i =>
    let prop := properties.getD i Value.emptyV
    if !(hasOwn obj prop.keyOf) && (currentFormulas.getD i []).getD 0 "" ≠ "" then
      acc3.setFormula1 (i + 1) targetCol ((currentFormulas.getD i []).getD 0 "")
    else acc3) acc2

/-- `objectsToSheetV2(array, sheet, headerIndex, startIndex, options)`.
Returns `none` exactly where the source throws (an invalid mode).  The
transcription follows the source's mutation order statement by
statement; value writes to a 0-sized range, on which the host throws,
act as no-ops here (the claims under proof always write at least one
cell). -/
def objectsToSheetV2 (array : List RecordObj) (sheet : Sheet)
    (headerIndex startIndex : Nat) (options : WriteOptions) : Option Sheet :=
  if ¬ options.pivot then
    -- Normal mode: write objects as rows.
    let headers := (sheet.getValues headerIndex 1 1 sheet.getLastColumn).getD 0 []
    let dataToInsert := array.map fun obj =>
      headers.map fun header =>
        if hasOwn obj header.keyOf then getOrEmpty obj header.keyOf else Value.emptyV
    if options.mode = "overwrite" then
      let lastRow := sheet.getLastRow
      if options.preserveFormulas && lastRow ≥ startIndex then
        let numRows := lastRow - startIndex + 1
        let formulas := sheet.getFormulas startIndex 1 numRows headers.length
        let s1 := sheet.clearRegion startIndex 1 numRows headers.length
        let s2 := if dataToInsert.length > 0 then s1.setValuesM startIndex 1 dataToInsert else s1
        some (restoreFormulasAt startIndex formulas s2)
      else
        let s1 := if sheet.getLastRow ≥ startIndex then
            sheet.clearRegion startIndex 1 (sheet.getLastRow - startIndex + 1) headers.length
          else sheet
        let s2 := if dataToInsert.length > 0 then s1.setValuesM startIndex 1 dataToInsert else s1
        some s2
    else if options.mode = "append" then
      let lastRow := sheet.getLastNonEmptyRowS
      some (if dataToInsert.length > 0 then sheet.setValuesM (lastRow + 1) 1 dataToInsert else sheet)
    else if options.mode = "overlay" then
      if ¬ options.preserveFormulas then
        let currentData := sheet.getValues startIndex 1 dataToInsert.length headers.length
        let updated := (List.range dataToInsert.length).map fun i =>
          (List.range headers.length).map fun j =>
            let header := headers.getD j Value.emptyV
            if hasOwn (array.getD i []) header.keyOf then getOrEmpty (array.getD i []) header.keyOf
            else (currentData.getD i []).getD j Value.emptyV
        some (sheet.setValuesM startIndex 1 updated)
      else
        some ((List.range dataToInsert.length).foldl (overlayRowStep startIndex headers array) sheet)
    else none
  else
    -- Pivot mode: write data as columns.
    let lastRow := sheet.getLastRow
    let propertyNames := sheet.getValues 1 headerIndex lastRow 1
    let properties := propertyNames.map fun row => row.getD 0 Value.emptyV
    let numProperties := properties.length
    if options.mode = "append" then
      let baseCol := sheet.getLastNonEmptyColumnS startIndex + 1
      let batchData := (List.range numProperties).map fun i =>
        let prop := properties.getD i Value.emptyV
        array.map fun obj =>
          if hasOwn obj prop.keyOf then getOrEmpty obj prop.keyOf else Value.emptyV
      some (sheet.setValuesM 1 baseCol batchData)
    else if options.mode = "overwrite" then
      some (array.enum.foldl
        (pivotOverwriteStep startIndex properties numProperties options.preserveFormulas) sheet)
    else if options.mode = "overlay" then
      if ¬ options.preserveFormulas then
        let numNewCols := array.length
        let currentData := sheet.getValues 1 startIndex numProperties numNewCols
        let updated := (List.range numProperties).map fun i =>
          let prop := properties.getD i Value.emptyV
          (List.range numNewCols).map fun j =>
            if hasOwn (array.getD j []) prop.keyOf then getOrEmpty (array.getD j []) prop.keyOf
            else (currentData.getD i []).getD j Value.emptyV
        some (sheet.setValuesM 1 startIndex updated)
      else
        some (array.enum.foldl (pivotOverlayStep startIndex properties numProperties) sheet)
    else none

/-- Options record of `sheetToObjectsV2`.  The source computes a
`lastColumnIndex` from `lastColumn` but never uses it on any V2 code
path, so the field is carried only for signature fidelity. -/
structure DecodeOptions where
  lastColumn : Option Nat := none
  mute : Bool := true
  useDisplayDates : Bool := true
  pivot : Bool := false
deriving DecidableEq, Repr

/-- The three result shapes of `sheetToObjectsV2`: the `null` early
return, the tagged `{ message, data: [] }` empty-result, and a plain
array of records. -/
inductive DecodeResult where
  | nullResult
  | emptyMessage (message : String)
  | objects (arr : List RecordObj)
deriving DecidableEq, Repr

/-- The shared tail of `sheetToObjectsV2` (from the blank-row filter to
the record construction).  `displayData`, when present, is indexed by
the position in the *filtered* data but read from the unfiltered
matrix, exactly as in the source. -/
def decodeRows (sheetName : String) (headers : List Value) (data : List (List Value))
    (displayData : Option (List (List String))) (useDisplayDates : Bool) : DecodeResult :=
  let filteredData := data.filter fun row => row.any fun cell => cell ≠ Value.emptyV
  if filteredData.length = 0 then .emptyMessage (emptySheetMessage sheetName)
  else
    .objects (filteredData.enum.map fun rp =>
      headers.enum.foldl (fun obj cp =>
        let header := cp.2
        if ¬ header.truthy then obj
        else
          let value := rp.2.getD cp.1 Value.emptyV
          if value.isDate && useDisplayDates && displayData.isSome then
            objSet obj header.keyOf
              (Value.str (((displayData.getD []).getD rp.1 []).getD cp.1 ""))
          else if value ≠ Value.emptyV then objSet obj header.keyOf value
          else obj) [])

/-- `sheetToObjectsV2(sheet, headerIndex, startIndex, options)`. -/
def sheetToObjectsV2 (sheet : Sheet) (headerIndex startIndex : Nat)
    (options : DecodeOptions) : DecodeResult :=
  if ¬ options.pivot then
    let headers := (sheet.getValues headerIndex 1 1 sheet.getLastColumn).getD 0 []
    let lastRow := sheet.getLastRow
    if lastRow < startIndex then .nullResult
    else
      let data := sheet.getValues startIndex 1 (lastRow - startIndex + 1) headers.length
      let displayData := if options.useDisplayDates then
          some (sheet.getDisplayValues startIndex 1 (lastRow - startIndex + 1) headers.length)
        else none
      decodeRows sheet.sname headers data displayData options.useDisplayDates
  else
    let headers := (sheet.getValues 1 headerIndex sheet.getLastRow 1).map
      fun row => row.getD 0 Value.emptyV
    let lastRow := sheet.getLastRow
    let lastCol := sheet.getLastColumn
    let data := transposeJS Value.emptyV (sheet.getValues 1 startIndex lastRow (lastCol - startIndex + 1))
    let displayData := if options.useDisplayDates then
        some (transposeJS "" (sheet.getDisplayValues 1 startIndex lastRow (lastCol - startIndex + 1)))
      else none
    decodeRows sheet.sname headers data displayData options.useDisplayDates

/-- The `existingRowsMap` of `upsertRows`: for sheet rows 1 and later,
`map.set(rowVal, i)` whenever the match cell is non-empty (so a
duplicated match value keeps the highest row index). -/
def buildExistingRowsMap (sheetData : List (List Value)) (col : Nat) : List (Value × Nat) :=
  ((List.range sheetData.length).drop 1).foldl (fun m i =>
    let rowVal := (sheetData.getD i []).getD col Value.emptyV
    if rowVal ≠ Value.emptyV then mapSet m rowVal i else m) []

/-- Step 4 of `upsertRows` for one matched record: write each of the
record's fields that names a sheet header into the matched row, one
single-cell `setValue` per field. -/
def upsertUpdateStep (headers : List Value) (s : Sheet) (p : Nat × RecordObj) : Sheet :=
  p.2.foldl (fun s2 kv =>
    match jsIndexOf headers (Value.str kv.1) with
    | some colIndex => s2.setValue1 (p.1 + 1) (colIndex + 1) kv.2
    | none => s2) s

/-- Step 3 of `upsertRows`: classify each record as an update of an
existing row (`Sum.inr (rowIndex, record)`) or a new record to append
(`Sum.inl record`), by the `!matchValue || !existingRowsMap.has(...)`
test. -/
def upsertClassify (existingRowsMap : List (Value × Nat)) (columnToMatch : String)
    (data : List RecordObj) : List (Sum RecordObj (Nat × RecordObj)) :=
  data.map fun rowObject =>
    match rowObject.lookup columnToMatch with
    | none => Sum.inl rowObject
    | some v =>
      if ¬ v.truthy then Sum.inl rowObject
      else match existingRowsMap.lookup v with
        | none => Sum.inl rowObject
        | some rowIndex => Sum.inr (rowIndex, rowObject)

/-- The `newRecords` list of `upsertRows`. -/
def newRecordsOf (classify : List (Sum RecordObj (Nat × RecordObj))) : List RecordObj :=
  classify.filterMap fun x => match x with | .inl r => some r | .inr _ => none

/-- The `existingUpdates` list of `upsertRows`. -/
def existingUpdatesOf (classify : List (Sum RecordObj (Nat × RecordObj))) :
    List (Nat × RecordObj) :=
  classify.filterMap fun x => match x with | .inl _ => none | .inr p => some p

/-- The encoded rows appended by step 5 of `upsertRows` (full
field-padding rule over the sheet's headers). -/
def upsertRowsToAppend (headers : List Value) (newRecords : List RecordObj) :
    List (List Value) :=
  newRecords.map fun rowObject =>
    headers.map fun header =>
      if hasOwn rowObject header.keyOf then getOrEmpty rowObject header.keyOf
      else Value.emptyV

/-- `upsertRows(sheet, data, columnToMatch, headerRowIndex)`.  The
`headerRowIndex` parameter of the source is never read in the body and
is omitted.  Returns `none` exactly where the source throws (match
column absent from the headers). -/
def upsertRows (sheet : Sheet) (data : List RecordObj) (columnToMatch : String) : Option Sheet :=
  if data.length = 0 then some sheet
  else
    let sheetData := sheet.dataRangeValues
    let headers := sheetData.getD 0 []
    match jsIndexOf headers (Value.str columnToMatch) with
    | none => none
    | some columnIndexToMatch =>
      let existingRowsMap := buildExistingRowsMap sheetData columnIndexToMatch
      let classify := upsertClassify existingRowsMap columnToMatch data
      let newRecords := newRecordsOf classify
      let existingUpdates := existingUpdatesOf classify
      -- Step 4: per-field single-cell writes for matched rows.
      let s4 := existingUpdates.foldl (upsertUpdateStep headers) sheet
      -- Step 5: batch append of the unmatched records.
      let s5 :=
        if newRecords.length > 0 then
          s4.setValuesM (s4.getLastNonEmptyRowS + 1) 1 (upsertRowsToAppend headers newRecords)
        else s4
      some s5

/-- The `dataLookup` map of `findAndUpdateRows`
(`new Map(data.map(obj => [obj[columnToMatch], obj]))`) queried at a
sheet cell value: the last record whose match key equals it. -/
def dataLookupGet (data : List RecordObj) (c : String) (v : Value) : Option RecordObj :=
  (data.filter fun r => r.lookup c == some v).getLast?

/-- One iteration of `findAndUpdateRows`' per-column batch
read-modify-write: read the column from row 2 down, patch the cells of
every matched row with the matching record's value for this column
(falsy values collapsing to `""`), and write the column back. -/
def findUpdateColumnStep (data : List RecordObj) (columnToMatch : String)
    (sheetData : List (List Value)) (columnIndexToMatch : Nat) (rowsToUpdate : List Nat)
    (s : Sheet) (ci : Nat × String) : Sheet :=
  let columnValues := s.getValues 2 (ci.1 + 1) (sheetData.length - 1) 1
  let updated := rowsToUpdate.foldl (fun cv rowIndex =>
    let matched := (dataLookupGet data columnToMatch
      ((sheetData.getD rowIndex []).getD columnIndexToMatch Value.emptyV)).getD []
    setAt cv (rowIndex - 1) []
      (setAt (cv.getD (rowIndex - 1) []) 0 Value.emptyV (jsOrEmpty (matched.lookup ci.2))))
    columnValues
  s.setValuesM 2 (ci.1 + 1) updated

/-- `findAndUpdateRows(sheet, data, columnToMatch, columnsToAdd)`.
Returns `none` exactly where the source throws (match column absent
from the headers; the parameter-shape throw cannot fire in the typed
model). -/
def findAndUpdateRows (sheet : Sheet) (data : List RecordObj) (columnToMatch : String)
    (columnsToAdd : List String) : Option Sheet :=
  let sheetData := sheet.dataRangeValues
  if sheetData.length < 2 then some sheet
  else
    let headers := sheetData.getD 0 []
    match jsIndexOf headers (Value.str columnToMatch) with
    | none => none
    | some columnIndexToMatch =>
      let columnsInfo := columnsToAdd.filterMap fun column =>
        (jsIndexOf headers (Value.str column)).map fun index => (index, column)
      if columnsInfo.length = 0 then some sheet
      else
        let rowsToUpdate := ((List.range sheetData.length).drop 1).filter fun i =>
          (dataLookupGet data columnToMatch
            ((sheetData.getD i []).getD columnIndexToMatch Value.emptyV)).isSome
        if rowsToUpdate.length = 0 then some sheet
        else
          some (columnsInfo.foldl
            (findUpdateColumnStep data columnToMatch sheetData columnIndexToMatch rowsToUpdate)
            sheet)

/-! ### Characterization of the grid primitives -/

theorem getD_setAt {α : Type} (l : List α) (i j : Nat) (d a : α) :
    (setAt l i d a).getD j d = if j = i then a else l.getD j d := by
  induction i generalizing l j with
  | zero =>
    cases l with
    | nil => cases j <;> simp [setAt]
    | cons x t => cases j <;> simp [setAt]
  | succ n ih =>
    cases l with
    | nil =>
      cases j with
      | zero => simp [setAt]
      | succ m => simpa [setAt] using ih [] m
    | cons x t =>
      cases j with
      | zero => simp [setAt]
      | succ m => simpa [setAt] using ih t m

theorem cell0_setCell0 (s : Sheet) (r c x y : Nat) (cl : Cell) :
    (s.setCell0 r c cl).cell0 x y = if x = r ∧ y = c then cl else s.cell0 x y := by
  unfold Sheet.setCell0 Sheet.cell0
  simp only
  rw [getD_setAt]
  by_cases hx : x = r
  · subst hx
    rw [if_pos rfl, getD_setAt]
    by_cases hy : y = c
    · simp [hy]
    · simp [hy]
  · simp [hx]

theorem cell0_writeValue0 (s : Sheet) (r c x y : Nat) (v : Value) :
    (s.writeValue0 r c v).cell0 x y = if x = r ∧ y = c then ⟨v, ""⟩ else s.cell0 x y := by
  unfold Sheet.writeValue0
  exact cell0_setCell0 s r c x y ⟨v, ""⟩

theorem cell0_writeFormula0 (s : Sheet) (r c x y : Nat) (f : String) :
    (s.writeFormula0 r c f).cell0 x y =
      if x = r ∧ y = c then ⟨(s.cell0 r c).value, f⟩ else s.cell0 x y := by
  unfold Sheet.writeFormula0
  exact cell0_setCell0 s r c x y ⟨(s.cell0 r c).value, f⟩

theorem cell0_setRow0 (s : Sheet) (r c x y : Nat) (vs : List Value) :
    (s.setRow0 r c vs).cell0 x y =
      if x = r ∧ c ≤ y ∧ y < c + vs.length then ⟨vs.getD (y - c) Value.emptyV, ""⟩
      else s.cell0 x y := by
  induction vs generalizing c s with
  | nil =>
    simp only [Sheet.setRow0, List.length_nil]
    rw [if_neg (by omega)]
  | cons v vs ih =>
    show ((s.writeValue0 r c v).setRow0 r (c + 1) vs).cell0 x y = _
    rw [ih, cell0_writeValue0]
    by_cases h1 : x = r ∧ c + 1 ≤ y ∧ y < c + 1 + vs.length
    · rw [if_pos h1, if_pos (show x = r ∧ c ≤ y ∧ y < c + (v :: vs).length from by
        simp only [List.length_cons]
        exact ⟨h1.1, by omega, by omega⟩)]
      have h2 : y - c = (y - (c + 1)) + 1 := by omega
      rw [h2, List.getD_cons_succ]
    · rw [if_neg h1]
      by_cases h3 : x = r ∧ y = c
      · rw [if_pos h3, if_pos (show x = r ∧ c ≤ y ∧ y < c + (v :: vs).length from by
          simp only [List.length_cons]
          exact ⟨h3.1, by omega, by omega⟩)]
        have h2 : y - c = 0 := by omega
        rw [h2, List.getD_cons_zero]
      · rw [if_neg h3, if_neg (by
          intro h
          rcases h with ⟨hx, hcy, hlt⟩
          rw [List.length_cons] at hlt
          rcases Nat.eq_or_lt_of_le hcy with hy | hy
          · exact h3 ⟨hx, hy.symm⟩
          · exact h1 ⟨hx, hy, by omega⟩)]

theorem cell0_setVals0 (s : Sheet) (r c x y : Nat) (m : List (List Value)) :
    (s.setVals0 r c m).cell0 x y =
      if r ≤ x ∧ x < r + m.length ∧ c ≤ y ∧ y < c + (m.getD (x - r) []).length
      then ⟨(m.getD (x - r) []).getD (y - c) Value.emptyV, ""⟩
      else s.cell0 x y := by
  induction m generalizing r s with
  | nil =>
    simp only [Sheet.setVals0, List.length_nil]
    rw [if_neg (by omega)]
  | cons row rest ih =>
    show ((s.setRow0 r c row).setVals0 (r + 1) c rest).cell0 x y = _
    rw [ih, cell0_setRow0]
    by_cases h1 : r + 1 ≤ x ∧ x < r + 1 + rest.length ∧ c ≤ y ∧
        y < c + (rest.getD (x - (r + 1)) []).length
    · have hxr : x - r = (x - (r + 1)) + 1 := by omega
      rw [if_pos h1, if_pos (show r ≤ x ∧ x < r + (row :: rest).length ∧ c ≤ y ∧
          y < c + ((row :: rest).getD (x - r) []).length from by
        rw [List.length_cons, hxr, List.getD_cons_succ]
        exact ⟨by omega, by omega, h1.2.2.1, h1.2.2.2⟩)]
      rw [hxr, List.getD_cons_succ]
    · rw [if_neg h1]
      by_cases h2 : x = r ∧ c ≤ y ∧ y < c + row.length
      · have hxr : x - r = 0 := by omega
        rw [if_pos h2, if_pos (show r ≤ x ∧ x < r + (row :: rest).length ∧ c ≤ y ∧
            y < c + ((row :: rest).getD (x - r) []).length from by
          rw [List.length_cons, hxr, List.getD_cons_zero]
          exact ⟨by omega, by omega, h2.2.1, h2.2.2⟩)]
        rw [hxr, List.getD_cons_zero]
      · rw [if_neg h2, if_neg (by
          intro h
          rcases h with ⟨hrx, hxl, hcy, hyl⟩
          rw [List.length_cons] at hxl
          rcases Nat.lt_or_ge x (r + 1) with hx | hx
          · have hxr0 : x = r := by omega
            have hz : x - r = 0 := by omega
            rw [hz, List.getD_cons_zero] at hyl
            exact h2 ⟨hxr0, hcy, hyl⟩
          · have hxr : x - r = (x - (r + 1)) + 1 := by omega
            rw [hxr, List.getD_cons_succ] at hyl
            exact h1 ⟨hx, by omega, hcy, hyl⟩)]

theorem cell0_setValuesM (s : Sheet) (r c : Nat) (m : List (List Value)) (x y : Nat) :
    (s.setValuesM r c m).cell0 x y =
      if r - 1 ≤ x ∧ x < r - 1 + m.length ∧ c - 1 ≤ y ∧
          y < c - 1 + (m.getD (x - (r - 1)) []).length
      then ⟨(m.getD (x - (r - 1)) []).getD (y - (c - 1)) Value.emptyV, ""⟩
      else s.cell0 x y :=
  cell0_setVals0 s (r - 1) (c - 1) x y m

theorem getD_replicate_self {α : Type} (n i : Nat) (a : α) :
    (List.replicate n a).getD i a = a := by
  induction n generalizing i with
  | zero => rfl
  | succ m ih =>
    cases i with
    | zero => rfl
    | succ k => simp [List.replicate]

theorem getD_map_range {α : Type} (n i : Nat) (f : Nat → α) (d : α) :
    ((List.range n).map f).getD i d = if i < n then f i else d := by
  by_cases h : i < n
  · rw [if_pos h, List.getD_eq_getElem?_getD, List.getElem?_map, List.getElem?_range h]
    rfl
  · rw [if_neg h, List.getD_eq_getElem?_getD,
      List.getElem?_eq_none (by simpa using Nat.le_of_not_lt h)]
    rfl

theorem cell0_clearRegion (s : Sheet) (r c nR nC x y : Nat) :
    (s.clearRegion r c nR nC).cell0 x y =
      if r - 1 ≤ x ∧ x < r - 1 + nR ∧ c - 1 ≤ y ∧ y < c - 1 + nC
      then Cell.emptyC else s.cell0 x y := by
  unfold Sheet.clearRegion
  rw [cell0_setValuesM]
  have hrowlen : ∀ i : Nat,
      ((List.replicate nR (List.replicate nC Value.emptyV)).getD i []).length ≤ nC := by
    intro i
    rcases Nat.lt_or_ge i nR with hlt | hge
    · rw [List.getD_eq_getElem (_ : List (List Value)) [] (by simpa using hlt)]
      simp
    · rw [List.getD_eq_default (_ : List (List Value)) [] (by simp only [List.length_replicate]; omega)]
      simp
  by_cases h : r - 1 ≤ x ∧ x < r - 1 + nR ∧ c - 1 ≤ y ∧ y < c - 1 + nC
  · have hr : x - (r - 1) < nR := by omega
    have hrow : (List.replicate nR (List.replicate nC Value.emptyV)).getD (x - (r - 1)) []
        = List.replicate nC Value.emptyV := by
      rw [List.getD_eq_getElem (_ : List (List Value)) [] (by simpa using hr)]
      simp
    rw [if_pos h, if_pos (by
      rw [List.length_replicate, hrow, List.length_replicate]
      exact ⟨h.1, h.2.1, h.2.2.1, h.2.2.2⟩)]
    rw [hrow, getD_replicate_self]
    rfl
  · rw [if_neg h, if_neg (by
      rw [List.length_replicate]
      intro hcon
      exact h ⟨hcon.1, hcon.2.1, hcon.2.2.1, by
        have := hrowlen (x - (r - 1))
        omega⟩)]

/-! ### Content bounds: `lastPos`, `getLastRow`, `getLastColumn` -/

theorem lastPos_le_length {α : Type} (p : α → Bool) (l : List α) :
    lastPos p l ≤ l.length := by
  induction l with
  | nil => simp [lastPos]
  | cons a t ih =>
    simp only [lastPos, List.length_cons]
    split
    · omega
    · split <;> omega

theorem lastPos_eq_zero_iff {α : Type} (p : α → Bool) (l : List α) :
    lastPos p l = 0 ↔ ∀ a ∈ l, p a = false := by
  induction l with
  | nil => simp [lastPos]
  | cons a t ih =>
    simp only [lastPos, List.mem_cons]
    constructor
    · intro h b hb
      by_cases ht : lastPos p t > 0
      · rw [if_pos ht] at h
        omega
      · rw [if_neg ht] at h
        rcases hb with hb | hb
        · subst hb
          by_cases hpa : p b
          · rw [if_pos hpa] at h
            omega
          · simpa using hpa
        · exact (ih.mp (by omega)) b hb
    · intro h
      have ht : lastPos p t = 0 := ih.mpr (fun b hb => h b (Or.inr hb))
      rw [ht]
      simp only [gt_iff_lt, Nat.lt_irrefl, if_false]
      rw [h a (Or.inl rfl)]
      simp

theorem not_p_getD_of_lastPos_le {α : Type} (p : α → Bool) (l : List α) (d : α)
    (hd : p d = false) (j : Nat) (h : lastPos p l ≤ j) : p (l.getD j d) = false := by
  induction l generalizing j with
  | nil => simpa [List.getD] using hd
  | cons a t ih =>
    simp only [lastPos] at h
    cases j with
    | zero =>
      by_cases ht : lastPos p t > 0
      · rw [if_pos ht] at h
        omega
      · rw [if_neg ht] at h
        by_cases hpa : p a
        · rw [if_pos hpa] at h
          omega
        · simpa using hpa
    | succ k =>
      simp only [List.getD_cons_succ]
      apply ih
      by_cases ht : lastPos p t > 0
      · rw [if_pos ht] at h
        omega
      · omega

theorem lt_lastPos_of_p_getD {α : Type} (p : α → Bool) (l : List α) (d : α)
    (hd : p d = false) (j : Nat) (h : p (l.getD j d) = true) : j < lastPos p l := by
  by_contra hcon
  rw [not_p_getD_of_lastPos_le p l d hd j (by omega)] at h
  exact Bool.false_ne_true h

theorem cell_ne_empty_iff_hasContent (c : Cell) :
    (c ≠ Cell.emptyC) ↔ c.hasContent = true := by
  cases c with
  | mk v f =>
    simp only [Cell.hasContent, Cell.emptyC, Bool.or_eq_true, decide_eq_true_eq, ne_eq,
      Cell.mk.injEq, not_and]
    constructor
    · intro h
      by_cases hv : v = Value.emptyV
      · right
        subst hv
        intro hf
        exact h rfl hf
      · left
        simpa using hv
    · intro h hv hf
      rcases h with h | h
      · rw [hv] at h
        simp at h
      · rw [hf] at h
        simp at h

/-- Cells at or beyond `getLastRow` are blank. -/
theorem cell0_empty_of_lastRow_le (s : Sheet) (x y : Nat) (h : s.getLastRow ≤ x) :
    s.cell0 x y = Cell.emptyC := by
  have hrow : (s.grid.getD x []).any Cell.hasContent = false :=
    not_p_getD_of_lastPos_le _ s.grid [] rfl x h
  unfold Sheet.cell0
  by_cases hy : y < (s.grid.getD x []).length
  · rw [List.getD_eq_getElem (s.grid.getD x []) Cell.emptyC hy]
    by_contra hne
    have hmem := List.getElem_mem hy
    have := List.any_eq_false.mp hrow _ hmem
    rw [(cell_ne_empty_iff_hasContent _).mp hne] at this
    simp at this
  · exact List.getD_eq_default _ _ (by omega)

/-- Cells at or beyond `getLastColumn` are blank. -/
theorem cell0_empty_of_lastCol_le (s : Sheet) (x y : Nat) (h : s.getLastColumn ≤ y) :
    s.cell0 x y = Cell.emptyC := by
  unfold Sheet.cell0
  by_cases hx : x < s.grid.length
  · have hmax : lastPos Cell.hasContent (s.grid.getD x []) ≤ s.getLastColumn := by
      unfold Sheet.getLastColumn
      have hmem : lastPos Cell.hasContent (s.grid.getD x []) ∈ s.grid.map (lastPos Cell.hasContent) := by
        rw [List.getD_eq_getElem s.grid [] hx]
        exact List.mem_map_of_mem _ (List.getElem_mem hx)
      exact List.le_max_of_le (l := s.grid.map (lastPos Cell.hasContent)) hmem (le_refl _)
    by_contra hne
    have hcont : Cell.hasContent ((s.grid.getD x []).getD y Cell.emptyC) = true :=
      (cell_ne_empty_iff_hasContent _).mp hne
    have := lt_lastPos_of_p_getD Cell.hasContent (s.grid.getD x []) Cell.emptyC rfl y hcont
    omega
  · rw [List.getD_eq_default s.grid [] (by omega)]
    cases y <;> rfl

/-- A non-blank cell witnesses `getLastRow` past its row. -/
theorem lt_lastRow_of_cell_ne_empty (s : Sheet) (x y : Nat) (h : s.cell0 x y ≠ Cell.emptyC) :
    x < s.getLastRow := by
  by_contra hcon
  exact h (cell0_empty_of_lastRow_le s x y (by omega))

/-- A non-blank cell witnesses `getLastColumn` past its column. -/
theorem lt_lastCol_of_cell_ne_empty (s : Sheet) (x y : Nat) (h : s.cell0 x y ≠ Cell.emptyC) :
    y < s.getLastColumn := by
  by_contra hcon
  exact h (cell0_empty_of_lastCol_le s x y (by omega))

/-! ### Fold frame lemma -/

/-- A fold whose every step leaves a given cell unchanged leaves that
cell unchanged. -/
theorem cell0_foldl {β : Type} (l : List β) (f : Sheet → β → Sheet) (s : Sheet) (x y : Nat)
    (h : ∀ t b, b ∈ l → (f t b).cell0 x y = t.cell0 x y) :
    (l.foldl f s).cell0 x y = s.cell0 x y := by
  induction l generalizing s with
  | nil => rfl
  | cons b t ih =>
    rw [List.foldl_cons, ih (f s b) (fun u e he => h u e (List.mem_cons_of_mem b he)),
      h s b (List.mem_cons_self b t)]

theorem cell0_setValue1 (s : Sheet) (r c x y : Nat) (v : Value) :
    (s.setValue1 r c v).cell0 x y =
      if x = r - 1 ∧ y = c - 1 then ⟨v, ""⟩ else s.cell0 x y :=
  cell0_writeValue0 s (r - 1) (c - 1) x y v

theorem cell0_setFormula1 (s : Sheet) (r c x y : Nat) (f : String) :
    (s.setFormula1 r c f).cell0 x y =
      if x = r - 1 ∧ y = c - 1 then ⟨(s.cell0 (r - 1) (c - 1)).value, f⟩ else s.cell0 x y :=
  cell0_writeFormula0 s (r - 1) (c - 1) x y f

/-- Generic shape of the formula-replay loops along one row: a fold
over column indices that conditionally rewrites the formula of cell
`(rIdx1, j + 1)` (1-based).  The stored value of every cell is
untouched, and the formula at `(rIdx1 - 1, y)` ends up rewritten
exactly when the condition holds at `y`. -/
theorem cell0_condRestoreRow (rIdx1 : Nat) (q : Nat → Prop)
    [DecidablePred q] (fn : Nat → String) (n : Nat) (s : Sheet) (x y : Nat) :
    ((List.range n).foldl (fun acc j =>
        if q j then acc.setFormula1 rIdx1 (j + 1) (fn j) else acc) s).cell0 x y =
      if x = rIdx1 - 1 ∧ y < n ∧ q y then ⟨(s.cell0 x y).value, fn y⟩ else s.cell0 x y := by
  induction n with
  | zero =>
    rw [if_neg (by rintro ⟨-, h, -⟩; omega)]
    rfl
  | succ n ih =>
    rw [List.range_succ, List.foldl_append, List.foldl_cons, List.foldl_nil]
    by_cases hx : x = rIdx1 - 1
    · by_cases hy : n = y
      · subst hy
        subst hx
        by_cases hq : q n
        · rw [if_pos hq, cell0_setFormula1]
          simp only [Nat.add_sub_cancel]
          rw [if_pos ⟨trivial, trivial⟩, ih, if_neg (by rintro ⟨-, h, -⟩; omega),
            if_pos ⟨trivial, by omega, hq⟩]
        · rw [if_neg hq, ih, if_neg (by rintro ⟨-, h, -⟩; omega),
            if_neg (by rintro ⟨-, -, h⟩; exact hq h)]
      · by_cases hq : q n
        · rw [if_pos hq, cell0_setFormula1, if_neg (by
            rintro ⟨-, h2⟩
            exact hy (by omega)), ih]
          by_cases hc : x = rIdx1 - 1 ∧ y < n ∧ q y
          · rw [if_pos hc, if_pos ⟨hc.1, by omega, hc.2.2⟩]
          · rw [if_neg hc, if_neg (by rintro ⟨ha, hb, hcq⟩; exact hc ⟨ha, by omega, hcq⟩)]
        · rw [if_neg hq, ih]
          by_cases hc : x = rIdx1 - 1 ∧ y < n ∧ q y
          · rw [if_pos hc, if_pos ⟨hc.1, by omega, hc.2.2⟩]
          · rw [if_neg hc, if_neg (by rintro ⟨ha, hb, hcq⟩; exact hc ⟨ha, by omega, hcq⟩)]
    · by_cases hq : q n
      · rw [if_pos hq, cell0_setFormula1, if_neg (by rintro ⟨h1, -⟩; exact hx h1), ih,
          if_neg (by rintro ⟨h1, -⟩; exact hx h1), if_neg (by rintro ⟨h1, -⟩; exact hx h1)]
      · rw [if_neg hq, ih, if_neg (by rintro ⟨h1, -⟩; exact hx h1),
          if_neg (by rintro ⟨h1, -⟩; exact hx h1)]

/-- Generic shape of the formula-replay loops down one column: a fold
over row indices that conditionally rewrites the formula of cell
`(i + 1, cIdx1)` (1-based). -/
theorem cell0_condRestoreCol (cIdx1 : Nat) (q : Nat → Prop)
    [DecidablePred q] (fn : Nat → String) (n : Nat) (s : Sheet) (x y : Nat) :
    ((List.range n).foldl (fun acc i =>
        if q i then acc.setFormula1 (i + 1) cIdx1 (fn i) else acc) s).cell0 x y =
      if y = cIdx1 - 1 ∧ x < n ∧ q x then ⟨(s.cell0 x y).value, fn x⟩ else s.cell0 x y := by
  induction n with
  | zero =>
    rw [if_neg (by rintro ⟨-, h, -⟩; omega)]
    rfl
  | succ n ih =>
    rw [List.range_succ, List.foldl_append, List.foldl_cons, List.foldl_nil]
    by_cases hy : y = cIdx1 - 1
    · by_cases hx : n = x
      · subst hx
        subst hy
        by_cases hq : q n
        · rw [if_pos hq, cell0_setFormula1]
          simp only [Nat.add_sub_cancel]
          rw [if_pos ⟨trivial, trivial⟩, ih, if_neg (by rintro ⟨-, h, -⟩; omega),
            if_pos ⟨trivial, by omega, hq⟩]
        · rw [if_neg hq, ih, if_neg (by rintro ⟨-, h, -⟩; omega),
            if_neg (by rintro ⟨-, -, h⟩; exact hq h)]
      · by_cases hq : q n
        · rw [if_pos hq, cell0_setFormula1, if_neg (by
            rintro ⟨h2, -⟩
            exact hx (by omega)), ih]
          by_cases hc : y = cIdx1 - 1 ∧ x < n ∧ q x
          · rw [if_pos hc, if_pos ⟨hc.1, by omega, hc.2.2⟩]
          · rw [if_neg hc, if_neg (by rintro ⟨ha, hb, hcq⟩; exact hc ⟨ha, by omega, hcq⟩)]
        · rw [if_neg hq, ih]
          by_cases hc : y = cIdx1 - 1 ∧ x < n ∧ q x
          · rw [if_pos hc, if_pos ⟨hc.1, by omega, hc.2.2⟩]
          · rw [if_neg hc, if_neg (by rintro ⟨ha, hb, hcq⟩; exact hc ⟨ha, by omega, hcq⟩)]
    · by_cases hq : q n
      · rw [if_pos hq, cell0_setFormula1, if_neg (by rintro ⟨-, h1⟩; exact hy h1), ih,
          if_neg (by rintro ⟨h1, -⟩; exact hy h1), if_neg (by rintro ⟨h1, -⟩; exact hy h1)]
      · rw [if_neg hq, ih, if_neg (by rintro ⟨h1, -⟩; exact hy h1),
          if_neg (by rintro ⟨h1, -⟩; exact hy h1)]

theorem cell0_restoreFormulasAtAux (st : Nat) (hst : 1 ≤ st) (F : List (List String))
    (n : Nat) (s : Sheet) (x y : Nat) :
    ((List.range n).foldl (fun acc i =>
        (List.range (F.getD i []).length).foldl (fun acc2 j =>
          if (F.getD i []).getD j "" ≠ "" then
            acc2.setFormula1 (st + i) (j + 1) ((F.getD i []).getD j "")
          else acc2) acc) s).cell0 x y =
      if st - 1 ≤ x ∧ x - (st - 1) < n ∧ (F.getD (x - (st - 1)) []).getD y "" ≠ ""
      then ⟨(s.cell0 x y).value, (F.getD (x - (st - 1)) []).getD y ""⟩ else s.cell0 x y := by
  induction n with
  | zero =>
    rw [if_neg (by rintro ⟨-, h, -⟩; omega)]
    rfl
  | succ n ih =>
    rw [List.range_succ, List.foldl_append, List.foldl_cons, List.foldl_nil,
      cell0_condRestoreRow (st + n) (fun j => (F.getD n []).getD j "" ≠ "")
        (fun j => (F.getD n []).getD j "") ((F.getD n []).length) _ x y]
    by_cases hxn : x = (st + n) - 1
    · have hxs : x - (st - 1) = n := by omega
      have hge : st - 1 ≤ x := by omega
      by_cases hcond : y < (F.getD n []).length ∧ (F.getD n []).getD y "" ≠ ""
      · rw [if_pos ⟨hxn, hcond.1, hcond.2⟩, ih, if_neg (by rintro ⟨-, h, -⟩; omega), hxs,
          if_pos ⟨hge, by omega, hcond.2⟩]
      · have hnot : ¬ ((F.getD n []).getD y "" ≠ "") := by
          intro hne
          refine hcond ⟨?_, hne⟩
          by_contra hylen
          exact hne (List.getD_eq_default _ _ (by omega))
        rw [if_neg (by rintro ⟨-, hb, hc⟩; exact hcond ⟨hb, hc⟩), ih,
          if_neg (by rintro ⟨-, h, -⟩; omega),
          if_neg (by rintro ⟨-, -, hc⟩; rw [hxs] at hc; exact hnot hc)]
    · rw [if_neg (by rintro ⟨h1, -⟩; exact hxn h1), ih]
      by_cases hc : st - 1 ≤ x ∧ x - (st - 1) < n ∧ (F.getD (x - (st - 1)) []).getD y "" ≠ ""
      · rw [if_pos hc, if_pos ⟨hc.1, by omega, hc.2.2⟩]
      · rw [if_neg hc, if_neg (by
          rintro ⟨ha, hb, hcq⟩
          exact hc ⟨ha, by omega, hcq⟩)]

/-- The cell-level effect of the overwrite formula replay: inside the
snapshot's footprint a non-empty formula is reimposed over whatever
value is present; all other cells are untouched. -/
theorem cell0_restoreFormulasAt (st : Nat) (hst : 1 ≤ st) (F : List (List String))
    (s : Sheet) (x y : Nat) :
    (restoreFormulasAt st F s).cell0 x y =
      if st - 1 ≤ x ∧ x - (st - 1) < F.length ∧ (F.getD (x - (st - 1)) []).getD y "" ≠ ""
      then ⟨(s.cell0 x y).value, (F.getD (x - (st - 1)) []).getD y ""⟩ else s.cell0 x y :=
  cell0_restoreFormulasAtAux st hst F F.length s x y

/-- The cell-level effect of the pivot overwrite formula replay down
one column. -/
theorem cell0_restoreColFormulasAt (tc : Nat) (F : List (List String)) (s : Sheet) (x y : Nat) :
    (restoreColFormulasAt tc F s).cell0 x y =
      if y = tc - 1 ∧ x < F.length ∧ (F.getD x []).getD 0 "" ≠ ""
      then ⟨(s.cell0 x y).value, (F.getD x []).getD 0 ""⟩ else s.cell0 x y :=
  cell0_condRestoreCol tc (fun i => (F.getD i []).getD 0 "" ≠ "")
    (fun i => (F.getD i []).getD 0 "") F.length s x y

/-! ### Reading ranges, entrywise -/

theorem getValues_length (s : Sheet) (r c nR nC : Nat) :
    (s.getValues r c nR nC).length = nR := by
  simp [Sheet.getValues]

theorem getValues_row (s : Sheet) (r c nR nC i : Nat) (hi : i < nR) :
    (s.getValues r c nR nC).getD i [] =
      (List.range nC).map fun j => (s.cell0 (r - 1 + i) (c - 1 + j)).value := by
  unfold Sheet.getValues
  rw [getD_map_range, if_pos hi]

theorem getValues_row_length (s : Sheet) (r c nR nC i : Nat) (hi : i < nR) :
    ((s.getValues r c nR nC).getD i []).length = nC := by
  rw [getValues_row s r c nR nC i hi]
  simp

theorem getValues_entry (s : Sheet) (r c nR nC i j : Nat) (hi : i < nR) (hj : j < nC) :
    ((s.getValues r c nR nC).getD i []).getD j Value.emptyV =
      (s.cell0 (r - 1 + i) (c - 1 + j)).value := by
  rw [getValues_row s r c nR nC i hi, getD_map_range, if_pos hj]

theorem getFormulas_length (s : Sheet) (r c nR nC : Nat) :
    (s.getFormulas r c nR nC).length = nR := by
  simp [Sheet.getFormulas]

theorem getFormulas_row (s : Sheet) (r c nR nC i : Nat) (hi : i < nR) :
    (s.getFormulas r c nR nC).getD i [] =
      (List.range nC).map fun j => (s.cell0 (r - 1 + i) (c - 1 + j)).formula := by
  unfold Sheet.getFormulas
  rw [getD_map_range, if_pos hi]

theorem getFormulas_entry (s : Sheet) (r c nR nC i j : Nat) (hi : i < nR) (hj : j < nC) :
    ((s.getFormulas r c nR nC).getD i []).getD j "" =
      (s.cell0 (r - 1 + i) (c - 1 + j)).formula := by
  rw [getFormulas_row s r c nR nC i hi, getD_map_range, if_pos hj]

theorem getFormulas_entry_oob (s : Sheet) (r c nR nC i j : Nat) (hj : nC ≤ j) :
    ((s.getFormulas r c nR nC).getD i []).getD j "" = "" := by
  by_cases hi : i < nR
  · rw [getFormulas_row s r c nR nC i hi, getD_map_range, if_neg (by omega)]
  · unfold Sheet.getFormulas
    rw [getD_map_range, if_neg hi]
    rfl

/-! ### Branch reduction lemmas for `objectsToSheetV2` -/

/-- The encoded row block: one row per record, one entry per header. -/
def encodeRows (headers : List Value) (array : List RecordObj) : List (List Value) :=
  array.map fun obj => headers.map fun header =>
    if hasOwn obj header.keyOf then getOrEmpty obj header.keyOf else Value.emptyV

/-- The header row as read by the normal-orientation paths. -/
def headersOf (s : Sheet) (h : Nat) : List Value :=
  (s.getValues h 1 1 s.getLastColumn).getD 0 []

/-- The property column as read by the pivot paths. -/
def propertiesOf (s : Sheet) (h : Nat) : List Value :=
  (s.getValues 1 h s.getLastRow 1).map fun row => row.getD 0 Value.emptyV

theorem objectsToSheetV2_norm_ow_preserve (array : List RecordObj) (s : Sheet) (h st : Nat)
    (hlr : st ≤ s.getLastRow) :
    objectsToSheetV2 array s h st ⟨"overwrite", false, true⟩ =
      (let headers := headersOf s h
      let dataToInsert := encodeRows headers array
      let numRows := s.getLastRow - st + 1
      let formulas := s.getFormulas st 1 numRows headers.length
      let s1 := s.clearRegion st 1 numRows headers.length
      let s2 := if dataToInsert.length > 0 then s1.setValuesM st 1 dataToInsert else s1
      some (restoreFormulasAt st formulas s2)) := by
  unfold objectsToSheetV2 headersOf encodeRows
  simp only [Bool.not_false, if_true, ite_true, Bool.true_and, ge_iff_le, hlr, decide_True,
    decide_eq_true_eq]
  rfl

theorem objectsToSheetV2_norm_ow_skip (array : List RecordObj) (s : Sheet) (h st : Nat)
    (pf : Bool) (hlr : s.getLastRow < st) :
    objectsToSheetV2 array s h st ⟨"overwrite", false, pf⟩ =
      (let headers := headersOf s h
      let dataToInsert := encodeRows headers array
      some (if dataToInsert.length > 0 then s.setValuesM st 1 dataToInsert else s)) := by
  unfold objectsToSheetV2 headersOf encodeRows
  rw [show (⟨"overwrite", false, pf⟩ : WriteOptions).pivot = false from rfl,
    show (⟨"overwrite", false, pf⟩ : WriteOptions).mode = "overwrite" from rfl,
    show (⟨"overwrite", false, pf⟩ : WriteOptions).preserveFormulas = pf from rfl]
  rw [if_pos (by simp : ¬ (false = true)), if_pos rfl, if_neg (by
    simp only [Bool.and_eq_true, decide_eq_true_eq, ge_iff_le]
    rintro ⟨-, hc⟩
    omega), if_neg (by omega)]

theorem objectsToSheetV2_norm_ow_nopreserve (array : List RecordObj) (s : Sheet) (h st : Nat)
    (hlr : st ≤ s.getLastRow) :
    objectsToSheetV2 array s h st ⟨"overwrite", false, false⟩ =
      (let headers := headersOf s h
      let dataToInsert := encodeRows headers array
      let s1 := s.clearRegion st 1 (s.getLastRow - st + 1) headers.length
      some (if dataToInsert.length > 0 then s1.setValuesM st 1 dataToInsert else s1)) := by
  unfold objectsToSheetV2 headersOf encodeRows
  rw [if_pos (by simp : ¬ (false = true)), if_pos rfl, if_neg (by simp), if_pos hlr]

theorem objectsToSheetV2_norm_append (array : List RecordObj) (s : Sheet) (h st : Nat)
    (pf : Bool) :
    objectsToSheetV2 array s h st ⟨"append", false, pf⟩ =
      (let headers := headersOf s h
      let dataToInsert := encodeRows headers array
      some (if dataToInsert.length > 0 then
        s.setValuesM (s.getLastNonEmptyRowS + 1) 1 dataToInsert else s)) := rfl

theorem objectsToSheetV2_norm_overlay_preserve (array : List RecordObj) (s : Sheet)
    (h st : Nat) :
    objectsToSheetV2 array s h st ⟨"overlay", false, true⟩ =
      (let headers := headersOf s h
      some ((List.range (encodeRows headers array).length).foldl
        (overlayRowStep st headers array) s)) := rfl

theorem objectsToSheetV2_norm_overlay_nopreserve (array : List RecordObj) (s : Sheet)
    (h st : Nat) :
    objectsToSheetV2 array s h st ⟨"overlay", false, false⟩ =
      (let headers := headersOf s h
      let dataToInsert := encodeRows headers array
      let currentData := s.getValues st 1 dataToInsert.length headers.length
      let updated := (List.range dataToInsert.length).map fun i =>
        (List.range headers.length).map fun j =>
          let header := headers.getD j Value.emptyV
          if hasOwn (array.getD i []) header.keyOf then getOrEmpty (array.getD i []) header.keyOf
          else (currentData.getD i []).getD j Value.emptyV
      some (s.setValuesM st 1 updated)) := rfl

theorem objectsToSheetV2_pivot_ow (array : List RecordObj) (s : Sheet) (h st : Nat)
    (pf : Bool) :
    objectsToSheetV2 array s h st ⟨"overwrite", true, pf⟩ =
      some (array.enum.foldl
        (pivotOverwriteStep st (propertiesOf s h) (propertiesOf s h).length pf) s) := rfl

theorem objectsToSheetV2_pivot_append (array : List RecordObj) (s : Sheet) (h st : Nat)
    (pf : Bool) :
    objectsToSheetV2 array s h st ⟨"append", true, pf⟩ =
      (let properties := propertiesOf s h
      let baseCol := s.getLastNonEmptyColumnS st + 1
      let batchData := (List.range properties.length).map fun i =>
        let prop := properties.getD i Value.emptyV
        array.map fun obj =>
          if hasOwn obj prop.keyOf then getOrEmpty obj prop.keyOf else Value.emptyV
      some (s.setValuesM 1 baseCol batchData)) := rfl

theorem objectsToSheetV2_pivot_overlay_preserve (array : List RecordObj) (s : Sheet)
    (h st : Nat) :
    objectsToSheetV2 array s h st ⟨"overlay", true, true⟩ =
      some (array.enum.foldl
        (pivotOverlayStep st (propertiesOf s h) (propertiesOf s h).length) s) := rfl

theorem headersOf_length (s : Sheet) (h : Nat) :
    (headersOf s h).length = s.getLastColumn :=
  getValues_row_length s h 1 1 s.getLastColumn 0 (by omega)

theorem headersOf_getD (s : Sheet) (h j : Nat) (hj : j < s.getLastColumn) :
    (headersOf s h).getD j Value.emptyV = (s.cell0 (h - 1) j).value := by
  unfold headersOf
  have := getValues_entry s h 1 1 s.getLastColumn 0 j (by omega) hj
  simpa using this

theorem encodeRows_length (headers : List Value) (array : List RecordObj) :
    (encodeRows headers array).length = array.length := by
  simp [encodeRows]

theorem getD_map_lt {α β : Type} (l : List α) (f : α → β) (i : Nat) (d : β) (d2 : α)
    (hi : i < l.length) :
    (l.map f).getD i d = f (l.getD i d2) := by
  rw [List.getD_eq_getElem (l.map f) d (by simpa using hi), List.getElem_map,
    List.getD_eq_getElem l d2 hi]

theorem encodeRows_row (headers : List Value) (array : List RecordObj) (i : Nat)
    (hi : i < array.length) :
    (encodeRows headers array).getD i [] = headers.map fun header =>
      if hasOwn (array.getD i []) header.keyOf then getOrEmpty (array.getD i []) header.keyOf
      else Value.emptyV := by
  unfold encodeRows
  rw [getD_map_lt array _ i [] [] hi]

theorem encodeRows_row_length (headers : List Value) (array : List RecordObj) (i : Nat)
    (hi : i < array.length) :
    ((encodeRows headers array).getD i []).length = headers.length := by
  rw [encodeRows_row headers array i hi]
  simp

/-- One pivot overwrite step with formula preservation never changes the
formula component of any cell: the snapshot of the target column is
replayed over it. -/
theorem pivotOverwriteStep_formula (st : Nat) (props : List Value) (acc : Sheet)
    (p : Nat × RecordObj) (x y : Nat) :
    ((pivotOverwriteStep st props props.length true acc p).cell0 x y).formula =
      (acc.cell0 x y).formula := by
  unfold pivotOverwriteStep
  rw [if_pos rfl]
  rw [cell0_restoreColFormulasAt]
  have hFlen : (acc.getFormulas 1 (st + p.1) props.length 1).length = props.length :=
    getFormulas_length acc 1 (st + p.1) props.length 1
  have hcollen : (props.map fun prop =>
      [if hasOwn p.2 prop.keyOf then getOrEmpty p.2 prop.keyOf else Value.emptyV]).length =
      props.length := by simp
  by_cases hcond : y = st + p.1 - 1 ∧ x < (acc.getFormulas 1 (st + p.1) props.length 1).length ∧
      ((acc.getFormulas 1 (st + p.1) props.length 1).getD x []).getD 0 "" ≠ ""
  · rw [if_pos hcond]
    have hx : x < props.length := by rw [hFlen] at hcond; exact hcond.2.1
    have hentry := getFormulas_entry acc 1 (st + p.1) props.length 1 x 0 hx (by omega)
    simp only [Nat.add_zero, Nat.sub_self, Nat.zero_add] at hentry
    rw [hentry, hcond.1]
  · rw [if_neg hcond]
    rw [cell0_setValuesM, cell0_clearRegion]
    by_cases hhit : x < props.length ∧ y = st + p.1 - 1
    · have hrowl : ((props.map fun prop =>
          [if hasOwn p.2 prop.keyOf then getOrEmpty p.2 prop.keyOf else Value.emptyV]).getD
            (x - (1 - 1)) []).length = 1 := by
        rw [getD_map_lt props _ (x - (1 - 1)) [] Value.emptyV (by omega)]
        simp
      rw [if_pos (by
        refine ⟨by omega, ?_, by omega, ?_⟩
        · rw [hcollen]; omega
        · rw [hrowl]; omega)]
      have hff : ((acc.getFormulas 1 (st + p.1) props.length 1).getD x []).getD 0 "" = "" := by
        by_contra hne
        exact hcond ⟨hhit.2, by rw [hFlen]; exact hhit.1, hne⟩
      have hentry := getFormulas_entry acc 1 (st + p.1) props.length 1 x 0 hhit.1 (by omega)
      rw [show (1 : Nat) - 1 + x = x from by omega, Nat.add_zero] at hentry
      rw [hentry] at hff
      rw [hhit.2, ← hff]
    · rw [if_neg (by
        rintro ⟨h1, h2, h3, h4⟩
        apply hhit
        constructor
        · rw [hcollen] at h2; omega
        · by_contra hy
          have : ((props.map fun prop =>
              [if hasOwn p.2 prop.keyOf then getOrEmpty p.2 prop.keyOf else Value.emptyV]).getD
                (x - (1 - 1)) []).length ≤ 1 := by
            rcases Nat.lt_or_ge (x - (1 - 1)) props.length with hlt | hge
            · rw [getD_map_lt props _ _ [] Value.emptyV hlt]; simp
            · rw [List.getD_eq_default _ _ (by simpa using hge)]; simp
          omega), if_neg (by
        rintro ⟨h1, h2, h3, h4⟩
        exact hhit ⟨by omega, by omega⟩)]

/-- Folding pivot overwrite steps with preservation on leaves every
cell's formula unchanged. -/
theorem foldl_pivotOverwriteStep_formula (st : Nat) (props : List Value)
    (l : List (Nat × RecordObj)) (acc : Sheet) (x y : Nat) :
    ((l.foldl (pivotOverwriteStep st props props.length true) acc).cell0 x y).formula =
      (acc.cell0 x y).formula := by
  induction l generalizing acc with
  | nil => rfl
  | cons p t ih =>
    rw [List.foldl_cons, ih, pivotOverwriteStep_formula]

/-- C6 (both orientations): after an overwrite with preserve-formulas
enabled, every cell that held a non-empty formula before the write holds
that same formula again — formulas are replayed after the value write —
so no such cell keeps the empty string from the intermediate clear. -/
theorem c6_overwrite_preserve_replays_formulas :
    (∀ (array : List RecordObj) (s : Sheet) (h st : Nat), 1 ≤ st → st ≤ s.getLastRow →
      ∀ r c, st ≤ r → r ≤ s.getLastRow → 1 ≤ c → c ≤ s.getLastColumn →
        (s.getCell r c).formula ≠ "" →
        ∃ t, objectsToSheetV2 array s h st ⟨"overwrite", false, true⟩ = some t ∧
          (t.getCell r c).formula = (s.getCell r c).formula) ∧
    (∀ (array : List RecordObj) (s : Sheet) (h st : Nat),
      ∀ r c, (s.getCell r c).formula ≠ "" →
        ∃ t, objectsToSheetV2 array s h st ⟨"overwrite", true, true⟩ = some t ∧
          (t.getCell r c).formula = (s.getCell r c).formula) := by
  constructor
  · intro array s h st hst hlr r c hr1 hr2 hc1 hc2 hf
    rw [objectsToSheetV2_norm_ow_preserve array s h st hlr]
    refine ⟨_, rfl, ?_⟩
    unfold Sheet.getCell at hf ⊢
    rw [cell0_restoreFormulasAt st hst]
    have hFlen := getFormulas_length s st 1 (s.getLastRow - st + 1) (headersOf s h).length
    have hcL : c - 1 < (headersOf s h).length := by
      rw [headersOf_length]
      have : s.cell0 (r - 1) (c - 1) ≠ Cell.emptyC := by
        intro he
        rw [he] at hf
        exact hf rfl
      exact lt_lastCol_of_cell_ne_empty s (r - 1) (c - 1) this
    have hrn : r - 1 - (st - 1) < s.getLastRow - st + 1 := by omega
    have hentry := getFormulas_entry s st 1 (s.getLastRow - st + 1) (headersOf s h).length
      (r - 1 - (st - 1)) (c - 1) hrn hcL
    rw [show st - 1 + (r - 1 - (st - 1)) = r - 1 from by omega,
      show (1 : Nat) - 1 + (c - 1) = c - 1 from by omega] at hentry
    rw [if_pos ⟨by omega, by rw [hFlen]; exact hrn, by rw [hentry]; exact hf⟩, hentry]
  · intro array s h st r c hf
    rw [objectsToSheetV2_pivot_ow array s h st true]
    refine ⟨_, rfl, ?_⟩
    unfold Sheet.getCell at hf ⊢
    rw [foldl_pivotOverwriteStep_formula]

/-- Concrete sheet for the C6 witness: header row 1, a formula cell at
row 3 column 1. -/
def c6sheetW : Sheet := ⟨"W", [[⟨Value.str "H", ""⟩], [], [⟨Value.emptyV, "=SUM(A1:A3)"⟩]]⟩

theorem c6_overwrite_preserve_replays_formulas_witness :
    (1 : Nat) ≤ 3 ∧ 3 ≤ c6sheetW.getLastRow ∧
    (∃ t, objectsToSheetV2 [[("H", Value.num 7)]] c6sheetW 1 3 ⟨"overwrite", false, true⟩ =
        some t ∧ (t.getCell 3 1).formula = (c6sheetW.getCell 3 1).formula) :=
  ⟨by decide, by decide,
    c6_overwrite_preserve_replays_formulas.1 [[("H", Value.num 7)]] c6sheetW 1 3 (by decide)
      (by decide) 3 1 (by decide) (by decide) (by decide) (by decide) (by decide)⟩

theorem cell_eta (c : Cell) : (⟨c.value, c.formula⟩ : Cell) = c := rfl

/-- A preserve-formulas overlay step only touches its target row. -/
theorem overlayRowStep_frame (st : Nat) (headers : List Value) (array : List RecordObj)
    (acc : Sheet) (i x y : Nat) (hx : x ≠ st + i - 1) :
    (overlayRowStep st headers array acc i).cell0 x y = acc.cell0 x y := by
  simp only [overlayRowStep]
  rw [cell0_condRestoreRow (st + i)
    (fun j => (!(hasOwn (array.getD i []) ((headers.getD j Value.emptyV).keyOf)) &&
      ((acc.getFormulas (st + i) 1 1 headers.length).getD 0 []).getD j "" ≠ "") = true)
    (fun j => ((acc.getFormulas (st + i) 1 1 headers.length).getD 0 []).getD j "")
    headers.length _ x y]
  rw [if_neg (by rintro ⟨h1, -⟩; exact hx h1)]
  rw [cell0_setValuesM]
  rw [if_neg (by rintro ⟨h1, h2, -⟩; simp only [List.length_cons, List.length_nil] at h2; omega)]

/-- A preserve-formulas overlay step leaves the cell of an omitted
field byte-for-byte unchanged: the current value is rewritten and the
current formula replayed. -/
theorem overlayRowStep_omitted (st : Nat) (headers : List Value) (array : List RecordObj)
    (acc : Sheet) (i j : Nat) (hj : j < headers.length)
    (hno : hasOwn (array.getD i []) ((headers.getD j Value.emptyV).keyOf) = false) :
    (overlayRowStep st headers array acc i).cell0 (st + i - 1) j =
      acc.cell0 (st + i - 1) j := by
  simp only [overlayRowStep]
  rw [cell0_condRestoreRow (st + i)
    (fun j2 => (!(hasOwn (array.getD i []) ((headers.getD j2 Value.emptyV).keyOf)) &&
      ((acc.getFormulas (st + i) 1 1 headers.length).getD 0 []).getD j2 "" ≠ "") = true)
    (fun j2 => ((acc.getFormulas (st + i) 1 1 headers.length).getD 0 []).getD j2 "")
    headers.length _ _ _]
  have hform : ((acc.getFormulas (st + i) 1 1 headers.length).getD 0 []).getD j "" =
      (acc.cell0 (st + i - 1) j).formula := by
    have := getFormulas_entry acc (st + i) 1 1 headers.length 0 j (by omega) hj
    simpa using this
  have hval : ((acc.getValues (st + i) 1 1 headers.length).getD 0 []).getD j Value.emptyV =
      (acc.cell0 (st + i - 1) j).value := by
    have := getValues_entry acc (st + i) 1 1 headers.length 0 j (by omega) hj
    simpa using this
  have hacc2 : (((acc.setValuesM (st + i) 1
      [(List.range headers.length).map fun j2 =>
        if hasOwn (array.getD i []) ((headers.getD j2 Value.emptyV).keyOf) then
          getOrEmpty (array.getD i []) ((headers.getD j2 Value.emptyV).keyOf)
        else ((acc.getValues (st + i) 1 1 headers.length).getD 0 []).getD j2 Value.emptyV]).cell0
        (st + i - 1) j)) = ⟨(acc.cell0 (st + i - 1) j).value, ""⟩ := by
    rw [cell0_setValuesM]
    rw [if_pos (by
      refine ⟨by omega, by simp only [List.length_cons, List.length_nil]; omega, by omega, ?_⟩
      rw [show st + i - 1 - (st + i - 1) = 0 from by omega, List.getD_cons_zero]
      simp only [List.length_map, List.length_range]
      omega)]
    rw [show st + i - 1 - (st + i - 1) = 0 from by omega, List.getD_cons_zero,
      show j - (1 - 1) = j from by omega, getD_map_range, if_pos hj,
      if_neg (by rw [hno]; exact Bool.false_ne_true), hval]
  by_cases hf : (acc.cell0 (st + i - 1) j).formula = ""
  · rw [if_neg (by
      rintro ⟨-, -, hq⟩
      rw [Bool.and_eq_true] at hq
      rw [hform, hf] at hq
      simpa using hq.2), hacc2, ← hf]
  · rw [if_pos ⟨by omega, hj, by
      rw [Bool.and_eq_true, hno]
      exact ⟨rfl, by simp only [decide_eq_true_eq, hform]; exact hf⟩⟩]
    rw [hacc2, hform]

/-- A preserve-formulas pivot overlay step only touches its target
column. -/
theorem pivotOverlayStep_frame (st : Nat) (props : List Value) (acc : Sheet)
    (p : Nat × RecordObj) (x y : Nat) (hy : y ≠ st + p.1 - 1) :
    (pivotOverlayStep st props props.length acc p).cell0 x y = acc.cell0 x y := by
  simp only [pivotOverlayStep]
  rw [cell0_condRestoreCol (st + p.1)
    (fun i => (!(hasOwn p.2 ((props.getD i Value.emptyV).keyOf)) &&
      ((acc.getFormulas 1 (st + p.1) props.length 1).getD i []).getD 0 "" ≠ "") = true)
    (fun i => ((acc.getFormulas 1 (st + p.1) props.length 1).getD i []).getD 0 "")
    props.length _ x y]
  rw [if_neg (by rintro ⟨h1, -⟩; exact hy h1)]
  rw [cell0_setValuesM]
  rw [if_neg (by
    rintro ⟨h1, h2, h3, h4⟩
    apply hy
    have hlen : (((List.range props.length).map fun i =>
        if hasOwn p.2 ((props.getD i Value.emptyV).keyOf) then
          [getOrEmpty p.2 ((props.getD i Value.emptyV).keyOf)]
        else (acc.getValues 1 (st + p.1) props.length 1).getD i []).getD (x - (1 - 1))
          []).length ≤ 1 := by
      rcases Nat.lt_or_ge (x - (1 - 1)) props.length with hlt | hge
      · rw [getD_map_range, if_pos hlt]
        split
        · simp
        · rcases Nat.lt_or_ge (x - (1 - 1)) props.length with hlt2 | hge2
          · rw [getValues_row_length acc 1 (st + p.1) props.length 1 _ hlt2]
          · rw [List.getD_eq_default _ _ (by rw [getValues_length]; omega)]
            simp
      · rw [getD_map_range, if_neg (by omega)]
        simp
    omega)]

/-- A preserve-formulas pivot overlay step leaves the cell of an
omitted field unchanged. -/
theorem pivotOverlayStep_omitted (st : Nat) (props : List Value) (acc : Sheet)
    (p : Nat × RecordObj) (i : Nat) (hi : i < props.length)
    (hno : hasOwn p.2 ((props.getD i Value.emptyV).keyOf) = false) :
    (pivotOverlayStep st props props.length acc p).cell0 i (st + p.1 - 1) =
      acc.cell0 i (st + p.1 - 1) := by
  simp only [pivotOverlayStep]
  rw [cell0_condRestoreCol (st + p.1)
    (fun i2 => (!(hasOwn p.2 ((props.getD i2 Value.emptyV).keyOf)) &&
      ((acc.getFormulas 1 (st + p.1) props.length 1).getD i2 []).getD 0 "" ≠ "") = true)
    (fun i2 => ((acc.getFormulas 1 (st + p.1) props.length 1).getD i2 []).getD 0 "")
    props.length _ _ _]
  have hform : ((acc.getFormulas 1 (st + p.1) props.length 1).getD i []).getD 0 "" =
      (acc.cell0 i (st + p.1 - 1)).formula := by
    have := getFormulas_entry acc 1 (st + p.1) props.length 1 i 0 hi (by omega)
    simpa using this
  have hval : ((acc.getValues 1 (st + p.1) props.length 1).getD i []).getD 0 Value.emptyV =
      (acc.cell0 i (st + p.1 - 1)).value := by
    have := getValues_entry acc 1 (st + p.1) props.length 1 i 0 hi (by omega)
    simpa using this
  have hrow : ((List.range props.length).map fun i2 =>
      if hasOwn p.2 ((props.getD i2 Value.emptyV).keyOf) then
        [getOrEmpty p.2 ((props.getD i2 Value.emptyV).keyOf)]
      else (acc.getValues 1 (st + p.1) props.length 1).getD i2 []).getD i [] =
      (acc.getValues 1 (st + p.1) props.length 1).getD i [] := by
    rw [getD_map_range, if_pos hi, if_neg (by rw [hno]; exact Bool.false_ne_true)]
  have hrowlen : ((acc.getValues 1 (st + p.1) props.length 1).getD i []).length = 1 :=
    getValues_row_length acc 1 (st + p.1) props.length 1 i hi
  have hacc2 : ((acc.setValuesM 1 (st + p.1)
      ((List.range props.length).map fun i2 =>
        if hasOwn p.2 ((props.getD i2 Value.emptyV).keyOf) then
          [getOrEmpty p.2 ((props.getD i2 Value.emptyV).keyOf)]
        else (acc.getValues 1 (st + p.1) props.length 1).getD i2 [])).cell0
        i (st + p.1 - 1)) = ⟨(acc.cell0 i (st + p.1 - 1)).value, ""⟩ := by
    rw [cell0_setValuesM]
    rw [if_pos (by
      refine ⟨by omega, by simp only [List.length_map, List.length_range]; omega, by omega, ?_⟩
      rw [show i - (1 - 1) = i from by omega, hrow, hrowlen]
      omega)]
    rw [show i - (1 - 1) = i from by omega, hrow,
      show st + p.1 - 1 - (st + p.1 - 1) = 0 from by omega, hval]
  by_cases hf : (acc.cell0 i (st + p.1 - 1)).formula = ""
  · rw [if_neg (by
      rintro ⟨-, -, hq⟩
      rw [Bool.and_eq_true] at hq
      rw [hform, hf] at hq
      simpa using hq.2), hacc2, ← hf]
  · rw [if_pos ⟨rfl, hi, by
      rw [Bool.and_eq_true, hno]
      exact ⟨rfl, by simp only [decide_eq_true_eq, hform]; exact hf⟩⟩]
    rw [hacc2, hform]

theorem objectsToSheetV2_pivot_overlay_nopreserve (array : List RecordObj) (s : Sheet)
    (h st : Nat) :
    objectsToSheetV2 array s h st ⟨"overlay", true, false⟩ =
      (let properties := propertiesOf s h
      let numNewCols := array.length
      let currentData := s.getValues 1 st properties.length numNewCols
      let updated := (List.range properties.length).map fun i =>
        let prop := properties.getD i Value.emptyV
        (List.range numNewCols).map fun j =>
          if hasOwn (array.getD j []) prop.keyOf then getOrEmpty (array.getD j []) prop.keyOf
          else (currentData.getD i []).getD j Value.emptyV
      some (s.setValuesM 1 st updated)) := rfl

/-- C5: overlay writes leave the cell of any field the record omits
unchanged — in the preserve-formulas path the full cell (value and
formula), in the batch path the stored value — in both orientations. -/
theorem c5_overlay_leaves_omitted_fields :
    (∀ (array : List RecordObj) (s : Sheet) (h st i j : Nat), 1 ≤ st →
      i < array.length → j < (headersOf s h).length →
      hasOwn (array.getD i []) (((headersOf s h).getD j Value.emptyV).keyOf) = false →
      ∃ t, objectsToSheetV2 array s h st ⟨"overlay", false, true⟩ = some t ∧
        t.getCell (st + i) (j + 1) = s.getCell (st + i) (j + 1)) ∧
    (∀ (array : List RecordObj) (s : Sheet) (h st i j : Nat), 1 ≤ st →
      i < array.length → j < (headersOf s h).length →
      hasOwn (array.getD i []) (((headersOf s h).getD j Value.emptyV).keyOf) = false →
      ∃ t, objectsToSheetV2 array s h st ⟨"overlay", false, false⟩ = some t ∧
        (t.getCell (st + i) (j + 1)).value = (s.getCell (st + i) (j + 1)).value) ∧
    (∀ (array : List RecordObj) (s : Sheet) (h st i k : Nat), 1 ≤ st →
      i < array.length → k < (propertiesOf s h).length →
      hasOwn (array.getD i []) (((propertiesOf s h).getD k Value.emptyV).keyOf) = false →
      ∃ t, objectsToSheetV2 array s h st ⟨"overlay", true, true⟩ = some t ∧
        t.getCell (k + 1) (st + i) = s.getCell (k + 1) (st + i)) ∧
    (∀ (array : List RecordObj) (s : Sheet) (h st i k : Nat), 1 ≤ st →
      i < array.length → k < (propertiesOf s h).length →
      hasOwn (array.getD i []) (((propertiesOf s h).getD k Value.emptyV).keyOf) = false →
      ∃ t, objectsToSheetV2 array s h st ⟨"overlay", true, false⟩ = some t ∧
        (t.getCell (k + 1) (st + i)).value = (s.getCell (k + 1) (st + i)).value) := by
  refine ⟨?_, ?_, ?_, ?_⟩
  · intro array s h st i j hst hi hj hno
    rw [objectsToSheetV2_norm_overlay_preserve]
    refine ⟨_, rfl, ?_⟩
    unfold Sheet.getCell
    simp only [Nat.add_sub_cancel]
    rw [cell0_foldl]
    intro t b hb
    rcases eq_or_ne b i with hbi | hbi
    · subst hbi
      exact overlayRowStep_omitted st (headersOf s h) array t b j hj hno
    · exact overlayRowStep_frame st (headersOf s h) array t b (st + i - 1) j (by omega)
  · intro array s h st i j hst hi hj hno
    rw [objectsToSheetV2_norm_overlay_nopreserve]
    refine ⟨_, rfl, ?_⟩
    unfold Sheet.getCell
    simp only [Nat.add_sub_cancel]
    rw [cell0_setValuesM]
    have hlen : (encodeRows (headersOf s h) array).length = array.length :=
      encodeRows_length _ _
    have hxi : st + i - 1 - (st - 1) = i := by omega
    have hrowl : (((List.range (encodeRows (headersOf s h) array).length).map fun i2 =>
        (List.range (headersOf s h).length).map fun j2 =>
          let header := (headersOf s h).getD j2 Value.emptyV
          if hasOwn (array.getD i2 []) header.keyOf then getOrEmpty (array.getD i2 []) header.keyOf
          else ((s.getValues st 1 (encodeRows (headersOf s h) array).length
            (headersOf s h).length).getD i2 []).getD j2 Value.emptyV).getD
          (st + i - 1 - (st - 1)) []) =
        (List.range (headersOf s h).length).map fun j2 =>
          let header := (headersOf s h).getD j2 Value.emptyV
          if hasOwn (array.getD i []) header.keyOf then getOrEmpty (array.getD i []) header.keyOf
          else ((s.getValues st 1 (encodeRows (headersOf s h) array).length
            (headersOf s h).length).getD i []).getD j2 Value.emptyV := by
      rw [hxi, getD_map_range, if_pos (by rw [hlen]; exact hi)]
    rw [if_pos (by
      refine ⟨by omega, ?_, by omega, ?_⟩
      · simp only [List.length_map, List.length_range]
        rw [hlen]
        omega
      · rw [hrowl]
        simp only [List.length_map, List.length_range]
        omega)]
    rw [hrowl, show j - (1 - 1) = j from by omega, getD_map_range, if_pos hj]
    simp only []
    rw [if_neg (by rw [hno]; exact Bool.false_ne_true)]
    have := getValues_entry s st 1 (encodeRows (headersOf s h) array).length
      (headersOf s h).length i j (by rw [hlen]; exact hi) hj
    rw [this, show st - 1 + i = st + i - 1 from by omega,
      show (1 : Nat) - 1 + j = j from by omega]
  · intro array s h st i k hst hi hk hno
    rw [objectsToSheetV2_pivot_overlay_preserve]
    refine ⟨_, rfl, ?_⟩
    unfold Sheet.getCell
    simp only [Nat.add_sub_cancel]
    rw [cell0_foldl]
    intro t b hb
    rcases eq_or_ne b.1 i with hbi | hbi
    · have hb2 : b.2 = array.getD i [] := by
        rw [List.mem_enum_iff_getElem?] at hb
        rw [← hbi, List.getD_eq_getElem?_getD, hb]
        rfl
      have := pivotOverlayStep_omitted st (propertiesOf s h) t b k hk (by rw [hb2]; exact hno)
      rw [hbi] at this
      exact this
    · exact pivotOverlayStep_frame st (propertiesOf s h) t b (k) (st + i - 1) (by omega)
  · intro array s h st i k hst hi hk hno
    rw [objectsToSheetV2_pivot_overlay_nopreserve]
    refine ⟨_, rfl, ?_⟩
    unfold Sheet.getCell
    simp only [Nat.add_sub_cancel]
    rw [cell0_setValuesM]
    have hrowl : (((List.range (propertiesOf s h).length).map fun i2 =>
        let prop := (propertiesOf s h).getD i2 Value.emptyV
        (List.range array.length).map fun j2 =>
          if hasOwn (array.getD j2 []) prop.keyOf then getOrEmpty (array.getD j2 []) prop.keyOf
          else ((s.getValues 1 st (propertiesOf s h).length array.length).getD i2 []).getD j2
            Value.emptyV).getD (k - (1 - 1)) []) =
        (List.range array.length).map fun j2 =>
          if hasOwn (array.getD j2 []) (((propertiesOf s h).getD k Value.emptyV).keyOf) then
            getOrEmpty (array.getD j2 []) (((propertiesOf s h).getD k Value.emptyV).keyOf)
          else ((s.getValues 1 st (propertiesOf s h).length array.length).getD k []).getD j2
            Value.emptyV := by
      rw [show k - (1 - 1) = k from by omega, getD_map_range, if_pos hk]
    rw [if_pos (by
      refine ⟨by omega, ?_, by omega, ?_⟩
      · simp only [List.length_map, List.length_range]
        omega
      · rw [hrowl]
        simp only [List.length_map, List.length_range]
        omega)]
    rw [hrowl, show st + i - 1 - (st - 1) = i from by omega, getD_map_range, if_pos hi]
    rw [if_neg (by rw [hno]; exact Bool.false_ne_true)]
    have := getValues_entry s 1 st (propertiesOf s h).length array.length k i hk hi
    rw [this, show (1 : Nat) - 1 + k = k from by omega,
      show st - 1 + i = st + i - 1 from by omega]

/-- Concrete sheet for the C5 witness: headers `[Name, Age]`, one data
row at line 3 whose Name cell carries a formula. -/
def c5sheetW : Sheet :=
  ⟨"W", [[⟨Value.str "Name", ""⟩, ⟨Value.str "Age", ""⟩], [],
    [⟨Value.str "Alice", "=F"⟩, ⟨Value.num 30, ""⟩]]⟩

theorem c5_overlay_leaves_omitted_fields_witness :
    (1 : Nat) ≤ 3 ∧ 0 < ([[("Age", Value.num 31)]] : List RecordObj).length ∧
    0 < (headersOf c5sheetW 1).length ∧
    hasOwn (([[("Age", Value.num 31)]] : List RecordObj).getD 0 [])
      (((headersOf c5sheetW 1).getD 0 Value.emptyV).keyOf) = false ∧
    (∃ t, objectsToSheetV2 [[("Age", Value.num 31)]] c5sheetW 1 3 ⟨"overlay", false, true⟩ =
        some t ∧ t.getCell 3 1 = c5sheetW.getCell 3 1) :=
  ⟨by decide, by decide, by decide, by decide,
    c5_overlay_leaves_omitted_fields.1 [[("Age", Value.num 31)]] c5sheetW 1 3 0 0 (by decide)
      (by decide) (by decide) (by decide)⟩

/-- C7 counterexample: on a sheet whose data extent ends before the
start line (header at row 1, nothing below, `startIndex` 3), the decode
returns the `null` early result — not the tagged empty-result sentinel
the claim promises for this case. -/
theorem c7_counterexample :
    sheetToObjectsV2 (⟨"S", [[⟨Value.str "H", ""⟩]]⟩ : Sheet) 1 3 ⟨none, true, true, false⟩ =
      DecodeResult.nullResult ∧
    DecodeResult.nullResult ≠ DecodeResult.emptyMessage (emptySheetMessage "S") := by
  constructor
  · decide
  · decide

/-- C7 amended: in normal orientation, a decode whose extent ends
before the start line returns the `null` result, while a decode whose
extent is non-empty but all-blank returns the tagged empty-result
carrying the empty-sheet message; neither is a plain record list. -/
theorem c7_empty_decode_results :
    (∀ (s : Sheet) (h st : Nat) (o : DecodeOptions), o.pivot = false →
      s.getLastRow < st → sheetToObjectsV2 s h st o = DecodeResult.nullResult) ∧
    (∀ (s : Sheet) (h st : Nat) (o : DecodeOptions), o.pivot = false → 1 ≤ st →
      st ≤ s.getLastRow →
      (∀ r c, st ≤ r → r ≤ s.getLastRow → (s.getCell r c).value = Value.emptyV) →
      sheetToObjectsV2 s h st o = DecodeResult.emptyMessage (emptySheetMessage s.sname)) := by
  constructor
  · intro s h st o hpiv hlr
    unfold sheetToObjectsV2
    rw [hpiv]
    rw [if_pos (by simp), if_pos hlr]
  · intro s h st o hpiv hst hlr hblank
    unfold sheetToObjectsV2
    rw [hpiv]
    rw [if_pos (by simp), if_neg (by omega)]
    unfold decodeRows
    rw [if_pos ?hfil]
    case hfil =>
      have hnil : (s.getValues st 1 (s.getLastRow - st + 1)
          ((s.getValues h 1 1 s.getLastColumn).getD 0 []).length).filter
          (fun row => row.any fun cell => cell ≠ Value.emptyV) = [] := by
        rw [List.filter_eq_nil_iff]
        intro row hrow
        unfold Sheet.getValues at hrow
        rw [List.mem_map] at hrow
        obtain ⟨i, hi, hroweq⟩ := hrow
        rw [List.mem_range] at hi
        subst hroweq
        rw [Bool.not_eq_true, List.any_eq_false]
        intro cell hcell
        rw [List.mem_map] at hcell
        obtain ⟨j, hjmem, hceq⟩ := hcell
        rw [List.mem_range] at hjmem
        have := hblank (st + i) (j + 1) (by omega) (by omega)
        unfold Sheet.getCell at this
        rw [show st + i - 1 = st - 1 + i from by omega,
          show j + 1 - 1 = j from by omega] at this
        rw [← hceq, show (1 : Nat) - 1 + j = j from by omega, this]
        simp
      rw [hnil]
      rfl

/-- Concrete sheet for the C7 witness: header at row 1, a formula-only
cell at row 3 keeps the extent alive while every value in it is blank. -/
def c7sheetW : Sheet := ⟨"S", [[⟨Value.str "H", ""⟩], [], [⟨Value.emptyV, "=X"⟩]]⟩

theorem c7_empty_decode_results_witness :
    ((⟨none, true, true, false⟩ : DecodeOptions).pivot = false ∧ (1 : Nat) ≤ 3 ∧
      3 ≤ c7sheetW.getLastRow ∧
      (∀ r c, 3 ≤ r → r ≤ c7sheetW.getLastRow → (c7sheetW.getCell r c).value = Value.emptyV)) ∧
    sheetToObjectsV2 c7sheetW 1 3 ⟨none, true, true, false⟩ =
      DecodeResult.emptyMessage (emptySheetMessage "S") :=
  ⟨⟨rfl, by decide, by decide, by
      intro r c hr hr2
      have hr3 : r = 3 := by
        have := hr2
        simp only [show c7sheetW.getLastRow = 3 from by decide] at this
        omega
      subst hr3
      unfold c7sheetW Sheet.getCell Sheet.cell0
      rcases c with - | c
      · rfl
      · rcases c with - | c
        · rfl
        · rw [List.getD_eq_default _ _ (by simp)]
          rfl⟩,
    c7_empty_decode_results.2 c7sheetW 1 3 ⟨none, true, true, false⟩ rfl (by decide) (by decide)
      (by
        intro r c hr hr2
        have hr3 : r = 3 := by
          have := hr2
          simp only [show c7sheetW.getLastRow = 3 from by decide] at this
          omega
        subst hr3
        unfold c7sheetW Sheet.getCell Sheet.cell0
        rcases c with - | c
        · rfl
        · rcases c with - | c
          · rfl
          · rw [List.getD_eq_default _ _ (by simp)]
            rfl)⟩

/-- The formula replay never changes stored values. -/
theorem restoreFormulasAt_value (st : Nat) (hst : 1 ≤ st) (F : List (List String))
    (s : Sheet) (x y : Nat) :
    ((restoreFormulasAt st F s).cell0 x y).value = (s.cell0 x y).value := by
  rw [cell0_restoreFormulasAt st hst]
  split
  · rfl
  · rfl

/-- A pivot overwrite step (either formula setting) only touches its
target column. -/
theorem pivotOverwriteStep_frame (st : Nat) (props : List Value) (pf : Bool) (acc : Sheet)
    (p : Nat × RecordObj) (x y : Nat) (hy : y ≠ st + p.1 - 1) :
    (pivotOverwriteStep st props props.length pf acc p).cell0 x y = acc.cell0 x y := by
  unfold pivotOverwriteStep
  have hcollen : (props.map fun prop =>
      [if hasOwn p.2 prop.keyOf then getOrEmpty p.2 prop.keyOf else Value.emptyV]).length =
      props.length := by simp
  have hrowlen : ∀ k : Nat, ((props.map fun prop =>
      [if hasOwn p.2 prop.keyOf then getOrEmpty p.2 prop.keyOf else Value.emptyV]).getD k
        []).length ≤ 1 := by
    intro k
    rcases Nat.lt_or_ge k props.length with hlt | hge
    · rw [getD_map_lt props _ k [] Value.emptyV hlt]
      simp
    · rw [List.getD_eq_default _ _ (by simpa using hge)]
      simp
  cases pf with
  | false =>
    rw [if_neg (by simp)]
    rw [cell0_setValuesM, if_neg (by
      rintro ⟨h1, h2, h3, h4⟩
      have := hrowlen (x - (1 - 1))
      omega)]
  | true =>
    rw [if_pos rfl, cell0_restoreColFormulasAt, if_neg (by rintro ⟨h1, -⟩; exact hy h1),
      cell0_setValuesM, if_neg (by
        rintro ⟨h1, h2, h3, h4⟩
        have := hrowlen (x - (1 - 1))
        omega),
      cell0_clearRegion, if_neg (by rintro ⟨h1, h2, h3, h4⟩; omega)]

/-- C2 counterexample input: pivot table with properties `[P, Q]` in
column 1 and populated data columns 3 and 4. -/
def c2sheetCx : Sheet :=
  ⟨"C", [[⟨Value.str "P", ""⟩, Cell.emptyC, ⟨Value.num 1, ""⟩, ⟨Value.num 3, ""⟩],
         [⟨Value.str "Q", ""⟩, Cell.emptyC, ⟨Value.num 2, ""⟩, ⟨Value.num 4, ""⟩]]⟩

/-- The pivot overwrite of one record over `c2sheetCx`. -/
def c2afterCx : Option Sheet :=
  objectsToSheetV2 [[("P", Value.num 7), ("Q", Value.num 8)]] c2sheetCx 1 3
    ⟨"overwrite", true, true⟩

/-- C2 counterexample: in pivot orientation, overwriting one record
leaves the previously populated column 4 — which lies beyond the new
data's length — still populated with its old value, not blank as the
claim requires. -/
theorem c2_counterexample :
    c2afterCx.isSome = true ∧
    ((c2afterCx.getD c2sheetCx).getCell 1 4).value = Value.num 3 ∧
    Value.num 3 ≠ Value.emptyV := by
  refine ⟨?_, ?_, ?_⟩ <;> decide

/-- C2 amended: in normal orientation, overwrite fully replaces the
region from the start line to the last populated line — every stored
value in a previously populated line beyond the new data's length is
blank afterwards (with preserve-formulas on, snapshotted formulas are
replayed there).  In pivot orientation the semantics differ: only the
`N` target columns are rewritten, and every cell outside them — in
particular any previously populated column beyond the new data — is
left completely unchanged. -/
theorem c2_overwrite_replacement :
    (∀ (array : List RecordObj) (s : Sheet) (h st : Nat) (pf : Bool), 1 ≤ st →
      ∀ r c, st ≤ r → r ≤ s.getLastRow → st + array.length ≤ r → 1 ≤ c →
        c ≤ s.getLastColumn →
        ∃ t, objectsToSheetV2 array s h st ⟨"overwrite", false, pf⟩ = some t ∧
          (t.getCell r c).value = Value.emptyV) ∧
    (∀ (array : List RecordObj) (s : Sheet) (h st : Nat) (pf : Bool), 1 ≤ st →
      ∀ r c, 1 ≤ c → (c < st ∨ st + array.length ≤ c) →
        ∃ t, objectsToSheetV2 array s h st ⟨"overwrite", true, pf⟩ = some t ∧
          t.getCell r c = s.getCell r c) := by
  constructor
  · intro array s h st pf hst r c hr1 hr2 hrN hc1 hc2
    have hlr : st ≤ s.getLastRow := le_trans hr1 hr2
    have hx : r - 1 - (st - 1) < s.getLastRow - st + 1 := by omega
    have hxge : st - 1 ≤ r - 1 := by omega
    have hclear : ∀ u : Sheet, u = s.clearRegion st 1 (s.getLastRow - st + 1)
        (headersOf s h).length →
        ((if (encodeRows (headersOf s h) array).length > 0 then
          u.setValuesM st 1 (encodeRows (headersOf s h) array) else u).cell0 (r - 1)
            (c - 1)).value = Value.emptyV := by
      intro u hu
      have hucell : u.cell0 (r - 1) (c - 1) = Cell.emptyC := by
        rw [hu, cell0_clearRegion, if_pos (by
          refine ⟨by omega, by omega, by omega, ?_⟩
          rw [headersOf_length]
          omega)]
      split
      · rw [cell0_setValuesM, if_neg (by
          rintro ⟨h1, h2, -, -⟩
          rw [encodeRows_length] at h2
          omega), hucell]
        rfl
      · rw [hucell]
        rfl
    cases pf with
    | true =>
      rw [objectsToSheetV2_norm_ow_preserve array s h st hlr]
      refine ⟨_, rfl, ?_⟩
      unfold Sheet.getCell
      rw [restoreFormulasAt_value st hst]
      exact hclear _ rfl
    | false =>
      rw [objectsToSheetV2_norm_ow_nopreserve array s h st hlr]
      refine ⟨_, rfl, ?_⟩
      unfold Sheet.getCell
      exact hclear _ rfl
  · intro array s h st pf hst r c hc1 hcout
    rw [objectsToSheetV2_pivot_ow]
    refine ⟨_, rfl, ?_⟩
    unfold Sheet.getCell
    rw [cell0_foldl]
    intro t b hb
    rw [List.mem_enum_iff_getElem?] at hb
    have hblt : b.1 < array.length := by
      by_contra hge
      rw [List.getElem?_eq_none (by omega)] at hb
      cases hb
    exact pivotOverwriteStep_frame st (propertiesOf s h) pf t b (r - 1) (c - 1) (by omega)

/-- Concrete input for the C2 witness: normal-orientation overwrite of
one record onto a two-row table blanks the second data row; pivot
overwrite leaves an untouched column unchanged. -/
def c2sheetW : Sheet :=
  ⟨"W", [[⟨Value.str "H", ""⟩], [], [⟨Value.str "a", ""⟩], [⟨Value.str "b", ""⟩]]⟩

theorem c2_overwrite_replacement_witness :
    ((1 : Nat) ≤ 3 ∧ 3 ≤ 4 ∧ 4 ≤ c2sheetW.getLastRow ∧ 3 + 1 ≤ 4 ∧ (1 : Nat) ≤ 1 ∧
      1 ≤ c2sheetW.getLastColumn ∧
      (∃ t, objectsToSheetV2 [[("H", Value.str "x")]] c2sheetW 1 3 ⟨"overwrite", false, true⟩ =
        some t ∧ (t.getCell 4 1).value = Value.emptyV)) ∧
    ((1 : Nat) ≤ 3 ∧ (1 : Nat) ≤ 4 ∧ ((4 : Nat) < 3 ∨ 3 + 1 ≤ 4) ∧
      (∃ t, objectsToSheetV2 [[("P", Value.num 7), ("Q", Value.num 8)]] c2sheetCx 1 3
          ⟨"overwrite", true, true⟩ = some t ∧ t.getCell 1 4 = c2sheetCx.getCell 1 4)) :=
  ⟨⟨by decide, by decide, by decide, by decide, by decide, by decide,
    c2_overwrite_replacement.1 [[("H", Value.str "x")]] c2sheetW 1 3 true (by decide) 4 1
      (by decide) (by decide) (by decide) (by decide) (by decide)⟩,
   ⟨by decide, by decide, Or.inr (by decide),
    c2_overwrite_replacement.2 [[("P", Value.num 7), ("Q", Value.num 8)]] c2sheetCx 1 3 true
      (by decide) 1 4 (by decide) (Or.inr (by decide))⟩⟩

/-! ### Content bounds for the value-based scans -/

theorem getD_lastPos {α : Type} (p : α → Bool) (l : List α) (d : α)
    (h : 1 ≤ lastPos p l) : p (l.getD (lastPos p l - 1) d) = true := by
  induction l with
  | nil => simp [lastPos] at h
  | cons a t ih =>
    simp only [lastPos] at h ⊢
    by_cases ht : lastPos p t > 0
    · rw [if_pos ht] at h ⊢
      have hk : lastPos p t + 1 - 1 = (lastPos p t - 1) + 1 := by omega
      rw [hk, List.getD_cons_succ]
      exact ih (by omega)
    · rw [if_neg ht] at h ⊢
      by_cases hpa : p a
      · rw [if_pos hpa]
        simpa using hpa
      · rw [if_neg hpa] at h
        omega

theorem getLastNonEmptyRowS_pos (s : Sheet) : 1 ≤ s.getLastNonEmptyRowS := by
  simp only [Sheet.getLastNonEmptyRowS]
  split <;> omega

theorem dataRangeValues_row (s : Sheet) (i : Nat) (hi : i < max s.getLastRow 1) :
    s.dataRangeValues.getD i [] =
      (List.range (max s.getLastColumn 1)).map fun j => (s.cell0 i j).value := by
  unfold Sheet.dataRangeValues
  rw [getValues_row s 1 1 _ _ i hi]
  simp

theorem lt_lastNonEmptyRow_of_value (s : Sheet) (x y : Nat)
    (h : (s.cell0 x y).value ≠ Value.emptyV) : x < s.getLastNonEmptyRowS := by
  have hcell : s.cell0 x y ≠ Cell.emptyC := by
    intro he
    rw [he] at h
    exact h rfl
  have hxr : x < s.getLastRow := lt_lastRow_of_cell_ne_empty s x y hcell
  have hyc : y < s.getLastColumn := lt_lastCol_of_cell_ne_empty s x y hcell
  have hrowp : (fun row => row.any fun cell => cell ≠ Value.emptyV)
      (s.dataRangeValues.getD x []) = true := by
    show (s.dataRangeValues.getD x []).any (fun cell => cell ≠ Value.emptyV) = true
    rw [dataRangeValues_row s x (by omega), List.any_eq_true]
    refine ⟨(s.cell0 x y).value, ?_, by simpa using h⟩
    rw [List.mem_map]
    exact ⟨y, by rw [List.mem_range]; omega, rfl⟩
  have hlt := lt_lastPos_of_p_getD (fun row => row.any fun cell => cell ≠ Value.emptyV)
    s.dataRangeValues [] rfl x hrowp
  simp only [Sheet.getLastNonEmptyRowS]
  split <;> omega

theorem value_empty_of_lastNonEmptyRow_le (s : Sheet) (x y : Nat)
    (h : s.getLastNonEmptyRowS ≤ x) : (s.cell0 x y).value = Value.emptyV := by
  by_contra hne
  have := lt_lastNonEmptyRow_of_value s x y hne
  omega

theorem lastNonEmptyRow_le_of_empty (s : Sheet) (m : Nat) (hm : 1 ≤ m)
    (h : ∀ x y, m ≤ x → (s.cell0 x y).value = Value.emptyV) :
    s.getLastNonEmptyRowS ≤ m := by
  simp only [Sheet.getLastNonEmptyRowS]
  split
  · omega
  · rename_i hr0
    by_contra hc
    have hplast := getD_lastPos (fun row => row.any fun cell => cell ≠ Value.emptyV)
      s.dataRangeValues [] (by omega)
    have hrlen : lastPos (fun row => row.any fun cell => cell ≠ Value.emptyV)
        s.dataRangeValues ≤ s.dataRangeValues.length := lastPos_le_length _ _
    have hlen : s.dataRangeValues.length = max s.getLastRow 1 := by
      unfold Sheet.dataRangeValues
      exact getValues_length s 1 1 _ _
    rw [dataRangeValues_row s _ (by omega), List.any_eq_true] at hplast
    obtain ⟨v, hvmem, hvne⟩ := hplast
    rw [List.mem_map] at hvmem
    obtain ⟨j, hjmem, hjeq⟩ := hvmem
    rw [← hjeq] at hvne
    rw [h _ j (by omega)] at hvne
    simp at hvne

theorem scanColsDown_some (q : Nat → Bool) (s0 n c : Nat) (h : scanColsDown q s0 n = some c) :
    s0 ≤ c ∧ c < n ∧ q c = true ∧ ∀ k, c < k → k < n → q k = false := by
  induction n with
  | zero => cases h
  | succ n ih =>
    unfold scanColsDown at h
    by_cases h1 : n < s0
    · rw [if_pos h1] at h
      cases h
    · rw [if_neg h1] at h
      by_cases h2 : q n = true
      · rw [if_pos h2] at h
        injection h with h
        subst h
        exact ⟨by omega, by omega, h2, fun k hk1 hk2 => by omega⟩
      · rw [if_neg h2] at h
        obtain ⟨ha, hb, hcq, hd⟩ := ih h
        refine ⟨ha, by omega, hcq, ?_⟩
        intro k hk1 hk2
        rcases Nat.lt_or_ge k n with hk | hk
        · exact hd k hk1 hk
        · have hkn : k = n := by omega
          subst hkn
          simpa using h2

theorem scanColsDown_none (q : Nat → Bool) (s0 n : Nat) (h : scanColsDown q s0 n = none) :
    ∀ k, s0 ≤ k → k < n → q k = false := by
  induction n with
  | zero => intro k _ hk; omega
  | succ n ih =>
    unfold scanColsDown at h
    intro k hk1 hk2
    by_cases h1 : n < s0
    · omega
    · rw [if_neg h1] at h
      by_cases h2 : q n = true
      · rw [if_pos h2] at h
        cases h
      · rw [if_neg h2] at h
        rcases Nat.lt_or_ge k n with hk | hk
        · exact ih h k hk1 hk
        · have hkn : k = n := by omega
          subst hkn
          simpa using h2

/-- The column-scan predicate used by `getLastNonEmptyColumnS`, phrased
at cell level: a column holding a non-empty value in the data block
satisfies it. -/
theorem colscan_q_of_cell (s : Sheet) (x c : Nat) (hx : x < s.getLastRow)
    (hc : c < s.getLastColumn) (h : (s.cell0 x c).value ≠ Value.emptyV) :
    ((s.getValues 1 1 s.getLastRow s.getLastColumn).any
      fun row => row.getD c Value.emptyV ≠ Value.emptyV) = true := by
  rw [List.any_eq_true]
  refine ⟨(List.range s.getLastColumn).map fun j =>
    (s.cell0 (1 - 1 + x) (1 - 1 + j)).value, ?_, ?_⟩
  · unfold Sheet.getValues
    exact List.mem_map_of_mem _ (List.mem_range.mpr hx)
  · have he : ((List.range s.getLastColumn).map fun j =>
        (s.cell0 (1 - 1 + x) (1 - 1 + j)).value).getD c Value.emptyV =
        (s.cell0 x c).value := by
      rw [getD_map_range, if_pos hc, show (1 : Nat) - 1 + x = x from by omega,
        show (1 : Nat) - 1 + c = c from by omega]
    simp only [decide_eq_true_eq, he]
    exact h

/-- Conversely, a column satisfying the scan predicate holds a
non-empty value somewhere. -/
theorem colscan_cell_of_q (s : Sheet) (c : Nat)
    (hq : ((s.getValues 1 1 s.getLastRow s.getLastColumn).any
      fun row => row.getD c Value.emptyV ≠ Value.emptyV) = true) :
    ∃ x, (s.cell0 x c).value ≠ Value.emptyV := by
  rw [List.any_eq_true] at hq
  obtain ⟨row, hmem, hrq⟩ := hq
  unfold Sheet.getValues at hmem
  rw [List.mem_map] at hmem
  obtain ⟨i, hi, hieq⟩ := hmem
  subst hieq
  rw [decide_eq_true_eq] at hrq
  by_cases hc : c < s.getLastColumn
  · rw [getD_map_range, if_pos hc, show (1 : Nat) - 1 + i = i from by omega,
      show (1 : Nat) - 1 + c = c from by omega] at hrq
    exact ⟨i, hrq⟩
  · rw [getD_map_range, if_neg hc] at hrq
    exact absurd rfl hrq

theorem getLastNonEmptyColumnS_ge (s : Sheet) (st : Nat) :
    st ≤ s.getLastNonEmptyColumnS st := by
  simp only [Sheet.getLastNonEmptyColumnS]
  split
  · omega
  · split
    · rename_i c hscan
      have := scanColsDown_some _ _ _ _ hscan
      omega
    · omega

theorem lt_lastNonEmptyCol_of_value (s : Sheet) (st x c : Nat) (hstc : st - 1 ≤ c)
    (h : (s.cell0 x c).value ≠ Value.emptyV) : c < s.getLastNonEmptyColumnS st := by
  have hcell : s.cell0 x c ≠ Cell.emptyC := by
    intro he
    rw [he] at h
    exact h rfl
  have hxr : x < s.getLastRow := lt_lastRow_of_cell_ne_empty s x c hcell
  have hyc : c < s.getLastColumn := lt_lastCol_of_cell_ne_empty s x c hcell
  have hq := colscan_q_of_cell s x c hxr hyc h
  simp only [Sheet.getLastNonEmptyColumnS]
  rw [if_neg (by
    simp only [Bool.or_eq_true, decide_eq_true_eq]
    rintro (h0 | h0) <;> omega)]
  split
  · rename_i c2 hscan
    obtain ⟨ha, hb, hcq, hd⟩ := scanColsDown_some _ _ _ _ hscan
    by_contra hcon
    have hcc : c2 < c := by omega
    rw [hd c hcc hyc] at hq
    cases hq
  · rename_i hscan
    rw [scanColsDown_none _ _ _ hscan c hstc hyc] at hq
    cases hq

theorem value_empty_of_lastNonEmptyCol_le (s : Sheet) (st x c : Nat) (hstc : st ≤ c)
    (h : s.getLastNonEmptyColumnS st ≤ c) : (s.cell0 x c).value = Value.emptyV := by
  by_contra hne
  have := lt_lastNonEmptyCol_of_value s st x c (by omega) hne
  omega

theorem lastNonEmptyCol_le_of_empty (s : Sheet) (st m : Nat) (hm : st ≤ m)
    (h : ∀ x c, m ≤ c → (s.cell0 x c).value = Value.emptyV) :
    s.getLastNonEmptyColumnS st ≤ m := by
  simp only [Sheet.getLastNonEmptyColumnS]
  split
  · omega
  · split
    · rename_i c2 hscan
      obtain ⟨ha, hb, hcq, hd⟩ := scanColsDown_some _ _ _ _ hscan
      by_contra hcon
      obtain ⟨x, hx⟩ := colscan_cell_of_q s c2 hcq
      rw [h x c2 (by omega)] at hx
      exact hx rfl
    · omega

theorem hasOwn_of_getOrEmpty_ne (r : RecordObj) (k : String)
    (h : getOrEmpty r k ≠ Value.emptyV) : hasOwn r k = true := by
  unfold getOrEmpty at h
  unfold hasOwn
  cases hl : r.lookup k with
  | none =>
    rw [hl] at h
    exact absurd rfl h
  | some v => rfl

/-- C9 counterexample input: a table whose last populated row is 3. -/
def c9sheetCx : Sheet := ⟨"T", [[⟨Value.str "H", ""⟩], [], [⟨Value.str "x", ""⟩]]⟩

/-- Appending one record with no fields. -/
def c9afterCx : Option Sheet :=
  objectsToSheetV2 [[]] c9sheetCx 1 3 ⟨"append", false, true⟩

/-- C9 counterexample: appending N = 1 record (with no fields) to a
non-empty table writes a blank line, so the last populated row stays 3
instead of increasing by exactly 1 as the claim requires. -/
theorem c9_counterexample :
    c9afterCx.isSome = true ∧
    (c9afterCx.getD c9sheetCx).getLastNonEmptyRowS = 3 ∧
    c9sheetCx.getLastNonEmptyRowS = 3 := by
  refine ⟨?_, ?_, ?_⟩ <;> decide

/-- C9 amended: appending `N ≥ 1` records, each of which supplies at
least one header (resp. property) field with a non-empty value,
increases the last populated row (normal) or last populated column
(pivot) by exactly `N`, and no cell on or before the previous last
populated line changes. -/
theorem c9_append_monotonic :
    (∀ (array : List RecordObj) (s : Sheet) (h st : Nat) (pf : Bool),
      1 ≤ array.length →
      (∀ i, i < array.length → ∃ j, j < (headersOf s h).length ∧
        getOrEmpty (array.getD i []) (((headersOf s h).getD j Value.emptyV).keyOf) ≠
          Value.emptyV) →
      ∃ t, objectsToSheetV2 array s h st ⟨"append", false, pf⟩ = some t ∧
        t.getLastNonEmptyRowS = s.getLastNonEmptyRowS + array.length ∧
        ∀ r c, r ≤ s.getLastNonEmptyRowS → t.getCell r c = s.getCell r c) ∧
    (∀ (array : List RecordObj) (s : Sheet) (h st : Nat) (pf : Bool),
      1 ≤ array.length → 1 ≤ st →
      (∀ i, i < array.length → ∃ j, j < (propertiesOf s h).length ∧
        getOrEmpty (array.getD i []) (((propertiesOf s h).getD j Value.emptyV).keyOf) ≠
          Value.emptyV) →
      ∃ t, objectsToSheetV2 array s h st ⟨"append", true, pf⟩ = some t ∧
        t.getLastNonEmptyColumnS st = s.getLastNonEmptyColumnS st + array.length ∧
        ∀ r c, c ≤ s.getLastNonEmptyColumnS st → t.getCell r c = s.getCell r c) := by
  constructor
  · intro array s h st pf hN hrec
    rw [objectsToSheetV2_norm_append]
    dsimp only
    have hlen : (encodeRows (headersOf s h) array).length = array.length := encodeRows_length _ _
    rw [if_pos (by omega)]
    refine ⟨_, rfl, ?_, ?_⟩
    · set L := s.getLastNonEmptyRowS with hL
      have hL1 : 1 ≤ L := getLastNonEmptyRowS_pos s
      set t := s.setValuesM (L + 1) 1 (encodeRows (headersOf s h) array) with ht
      have htc : ∀ x y, (t.cell0 x y) =
          if L + 1 - 1 ≤ x ∧ x < L + 1 - 1 + (encodeRows (headersOf s h) array).length ∧
            1 - 1 ≤ y ∧ y < 1 - 1 +
              ((encodeRows (headersOf s h) array).getD (x - (L + 1 - 1)) []).length
          then ⟨((encodeRows (headersOf s h) array).getD (x - (L + 1 - 1)) []).getD
            (y - (1 - 1)) Value.emptyV, ""⟩
          else s.cell0 x y := fun x y => cell0_setValuesM s (L + 1) 1 _ x y
      -- lower bound: the last appended row holds a non-empty value
      obtain ⟨j, hj, hval⟩ := hrec (array.length - 1) (by omega)
      have hlow : (t.cell0 (L + array.length - 1) j).value ≠ Value.emptyV := by
        rw [htc]
        rw [if_pos (by
          refine ⟨by omega, by rw [hlen]; omega, by omega, ?_⟩
          rw [show L + array.length - 1 - (L + 1 - 1) = array.length - 1 from by omega,
            encodeRows_row_length _ _ _ (by omega)]
          omega)]
        rw [show L + array.length - 1 - (L + 1 - 1) = array.length - 1 from by omega,
          encodeRows_row _ _ _ (by omega), show j - (1 - 1) = j from by omega,
          getD_map_lt _ _ j Value.emptyV Value.emptyV (by omega)]
        simp only [hasOwn_of_getOrEmpty_ne _ _ hval, if_true, ite_true]
        exact hval
      have hge := lt_lastNonEmptyRow_of_value t (L + array.length - 1) j hlow
      -- upper bound: everything from row L + N on is value-blank
      have hup : t.getLastNonEmptyRowS ≤ L + array.length := by
        apply lastNonEmptyRow_le_of_empty t (L + array.length) (by omega)
        intro x y hx
        rw [htc]
        rw [if_neg (by
          rintro ⟨-, h2, -, -⟩
          rw [hlen] at h2
          omega)]
        exact value_empty_of_lastNonEmptyRow_le s x y (by omega)
      omega
    · intro r c hr
      have hL1 : 1 ≤ s.getLastNonEmptyRowS := getLastNonEmptyRowS_pos s
      unfold Sheet.getCell
      rw [cell0_setValuesM]
      rw [if_neg (by rintro ⟨h1, -, -, -⟩; omega)]
  · intro array s h st pf hN hst hrec
    rw [objectsToSheetV2_pivot_append]
    dsimp only
    refine ⟨_, rfl, ?_, ?_⟩
    · set C := s.getLastNonEmptyColumnS st with hC
      have hCst : st ≤ C := getLastNonEmptyColumnS_ge s st
      set B := (List.range (propertiesOf s h).length).map fun i =>
        array.map fun obj =>
          if hasOwn obj (((propertiesOf s h).getD i Value.emptyV).keyOf) then
            getOrEmpty obj (((propertiesOf s h).getD i Value.emptyV).keyOf)
          else Value.emptyV with hB
      have hBlen : B.length = (propertiesOf s h).length := by
        rw [hB]
        simp
      have hBrow : ∀ i, i < (propertiesOf s h).length → B.getD i [] =
          array.map fun obj =>
            if hasOwn obj (((propertiesOf s h).getD i Value.emptyV).keyOf) then
              getOrEmpty obj (((propertiesOf s h).getD i Value.emptyV).keyOf)
            else Value.emptyV := by
        intro i hi
        rw [hB, getD_map_range, if_pos hi]
      have hBrowlen : ∀ i, (B.getD i []).length ≤ array.length := by
        intro i
        rcases Nat.lt_or_ge i (propertiesOf s h).length with hi | hi
        · rw [hBrow i hi]
          simp
        · rw [hB, getD_map_range, if_neg (by omega)]
          simp
      obtain ⟨j, hj, hval⟩ := hrec (array.length - 1) (by omega)
      have hlow : ((s.setValuesM 1 (C + 1) B).cell0 j (C + array.length - 1)).value ≠
          Value.emptyV := by
        rw [cell0_setValuesM]
        rw [if_pos (by
          refine ⟨by omega, by rw [hBlen]; omega, by omega, ?_⟩
          rw [show j - (1 - 1) = j from by omega, hBrow j hj]
          simp only [List.length_map]
          omega)]
        rw [show j - (1 - 1) = j from by omega, hBrow j hj,
          show C + array.length - 1 - (C + 1 - 1) = array.length - 1 from by omega,
          getD_map_lt _ _ (array.length - 1) Value.emptyV [] (by omega)]
        simp only [hasOwn_of_getOrEmpty_ne _ _ hval, if_true, ite_true]
        exact hval
      have hge := lt_lastNonEmptyCol_of_value (s.setValuesM 1 (C + 1) B) st j
        (C + array.length - 1) (by omega) hlow
      have hup : (s.setValuesM 1 (C + 1) B).getLastNonEmptyColumnS st ≤ C + array.length := by
        apply lastNonEmptyCol_le_of_empty _ st (C + array.length) (by omega)
        intro x c hc
        rw [cell0_setValuesM]
        rw [if_neg (by
          rintro ⟨-, -, -, h4⟩
          have := hBrowlen (x - (1 - 1))
          omega)]
        exact value_empty_of_lastNonEmptyCol_le s st x c (by omega) (by omega)
      omega
    · intro r c hc
      have hC1 : st ≤ s.getLastNonEmptyColumnS st := getLastNonEmptyColumnS_ge s st
      unfold Sheet.getCell
      rw [cell0_setValuesM]
      rw [if_neg (by rintro ⟨-, -, h3, -⟩; omega)]

theorem c9_append_monotonic_witness :
    (1 ≤ ([[("H", Value.str "y")]] : List RecordObj).length ∧
      (∀ i, i < ([[("H", Value.str "y")]] : List RecordObj).length →
        ∃ j, j < (headersOf c9sheetCx 1).length ∧
          getOrEmpty (([[("H", Value.str "y")]] : List RecordObj).getD i [])
            (((headersOf c9sheetCx 1).getD j Value.emptyV).keyOf) ≠ Value.emptyV)) ∧
    (∃ t, objectsToSheetV2 [[("H", Value.str "y")]] c9sheetCx 1 3 ⟨"append", false, true⟩ =
        some t ∧
      t.getLastNonEmptyRowS = c9sheetCx.getLastNonEmptyRowS + 1 ∧
      ∀ r c, r ≤ c9sheetCx.getLastNonEmptyRowS → t.getCell r c = c9sheetCx.getCell r c) :=
  ⟨⟨by decide, by decide⟩,
    c9_append_monotonic.1 [[("H", Value.str "y")]] c9sheetCx 1 3 true (by decide) (by decide)⟩

/-! ### Characterization of the `existingRowsMap` -/

theorem map_id_of_lookup_none {α β : Type} [DecidableEq α] (m : List (α × β)) (k : α)
    (val : β) (h : m.lookup k = none) :
    (m.map fun p => if p.1 = k then (k, val) else p) = m := by
  induction m with
  | nil => rfl
  | cons p t ih =>
    obtain ⟨pk, pv⟩ := p
    simp only [List.lookup] at h
    cases hbe : k == pk with
    | true =>
      rw [hbe] at h
      cases h
    | false =>
      rw [hbe] at h
      have hp : pk ≠ k := by
        intro he
        rw [he] at hbe
        simp at hbe
      simp only [List.map_cons, if_neg hp, ih h]

theorem lookup_mapSet {α β : Type} [DecidableEq α] (m : List (α × β)) (k : α) (val : β)
    (v : α) :
    (mapSet m k val).lookup v = if v = k then some val else m.lookup v := by
  unfold mapSet
  by_cases hk : (m.lookup k).isSome
  · rw [if_pos hk]
    induction m with
    | nil => cases hk
    | cons p t ih =>
      obtain ⟨pk, pv⟩ := p
      simp only [List.map_cons]
      by_cases hp : pk = k
      · rw [if_pos hp]
        by_cases hv : v = k
        · subst hv
          simp [List.lookup]
        · have hbv : (v == k) = false := by simpa using hv
          have hbv2 : (v == pk) = false := by rw [hp]; simpa using hv
          simp only [List.lookup, hbv, hbv2, if_neg hv]
          by_cases ht : (t.lookup k).isSome
          · have := ih ht
            rw [if_neg hv] at this
            exact this
          · rw [map_id_of_lookup_none t k val
              (by cases hlk : t.lookup k with
                  | none => rfl
                  | some w => rw [hlk] at ht; simp at ht)]
      · rw [if_neg hp]
        simp only [List.lookup] at hk ⊢
        have hbk : (k == pk) = false := beq_eq_false_iff_ne.mpr (fun he => hp he.symm)
        rw [hbk] at hk
        by_cases hv : v = pk
        · have hbv : (v == pk) = true := beq_iff_eq.mpr hv
          rw [hbv]
          rw [if_neg (show ¬ v = k by rw [hv]; exact hp)]
        · have hbv : (v == pk) = false := by simpa using hv
          rw [hbv]
          have := ih hk
          simp only [List.lookup] at this
          exact this
  · rw [if_neg hk]
    induction m with
    | nil =>
      simp only [List.nil_append, List.lookup]
      by_cases hv : v = k
      · have hbv : (v == k) = true := by simpa using hv
        rw [hbv, if_pos hv]
      · have hbv : (v == k) = false := by simpa using hv
        rw [hbv, if_neg hv]
    | cons p t ih =>
      obtain ⟨pk, pv⟩ := p
      simp only [List.lookup] at hk ⊢
      by_cases hv : v = pk
      · have hbv : (v == pk) = true := by simpa using hv
        rw [hbv]
        rw [if_neg (by
          intro he
          rw [he] at hv
          have hbk : (k == pk) = true := by simpa using hv
          rw [hbk] at hk
          simp at hk)]
      · have hbv : (v == pk) = false := by simpa using hv
        rw [hbv]
        by_cases hkp : k = pk
        · have hbk : (k == pk) = true := by simpa using hkp
          rw [hbk] at hk
          simp at hk
        · have hbk : (k == pk) = false := by simpa using hkp
          rw [hbk] at hk
          exact ih hk

/-- What `existingRowsMap.get(v)` returns for a non-empty value `v`:
the highest row index in `[1, sheetData.length)` whose match cell holds
`v` (JS `Map.set` keeps the last write for a duplicated key). -/
theorem buildExistingRowsMap_lookup (sd : List (List Value)) (col : Nat) (v : Value)
    (hv : v ≠ Value.emptyV) :
    (buildExistingRowsMap sd col).lookup v =
      scanColsDown (fun i => (sd.getD i []).getD col Value.emptyV == v) 1 sd.length := by
  unfold buildExistingRowsMap
  suffices hgen : ∀ n : Nat,
      (((List.range n).drop 1).foldl (fun m i =>
        let rowVal := (sd.getD i []).getD col Value.emptyV
        if rowVal ≠ Value.emptyV then mapSet m rowVal i else m) []).lookup v =
      scanColsDown (fun i => (sd.getD i []).getD col Value.emptyV == v) 1 n from hgen sd.length
  intro n
  induction n with
  | zero => rfl
  | succ n ih =>
    by_cases hn : n = 0
    · subst hn
      rfl
    · have hsplit : (List.range (n + 1)).drop 1 = (List.range n).drop 1 ++ [n] := by
        rw [List.range_succ, List.drop_append_of_le_length (by
          rw [List.length_range]
          omega)]
      rw [hsplit, List.foldl_append, List.foldl_cons, List.foldl_nil]
      show ((if (sd.getD n []).getD col Value.emptyV ≠ Value.emptyV then
        mapSet _ ((sd.getD n []).getD col Value.emptyV) n else _)).lookup v = _
      unfold scanColsDown
      have hn1 : ¬ (n < 1) := by omega
      rw [if_neg hn1]
      by_cases hrv : (sd.getD n []).getD col Value.emptyV = v
      · have hne : (sd.getD n []).getD col Value.emptyV ≠ Value.emptyV := by
          rw [hrv]; exact hv
        have hq : ((sd.getD n []).getD col Value.emptyV == v) = true := beq_iff_eq.mpr hrv
        rw [if_pos hne, lookup_mapSet, if_pos hrv.symm, if_pos hq]
      · have hq : ¬ (((sd.getD n []).getD col Value.emptyV == v) = true) := by
          simp only [beq_iff_eq]
          exact hrv
        rw [if_neg hq]
        by_cases hre : (sd.getD n []).getD col Value.emptyV ≠ Value.emptyV
        · rw [if_pos hre, lookup_mapSet, if_neg (fun he => hrv he.symm)]
          exact ih
        · rw [if_neg hre]
          exact ih

/-- Row indexes stored in the `existingRowsMap` are data rows: at least
1 and within the sheet data, holding the looked-up value. -/
theorem buildExistingRowsMap_lookup_bounds (sd : List (List Value)) (col : Nat) (v : Value)
    (hv : v ≠ Value.emptyV) (i : Nat)
    (h : (buildExistingRowsMap sd col).lookup v = some i) :
    1 ≤ i ∧ i < sd.length ∧ (sd.getD i []).getD col Value.emptyV = v ∧
      ∀ k, i < k → k < sd.length → (sd.getD k []).getD col Value.emptyV ≠ v := by
  rw [buildExistingRowsMap_lookup sd col v hv] at h
  obtain ⟨ha, hb, hc, hd⟩ := scanColsDown_some _ _ _ _ h
  refine ⟨ha, hb, by simpa using hc, ?_⟩
  intro k hk1 hk2 he
  have := hd k hk1 hk2
  rw [he] at this
  simp at this

/-! ### Frame facts: which lines each write operation can touch -/

/-- A row of the grid (0-based) reads identically in two sheet states. -/
def RowUnchanged (t s : Sheet) (r : Nat) : Prop := ∀ y, t.cell0 r y = s.cell0 r y

/-- A column of the grid (0-based) reads identically in two states. -/
def ColUnchanged (t s : Sheet) (c : Nat) : Prop := ∀ x, t.cell0 x c = s.cell0 x c

theorem truthy_ne_emptyV (v : Value) (h : v.truthy = true) : v ≠ Value.emptyV := by
  intro he
  subst he
  exact absurd h (by decide)

theorem upsertUpdateStep_frame (headers : List Value) (s : Sheet) (p : Nat × RecordObj)
    (x y : Nat) (hx : x ≠ p.1) :
    (upsertUpdateStep headers s p).cell0 x y = s.cell0 x y := by
  unfold upsertUpdateStep
  refine cell0_foldl _ _ _ _ _ ?_
  intro t kv _
  cases hji : jsIndexOf headers (Value.str kv.1) with
  | none => rfl
  | some ci =>
    rw [cell0_setValue1, if_neg ?_]
    rintro ⟨h1, -⟩
    exact hx (by omega)

/-- Unpacking a member of the `existingUpdates` list: it records a data
record together with the row index the map returned for its (truthy)
match value. -/
theorem existingUpdates_mem (m : List (Value × Nat)) (c : String) (data : List RecordObj)
    (p : Nat × RecordObj) (hp : p ∈ existingUpdatesOf (upsertClassify m c data)) :
    ∃ v : Value, v.truthy = true ∧ m.lookup v = some p.1 ∧ p.2 ∈ data ∧
      p.2.lookup c = some v := by
  unfold existingUpdatesOf at hp
  rw [List.mem_filterMap] at hp
  obtain ⟨x, hx, hmx⟩ := hp
  unfold upsertClassify at hx
  rw [List.mem_map] at hx
  obtain ⟨r, hr, hrx⟩ := hx
  subst hrx
  cases hl : r.lookup c with
  | none => rw [hl] at hmx; exact absurd hmx (by simp)
  | some v =>
    rw [hl] at hmx
    dsimp only at hmx
    by_cases htr : v.truthy = true
    · rw [if_neg (not_not_intro htr)] at hmx
      cases hml : m.lookup v with
      | none => rw [hml] at hmx; exact absurd hmx (by simp)
      | some ri =>
        rw [hml] at hmx
        have hpe : (ri, r) = p := by simpa using hmx
        obtain rfl := hpe
        exact ⟨v, htr, hml, hr, hl⟩
    · rw [if_pos htr] at hmx
      exact absurd hmx (by simp)

/-- Matched rows of `upsertRows` lie strictly inside the data range:
row index at least 1 (0-based, so below the header) and within the
sheet data. -/
theorem upsert_existing_row_bounds (sd : List (List Value)) (ci : Nat) (c : String)
    (data : List RecordObj) (p : Nat × RecordObj)
    (hp : p ∈ existingUpdatesOf (upsertClassify (buildExistingRowsMap sd ci) c data)) :
    1 ≤ p.1 ∧ p.1 < sd.length := by
  obtain ⟨v, htr, hml, -, -⟩ := existingUpdates_mem _ _ _ _ hp
  have hb := buildExistingRowsMap_lookup_bounds sd ci v (truthy_ne_emptyV v htr) p.1 hml
  exact ⟨hb.1, hb.2.1⟩

/-- The per-column read-modify-write of `findAndUpdateRows` starts at
row 2 and so never touches row 1. -/
theorem findUpdateColumnStep_row0 (data : List RecordObj) (c : String)
    (sd : List (List Value)) (ci : Nat) (rows : List Nat) (s : Sheet)
    (p : Nat × String) (y : Nat) :
    (findUpdateColumnStep data c sd ci rows s p).cell0 0 y = s.cell0 0 y := by
  unfold findUpdateColumnStep
  dsimp only
  rw [cell0_setValuesM, if_neg ?_]
  rintro ⟨h1, -⟩
  omega

/-- Normal-orientation `objectsToSheetV2` never touches any row above
the start line, provided the header line holds a non-empty value (so
the append scan cannot land above it). -/
theorem objectsToSheetV2_norm_row_frame (array : List RecordObj) (sheet : Sheet)
    (headerIndex startIndex : Nat) (mode : String) (pf : Bool) (t : Sheet) (x : Nat)
    (hx1 : 1 ≤ headerIndex) (hxs : x < startIndex - 1) (hxh : x ≤ headerIndex - 1)
    (hcontent : ∃ c, (sheet.cell0 (headerIndex - 1) c).value ≠ Value.emptyV)
    (ht : objectsToSheetV2 array sheet headerIndex startIndex ⟨mode, false, pf⟩ = some t) :
    RowUnchanged t sheet x := by
  intro y
  obtain ⟨cI, hcI⟩ := hcontent
  have hlast : headerIndex - 1 < sheet.getLastNonEmptyRowS :=
    lt_lastNonEmptyRow_of_value sheet _ cI hcI
  unfold objectsToSheetV2 at ht
  rw [show (⟨mode, false, pf⟩ : WriteOptions).pivot = false from rfl] at ht
  rw [if_pos (by simp : ¬ (false = true))] at ht
  dsimp only at ht
  by_cases hm1 : mode = "overwrite"
  · rw [if_pos hm1] at ht
    split at ht
    · obtain rfl := Option.some.inj ht
      rw [cell0_restoreFormulasAt startIndex (by omega), if_neg (by rintro ⟨h1, -⟩; omega)]
      split
      · rw [cell0_setValuesM, if_neg (by rintro ⟨h1, -⟩; omega),
          cell0_clearRegion, if_neg (by rintro ⟨h1, -⟩; omega)]
      · rw [cell0_clearRegion, if_neg (by rintro ⟨h1, -⟩; omega)]
    · obtain rfl := Option.some.inj ht
      split
      · rw [cell0_setValuesM, if_neg (by rintro ⟨h1, -⟩; omega)]
        split
        · rw [cell0_clearRegion, if_neg (by rintro ⟨h1, -⟩; omega)]
        · rfl
      · split
        · rw [cell0_clearRegion, if_neg (by rintro ⟨h1, -⟩; omega)]
        · rfl
  · rw [if_neg hm1] at ht
    by_cases hm2 : mode = "append"
    · rw [if_pos hm2] at ht
      obtain rfl := Option.some.inj ht
      split
      · rw [cell0_setValuesM, if_neg (by rintro ⟨h1, -⟩; omega)]
      · rfl
    · rw [if_neg hm2] at ht
      by_cases hm3 : mode = "overlay"
      · rw [if_pos hm3] at ht
        split at ht
        · obtain rfl := Option.some.inj ht
          rw [cell0_setValuesM, if_neg (by rintro ⟨h1, -⟩; omega)]
        · obtain rfl := Option.some.inj ht
          exact cell0_foldl _ _ _ _ _
            (fun tt b _ => overlayRowStep_frame _ _ _ tt b _ _ (by omega))
      · rw [if_neg hm3] at ht
        exact Option.noConfusion ht

/-- Pivot-orientation `objectsToSheetV2` never touches any column
before the start column. -/
theorem objectsToSheetV2_pivot_col_frame (array : List RecordObj) (sheet : Sheet)
    (headerIndex startIndex : Nat) (mode : String) (pf : Bool) (t : Sheet) (y : Nat)
    (hys : y < startIndex - 1)
    (ht : objectsToSheetV2 array sheet headerIndex startIndex ⟨mode, true, pf⟩ = some t) :
    ColUnchanged t sheet y := by
  intro x
  have hge := getLastNonEmptyColumnS_ge sheet startIndex
  unfold objectsToSheetV2 at ht
  rw [show (⟨mode, true, pf⟩ : WriteOptions).pivot = true from rfl] at ht
  rw [if_neg (by simp : ¬ ¬ (true = true))] at ht
  dsimp only at ht
  by_cases hm1 : mode = "append"
  · rw [if_pos hm1] at ht
    obtain rfl := Option.some.inj ht
    rw [cell0_setValuesM, if_neg (by rintro ⟨-, -, h3, -⟩; omega)]
  · rw [if_neg hm1] at ht
    by_cases hm2 : mode = "overwrite"
    · rw [if_pos hm2] at ht
      obtain rfl := Option.some.inj ht
      exact cell0_foldl _ _ _ _ _
        (fun tt p _ => pivotOverwriteStep_frame _ _ _ tt p _ _ (by omega))
    · rw [if_neg hm2] at ht
      by_cases hm3 : mode = "overlay"
      · rw [if_pos hm3] at ht
        split at ht
        · obtain rfl := Option.some.inj ht
          rw [cell0_setValuesM, if_neg (by rintro ⟨-, -, h3, -⟩; omega)]
        · obtain rfl := Option.some.inj ht
          exact cell0_foldl _ _ _ _ _
            (fun tt p _ => pivotOverlayStep_frame _ _ tt p _ _ (by omega))
      · rw [if_neg hm3] at ht
        exact Option.noConfusion ht

/-- `upsertRows` only writes matched data rows (index at least 1) and
appended rows below the last populated one, so row 1 is untouched. -/
theorem upsertRows_row0_frame (sheet : Sheet) (data : List RecordObj)
    (columnToMatch : String) (t : Sheet)
    (ht : upsertRows sheet data columnToMatch = some t) :
    RowUnchanged t sheet 0 := by
  intro y
  unfold upsertRows at ht
  by_cases hlen : data.length = 0
  · rw [if_pos hlen] at ht
    obtain rfl := Option.some.inj ht
    rfl
  · rw [if_neg hlen] at ht
    dsimp only at ht
    cases hji : jsIndexOf (sheet.dataRangeValues.getD 0 []) (Value.str columnToMatch) with
    | none =>
      rw [hji] at ht
      exact Option.noConfusion ht
    | some ci =>
      rw [hji] at ht
      dsimp only at ht
      obtain rfl := Option.some.inj ht
      have hframe : ∀ s4 : Sheet,
          (List.foldl (upsertUpdateStep (sheet.dataRangeValues.getD 0 []))
            sheet (existingUpdatesOf (upsertClassify
              (buildExistingRowsMap sheet.dataRangeValues ci) columnToMatch data))).cell0 0 y =
          sheet.cell0 0 y := fun _ =>
        cell0_foldl _ _ _ _ _ (fun tt p hp =>
          upsertUpdateStep_frame _ tt p 0 y
            (by have hb := upsert_existing_row_bounds _ _ _ _ p hp; omega))
      split
      · rw [cell0_setValuesM, if_neg ?_]
        · exact hframe sheet
        · rintro ⟨h1, -⟩
          have hpos := getLastNonEmptyRowS_pos (List.foldl
            (upsertUpdateStep (sheet.dataRangeValues.getD 0 []))
            sheet (existingUpdatesOf (upsertClassify
              (buildExistingRowsMap sheet.dataRangeValues ci) columnToMatch data)))
          omega
      · exact hframe sheet

/-- `findAndUpdateRows` writes columns only from row 2 down, so row 1
is untouched. -/
theorem findAndUpdateRows_row0_frame (sheet : Sheet) (data : List RecordObj)
    (columnToMatch : String) (columnsToAdd : List String) (t : Sheet)
    (ht : findAndUpdateRows sheet data columnToMatch columnsToAdd = some t) :
    RowUnchanged t sheet 0 := by
  intro y
  unfold findAndUpdateRows at ht
  by_cases hsd : sheet.dataRangeValues.length < 2
  · rw [if_pos hsd] at ht
    obtain rfl := Option.some.inj ht
    rfl
  · rw [if_neg hsd] at ht
    dsimp only at ht
    cases hji : jsIndexOf (sheet.dataRangeValues.getD 0 []) (Value.str columnToMatch) with
    | none =>
      rw [hji] at ht
      exact Option.noConfusion ht
    | some ci =>
      rw [hji] at ht
      dsimp only at ht
      split at ht
      · obtain rfl := Option.some.inj ht
        rfl
      · split at ht
        · obtain rfl := Option.some.inj ht
          rfl
        · obtain rfl := Option.some.inj ht
          exact cell0_foldl _ _ _ _ _
            (fun tt p _ => findUpdateColumnStep_row0 _ _ _ _ _ tt p y)

/-- C10: whenever the header line lies strictly before the start line
and holds at least one non-empty value, every write operation leaves it
completely unchanged (values and formulas) — the header row for
normal-orientation `objectsToSheetV2` in any mode, the header column
for pivot orientation in any mode, and row 1 for `upsertRows` and
`findAndUpdateRows`. -/
theorem c10_header_line_untouched (sheet : Sheet) (array data : List RecordObj)
    (headerIndex startIndex : Nat) (mode : String) (pf : Bool)
    (columnToMatch : String) (columnsToAdd : List String)
    (hh1 : 1 ≤ headerIndex) (hhs : headerIndex < startIndex)
    (hcontent : ∃ c, (sheet.cell0 (headerIndex - 1) c).value ≠ Value.emptyV) :
    (∀ t, objectsToSheetV2 array sheet headerIndex startIndex ⟨mode, false, pf⟩ = some t →
      RowUnchanged t sheet (headerIndex - 1)) ∧
    (∀ t, objectsToSheetV2 array sheet headerIndex startIndex ⟨mode, true, pf⟩ = some t →
      ColUnchanged t sheet (headerIndex - 1)) ∧
    (∀ t, upsertRows sheet data columnToMatch = some t → RowUnchanged t sheet 0) ∧
    (∀ t, findAndUpdateRows sheet data columnToMatch columnsToAdd = some t →
      RowUnchanged t sheet 0) :=
  ⟨fun t ht => objectsToSheetV2_norm_row_frame array sheet headerIndex startIndex mode pf t
      (headerIndex - 1) hh1 (by omega) (Nat.le_refl _) hcontent ht,
   fun t ht => objectsToSheetV2_pivot_col_frame array sheet headerIndex startIndex mode pf t
      (headerIndex - 1) (by omega) ht,
   fun t ht => upsertRows_row0_frame sheet data columnToMatch t ht,
   fun t ht => findAndUpdateRows_row0_frame sheet data columnToMatch columnsToAdd t ht⟩

def c10sheetW : Sheet :=
  ⟨"W", [[⟨Value.str "K", ""⟩, ⟨Value.str "A", ""⟩],
         [⟨Value.str "x", ""⟩, ⟨Value.num 1, ""⟩]]⟩

theorem c10_header_line_untouched_witness :
    ((1 : Nat) ≤ 1 ∧ (1 : Nat) < 2 ∧
      ∃ c, ((c10sheetW.cell0 0 c).value ≠ Value.emptyV)) ∧
    ((∀ t, objectsToSheetV2 [[("K", Value.str "y")]] c10sheetW 1 2
        ⟨"append", false, false⟩ = some t → RowUnchanged t c10sheetW 0) ∧
     (∀ t, objectsToSheetV2 [[("K", Value.str "y")]] c10sheetW 1 2
        ⟨"append", true, false⟩ = some t → ColUnchanged t c10sheetW 0) ∧
     (∀ t, upsertRows c10sheetW [[("K", Value.str "x")]] "K" = some t →
        RowUnchanged t c10sheetW 0) ∧
     (∀ t, findAndUpdateRows c10sheetW [[("K", Value.str "x")]] "K" ["A"] = some t →
        RowUnchanged t c10sheetW 0)) :=
  ⟨⟨by decide, by decide, ⟨0, by decide⟩⟩,
   c10_header_line_untouched c10sheetW [[("K", Value.str "y")]] [[("K", Value.str "x")]]
     1 2 "append" false "K" ["A"] (by decide) (by decide) ⟨0, by decide⟩⟩

theorem dataRangeValues_length (s : Sheet) :
    s.dataRangeValues.length = max s.getLastRow 1 := by
  unfold Sheet.dataRangeValues
  rw [getValues_length]

/-- A non-empty entry of `getDataRange().getValues()` is the stored
value of the corresponding cell. -/
theorem dataRangeValues_value (s : Sheet) (i j : Nat) (hi : i < max s.getLastRow 1)
    (hne : (s.dataRangeValues.getD i []).getD j Value.emptyV ≠ Value.emptyV) :
    (s.cell0 i j).value = (s.dataRangeValues.getD i []).getD j Value.emptyV := by
  rw [dataRangeValues_row s i hi] at hne ⊢
  rw [getD_map_range] at hne ⊢
  by_cases hj : j < max s.getLastColumn 1
  · rw [if_pos hj]
  · rw [if_neg hj] at hne
    exact absurd rfl hne

/-- The batch append of `upsertRows` starts below the last populated
row and so cannot touch any row holding a non-empty value. -/
theorem cell0_append_block_above (s4 : Sheet) (rows : List (List Value)) (x y : Nat)
    (hx : x < s4.getLastNonEmptyRowS) :
    (s4.setValuesM (s4.getLastNonEmptyRowS + 1) 1 rows).cell0 x y = s4.cell0 x y := by
  rw [cell0_setValuesM, if_neg ?_]
  rintro ⟨h1, -⟩
  omega

def c3sheetCx : Sheet :=
  ⟨"C", [[⟨Value.str "K", ""⟩, ⟨Value.str "A", ""⟩],
         [⟨Value.str "x", ""⟩, ⟨Value.num 1, ""⟩],
         [⟨Value.str "x", ""⟩, ⟨Value.num 2, ""⟩]]⟩

/-- The upsert of one record whose match value is duplicated in rows 2
and 3 of `c3sheetCx`. -/
def c3afterCx : Option Sheet :=
  upsertRows c3sheetCx [[("K", Value.str "x"), ("A", Value.num 9)]] "K"

/-- C3 counterexample: with the match value `x` present in both row 2
and row 3, the upsert leaves the first occurrence (row 2) untouched and
writes the record into the *last* occurrence (row 3) — `Map.set`
overwrites a duplicated key, so the highest row index wins, not the
lowest as claimed. -/
theorem c3_counterexample :
    c3afterCx.isSome = true ∧
    ((c3afterCx.getD c3sheetCx).getCell 2 2).value = Value.num 1 ∧
    ((c3afterCx.getD c3sheetCx).getCell 3 2).value = Value.num 9 ∧
    Value.num 1 ≠ Value.num 9 := by
  refine ⟨?_, ?_, ?_, ?_⟩ <;> decide

/-- C3 (amended): on duplicate match values the LAST occurrence wins: a
data row whose match-column value reappears in a later row is never
touched by `upsertRows` — neither by the update pass (the row map keeps
only the highest row index per value) nor by the append pass (which
writes below the last populated row). -/
theorem c3_last_duplicate_wins (sheet : Sheet) (data : List RecordObj)
    (columnToMatch : String) (ci : Nat) (t : Sheet) (r k : Nat) (v : Value)
    (hji : jsIndexOf (sheet.dataRangeValues.getD 0 []) (Value.str columnToMatch) = some ci)
    (ht : upsertRows sheet data columnToMatch = some t)
    (hr1 : 1 ≤ r)
    (hv : (sheet.dataRangeValues.getD r []).getD ci Value.emptyV = v)
    (hvne : v ≠ Value.emptyV)
    (hrk : r < k) (hk : k < sheet.dataRangeValues.length)
    (hkv : (sheet.dataRangeValues.getD k []).getD ci Value.emptyV = v) :
    RowUnchanged t sheet r := by
  intro y
  unfold upsertRows at ht
  by_cases hlen : data.length = 0
  · rw [if_pos hlen] at ht
    obtain rfl := Option.some.inj ht
    rfl
  · rw [if_neg hlen] at ht
    dsimp only at ht
    rw [hji] at ht
    dsimp only at ht
    obtain rfl := Option.some.inj ht
    have hupd : ∀ p, p ∈ existingUpdatesOf (upsertClassify
        (buildExistingRowsMap sheet.dataRangeValues ci) columnToMatch data) → p.1 ≠ r := by
      intro p hp hpe
      obtain ⟨w, htr, hml, -, -⟩ := existingUpdates_mem _ _ _ _ hp
      have hb := buildExistingRowsMap_lookup_bounds sheet.dataRangeValues ci w
        (truthy_ne_emptyV w htr) p.1 hml
      rw [hpe] at hb
      have hwv : v = w := by rw [← hv, hb.2.2.1]
      exact hb.2.2.2 k hrk hk (by rw [hkv]; exact hwv)
    have hframe : ∀ y2, (List.foldl (upsertUpdateStep (sheet.dataRangeValues.getD 0 []))
        sheet (existingUpdatesOf (upsertClassify (buildExistingRowsMap sheet.dataRangeValues ci)
          columnToMatch data))).cell0 r y2 = sheet.cell0 r y2 :=
      fun y2 => cell0_foldl _ _ _ _ _ (fun tt p hp =>
        upsertUpdateStep_frame _ tt p r y2 (fun he => hupd p hp he.symm))
    have hrlt : r < max sheet.getLastRow 1 := by
      have hlen2 := dataRangeValues_length sheet
      omega
    have hcellv : (sheet.cell0 r ci).value = v := by
      rw [dataRangeValues_value sheet r ci hrlt (by rw [hv]; exact hvne), hv]
    split
    · refine (cell0_append_block_above _ _ r y ?_).trans (hframe y)
      refine lt_lastNonEmptyRow_of_value _ r ci ?_
      rw [hframe ci, hcellv]
      exact hvne
    · exact hframe y

/-- The sheet after the witness upsert: row 3 (the last duplicate)
rewritten, row 2 untouched. -/
def c3afterW : Sheet :=
  ⟨"C", [[⟨Value.str "K", ""⟩, ⟨Value.str "A", ""⟩],
         [⟨Value.str "x", ""⟩, ⟨Value.num 1, ""⟩],
         [⟨Value.str "x", ""⟩, ⟨Value.num 9, ""⟩]]⟩

theorem c3_last_duplicate_wins_witness :
    (jsIndexOf (c3sheetCx.dataRangeValues.getD 0 []) (Value.str "K") = some 0 ∧
     upsertRows c3sheetCx [[("K", Value.str "x"), ("A", Value.num 9)]] "K" = some c3afterW ∧
     (1 : Nat) ≤ 1 ∧
     (c3sheetCx.dataRangeValues.getD 1 []).getD 0 Value.emptyV = Value.str "x" ∧
     Value.str "x" ≠ Value.emptyV ∧ (1 : Nat) < 2 ∧
     2 < c3sheetCx.dataRangeValues.length ∧
     (c3sheetCx.dataRangeValues.getD 2 []).getD 0 Value.emptyV = Value.str "x") ∧
    RowUnchanged c3afterW c3sheetCx 1 :=
  ⟨⟨by decide, by decide, by decide, by decide, by decide, by decide, by decide, by decide⟩,
   c3_last_duplicate_wins c3sheetCx [[("K", Value.str "x"), ("A", Value.num 9)]] "K" 0
     c3afterW 1 2 (Value.str "x") (by decide) (by decide) (by decide) (by decide) (by decide)
     (by decide) (by decide) (by decide)⟩

/-! ### Support for the encode/decode round trip -/

theorem getLastRow_le_of_empty (s : Sheet) (m : Nat)
    (h : ∀ x y, m ≤ x → s.cell0 x y = Cell.emptyC) : s.getLastRow ≤ m := by
  by_contra hc
  have hlast := getD_lastPos (fun row => row.any Cell.hasContent) s.grid [] (by
    show 1 ≤ s.getLastRow
    omega)
  rw [List.any_eq_true] at hlast
  obtain ⟨c, hcmem, hcp⟩ := hlast
  rw [List.mem_iff_getElem] at hcmem
  obtain ⟨j, hj, hje⟩ := hcmem
  have hcell : s.cell0 (s.getLastRow - 1) j = c := by
    unfold Sheet.cell0
    rw [show s.getLastRow = lastPos (fun row => row.any Cell.hasContent) s.grid from rfl,
      List.getD_eq_getElem _ _ hj, hje]
  have := h (s.getLastRow - 1) j (by omega)
  rw [hcell] at this
  rw [this] at hcp
  exact absurd hcp (by decide)

theorem foldr_max_le_iff (l : List Nat) (m : Nat) :
    l.foldr max 0 ≤ m ↔ ∀ a ∈ l, a ≤ m := by
  induction l with
  | nil => simp
  | cons a t ih => simp [Nat.max_le, ih]

theorem getLastColumn_le_of_empty (s : Sheet) (m : Nat)
    (h : ∀ x y, m ≤ y → s.cell0 x y = Cell.emptyC) : s.getLastColumn ≤ m := by
  unfold Sheet.getLastColumn
  rw [foldr_max_le_iff]
  intro a ha
  rw [List.mem_map] at ha
  obtain ⟨row, hrmem, hre⟩ := ha
  rw [List.mem_iff_getElem] at hrmem
  obtain ⟨i, hi, hie⟩ := hrmem
  subst hre
  by_contra hc
  have hlast := getD_lastPos Cell.hasContent row Cell.emptyC (by omega)
  have hcell : s.cell0 i (lastPos Cell.hasContent row - 1) =
      row.getD (lastPos Cell.hasContent row - 1) Cell.emptyC := by
    unfold Sheet.cell0
    rw [List.getD_eq_getElem s.grid [] hi, hie]
  have := h i (lastPos Cell.hasContent row - 1) (by omega)
  rw [hcell] at this
  rw [this] at hlast
  exact absurd hlast (by decide)

theorem lookup_mem {α β : Type} [DecidableEq α] (l : List (α × β)) (k : α) (v : β)
    (h : l.lookup k = some v) : (k, v) ∈ l := by
  induction l with
  | nil => cases h
  | cons p t ih =>
    obtain ⟨pk, pv⟩ := p
    simp only [List.lookup] at h
    by_cases hk : k = pk
    · rw [beq_iff_eq.mpr hk] at h
      have : pv = v := by simpa using h
      subst this
      subst hk
      exact List.mem_cons_self _ _
    · rw [beq_eq_false_iff_ne.mpr hk] at h
      exact List.mem_cons_of_mem _ (ih h)

theorem lookup_isSome_of_mem {α β : Type} [DecidableEq α] (l : List (α × β)) (k : α) (v : β)
    (h : (k, v) ∈ l) : (l.lookup k).isSome = true := by
  induction l with
  | nil => cases h
  | cons p t ih =>
    obtain ⟨pk, pv⟩ := p
    simp only [List.lookup]
    by_cases hk : k = pk
    · rw [beq_iff_eq.mpr hk]
      rfl
    · rw [beq_eq_false_iff_ne.mpr hk]
      rcases List.mem_cons.mp h with he | hm
      · exact absurd (by simpa using congrArg Prod.fst he) hk
      · exact ih hm

/-- `obj[k] = v` in JS: same replace-or-append structure as `Map.set`. -/
theorem objSet_lookup (r : RecordObj) (k : String) (v : Value) (q : String) :
    (objSet r k v).lookup q = if q = k then some v else r.lookup q :=
  lookup_mapSet r k v q

theorem encodeRows_getD_length (headers : List Value) (array : List RecordObj) (i : Nat) :
    ((encodeRows headers array).getD i []).length ≤ headers.length := by
  by_cases hi : i < array.length
  · rw [encodeRows_row_length headers array i hi]
  · rw [List.getD_eq_default _ _ (by rw [encodeRows_length]; omega)]
    simp

/-- `decodeRows` on a list of non-blank rows: the blank-row filter is
the identity and the record array is produced. -/
theorem decodeRows_objects (sheetName : String) (headers : List Value)
    (data : List (List Value)) (displayData : Option (List (List String)))
    (useDisplayDates : Bool)
    (hnb : ∀ row ∈ data, (row.any fun cell => cell ≠ Value.emptyV) = true)
    (hne : data ≠ []) :
    decodeRows sheetName headers data displayData useDisplayDates =
      .objects (data.enum.map fun rp =>
        headers.enum.foldl (fun obj cp =>
          let header := cp.2
          if ¬ header.truthy then obj
          else
            let value := rp.2.getD cp.1 Value.emptyV
            if value.isDate && useDisplayDates && displayData.isSome then
              objSet obj header.keyOf
                (Value.str (((displayData.getD []).getD rp.1 []).getD cp.1 ""))
            else if value ≠ Value.emptyV then objSet obj header.keyOf value
            else obj) []) := by
  unfold decodeRows
  have hf : data.filter (fun row => row.any fun cell => cell ≠ Value.emptyV) = data :=
    List.filter_eq_self.mpr hnb
  rw [hf, if_neg (by
    intro h0
    exact hne (List.length_eq_zero.mp h0))]

/-- The key-value content built by the decode fold over one row: a key
covered by some truthy header whose cell is non-empty receives the
record value the row encodes (given every such cell agrees with the
record and is not a date); any other key is left as in the
accumulator. -/
theorem decode_fold_lookup (hs : List Value) (row : List Value) (ud : Bool)
    (dd : Option (List (List String))) (ri : Nat) (obj : RecordObj) (key : String) :
    ∀ (k0 : Nat) (acc : RecordObj),
    (∀ j, j < hs.length → (hs.getD j Value.emptyV).truthy = true →
       row.getD (k0 + j) Value.emptyV ≠ Value.emptyV →
       (row.getD (k0 + j) Value.emptyV).isDate = false ∧
       obj.lookup (hs.getD j Value.emptyV).keyOf = some (row.getD (k0 + j) Value.emptyV)) →
    (((List.enumFrom k0 hs).foldl (fun obj2 cp =>
        let header := cp.2
        if ¬ header.truthy then obj2
        else
          let value := row.getD cp.1 Value.emptyV
          if value.isDate && ud && dd.isSome then
            objSet obj2 header.keyOf
              (Value.str (((dd.getD []).getD ri []).getD cp.1 ""))
          else if value ≠ Value.emptyV then objSet obj2 header.keyOf value
          else obj2) acc).lookup key =
      if ∃ j, j < hs.length ∧ (hs.getD j Value.emptyV).truthy = true ∧
          (hs.getD j Value.emptyV).keyOf = key ∧
          row.getD (k0 + j) Value.emptyV ≠ Value.emptyV
      then obj.lookup key else acc.lookup key) := by
  induction hs with
  | nil =>
    intro k0 acc hcov
    rw [if_neg (by rintro ⟨j, hj, -⟩; simp at hj)]
    rfl
  | cons hv t ih =>
    intro k0 acc hcov
    have hcovt : ∀ j, j < t.length → (t.getD j Value.emptyV).truthy = true →
        row.getD (k0 + 1 + j) Value.emptyV ≠ Value.emptyV →
        (row.getD (k0 + 1 + j) Value.emptyV).isDate = false ∧
        obj.lookup (t.getD j Value.emptyV).keyOf = some (row.getD (k0 + 1 + j) Value.emptyV) := by
      intro j hj
      have hsh : (hv :: t).getD (j + 1) Value.emptyV = t.getD j Value.emptyV := rfl
      have hix : k0 + (j + 1) = k0 + 1 + j := by omega
      have := hcov (j + 1) (by simpa using Nat.succ_lt_succ hj)
      rw [hsh, hix] at this
      exact this
    show ((List.enumFrom (k0 + 1) t).foldl (fun obj2 cp =>
        let header := cp.2
        if ¬ header.truthy then obj2
        else
          let value := row.getD cp.1 Value.emptyV
          if value.isDate && ud && dd.isSome then
            objSet obj2 header.keyOf
              (Value.str (((dd.getD []).getD ri []).getD cp.1 ""))
          else if value ≠ Value.emptyV then objSet obj2 header.keyOf value
          else obj2)
      (if ¬ hv.truthy = true then acc else
        if (row.getD k0 Value.emptyV).isDate && ud && dd.isSome then
          objSet acc hv.keyOf (Value.str (((dd.getD []).getD ri []).getD k0 ""))
        else if row.getD k0 Value.emptyV ≠ Value.emptyV then
          objSet acc hv.keyOf (row.getD k0 Value.emptyV)
        else acc)).lookup key = _
    rw [ih (k0 + 1) _ hcovt]
    by_cases htail : ∃ j, j < t.length ∧ (t.getD j Value.emptyV).truthy = true ∧
        (t.getD j Value.emptyV).keyOf = key ∧ row.getD (k0 + 1 + j) Value.emptyV ≠ Value.emptyV
    · rw [if_pos htail, if_pos ?_]
      obtain ⟨j, hj, h1, h2, h3⟩ := htail
      refine ⟨j + 1, by simpa using Nat.succ_lt_succ hj, ?_, ?_, ?_⟩
      · simpa using h1
      · simpa using h2
      · have hix : k0 + (j + 1) = k0 + 1 + j := by omega
        rw [hix]
        exact h3
    · rw [if_neg htail]
      by_cases htr : hv.truthy = true
      · by_cases hrv : row.getD k0 Value.emptyV ≠ Value.emptyV
        · have hj0 := hcov 0 (by simp) (by simpa using htr)
            (by rw [Nat.add_zero]; exact hrv)
          rw [Nat.add_zero] at hj0
          have hdate : (row.getD k0 Value.emptyV).isDate = false := hj0.1
          have hlook : obj.lookup hv.keyOf = some (row.getD k0 Value.emptyV) := by
            have : ((hv :: t).getD 0 Value.emptyV) = hv := rfl
            rw [← this]
            exact hj0.2
          show (if ¬ hv.truthy = true then acc else
            if (row.getD k0 Value.emptyV).isDate && ud && dd.isSome then
              objSet acc hv.keyOf (Value.str (((dd.getD []).getD ri []).getD k0 ""))
            else if row.getD k0 Value.emptyV ≠ Value.emptyV then
              objSet acc hv.keyOf (row.getD k0 Value.emptyV)
            else acc).lookup key = _
          rw [if_neg (not_not_intro htr), if_neg (by rw [hdate]; simp),
            if_pos hrv, objSet_lookup]
          by_cases hkey : key = hv.keyOf
          · rw [if_pos hkey, if_pos ?_]
            · rw [hkey, hlook]
            · exact ⟨0, by simp, by simpa using htr, by simpa using hkey.symm,
                by rw [Nat.add_zero]; exact hrv⟩
          · rw [if_neg hkey, if_neg ?_]
            rintro ⟨j, hj, h1, h2, h3⟩
            cases j with
            | zero =>
              rw [Nat.add_zero] at h3
              exact hkey (by simpa using h2.symm)
            | succ j2 =>
              refine htail ⟨j2, by simpa using Nat.lt_of_succ_lt_succ hj, by simpa using h1,
                by simpa using h2, ?_⟩
              have hix : k0 + (j2 + 1) = k0 + 1 + j2 := by omega
              rw [← hix]
              exact h3
        · show (if ¬ hv.truthy = true then acc else
            if (row.getD k0 Value.emptyV).isDate && ud && dd.isSome then
              objSet acc hv.keyOf (Value.str (((dd.getD []).getD ri []).getD k0 ""))
            else if row.getD k0 Value.emptyV ≠ Value.emptyV then
              objSet acc hv.keyOf (row.getD k0 Value.emptyV)
            else acc).lookup key = _
          have hrempty : row.getD k0 Value.emptyV = Value.emptyV := by
            by_contra hcc
            exact hrv hcc
          rw [if_neg (not_not_intro htr),
            if_neg (by rw [hrempty]; simp [Value.emptyV, Value.isDate]),
            if_neg (not_not_intro hrempty), if_neg ?_]
          rintro ⟨j, hj, h1, h2, h3⟩
          cases j with
          | zero =>
            rw [Nat.add_zero] at h3
            exact h3 hrempty
          | succ j2 =>
            refine htail ⟨j2, by simpa using Nat.lt_of_succ_lt_succ hj, by simpa using h1,
              by simpa using h2, ?_⟩
            have hix : k0 + (j2 + 1) = k0 + 1 + j2 := by omega
            rw [← hix]
            exact h3
      · show (if ¬ hv.truthy = true then acc else
          if (row.getD k0 Value.emptyV).isDate && ud && dd.isSome then
            objSet acc hv.keyOf (Value.str (((dd.getD []).getD ri []).getD k0 ""))
          else if row.getD k0 Value.emptyV ≠ Value.emptyV then
            objSet acc hv.keyOf (row.getD k0 Value.emptyV)
          else acc).lookup key = _
        rw [if_pos htr, if_neg ?_]
        rintro ⟨j, hj, h1, h2, h3⟩
        cases j with
        | zero => exact htr (by simpa using h1)
        | succ j2 =>
          refine htail ⟨j2, by simpa using Nat.lt_of_succ_lt_succ hj, by simpa using h1,
            by simpa using h2, ?_⟩
          have hix : k0 + (j2 + 1) = k0 + 1 + j2 := by omega
          rw [← hix]
          exact h3

/-- Decoding a region that holds exactly the encoded rows of a record
list (over a header line of truthy values, on an otherwise blank
sheet) recovers each record up to JS-object extensionality. -/
theorem c1_decode_of_encoded (sheet T : Sheet) (array : List RecordObj)
    (h st : Nat) (lc : Option Nat) (mute ud : Bool)
    (hh1 : 1 ≤ h) (hhs : h < st)
    (honly : ∀ x y, x ≠ h - 1 → sheet.cell0 x y = Cell.emptyC)
    (htruthy : ∀ j, j < sheet.getLastColumn →
      ((sheet.cell0 (h - 1) j).value).truthy = true)
    (hL1 : 1 ≤ sheet.getLastColumn)
    (harr : array ≠ [])
    (hobj : ∀ obj ∈ array, obj ≠ [] ∧ ∀ kv ∈ obj, kv.2 ≠ Value.emptyV ∧
      kv.2.isDate = false ∧
      ∃ j, j < sheet.getLastColumn ∧ ((sheet.cell0 (h - 1) j).value).keyOf = kv.1)
    (hHead : ∀ y, T.cell0 (h - 1) y = sheet.cell0 (h - 1) y)
    (hTin : ∀ i j, i < array.length → j < sheet.getLastColumn →
      T.cell0 (st - 1 + i) j =
        ⟨if hasOwn (array.getD i []) ((sheet.cell0 (h - 1) j).value).keyOf then
            getOrEmpty (array.getD i []) ((sheet.cell0 (h - 1) j).value).keyOf
          else Value.emptyV, ""⟩)
    (hTfr : ∀ x y, ¬ (st - 1 ≤ x ∧ x < st - 1 + array.length) →
      T.cell0 x y = sheet.cell0 x y)
    (hTout : ∀ x y, sheet.getLastColumn ≤ y → T.cell0 x y = sheet.cell0 x y) :
    ∃ out, sheetToObjectsV2 T h st ⟨lc, mute, ud, false⟩ = DecodeResult.objects out ∧
      out.length = array.length ∧
      ∀ i, i < array.length → ∀ k : String,
        (out.getD i []).lookup k = (array.getD i []).lookup k := by
  have hn : 0 < array.length := List.length_pos.mpr harr
  have hrowv : ∀ i j, i < array.length → j < sheet.getLastColumn →
      (T.cell0 (st - 1 + i) j).value =
        (if hasOwn (array.getD i []) ((sheet.cell0 (h - 1) j).value).keyOf then
            getOrEmpty (array.getD i []) ((sheet.cell0 (h - 1) j).value).keyOf
          else Value.emptyV) := by
    intro i j hi hj
    rw [hTin i j hi hj]
  have hwit : ∀ i, i < array.length → ∃ j, j < sheet.getLastColumn ∧
      (T.cell0 (st - 1 + i) j).value ≠ Value.emptyV := by
    intro i hi
    have hmem : array.getD i [] ∈ array := by
      rw [List.getD_eq_getElem _ _ hi]
      exact List.getElem_mem hi
    obtain ⟨hone, hkv⟩ := hobj _ hmem
    obtain ⟨kv, rest, he⟩ := List.exists_cons_of_ne_nil hone
    obtain ⟨k1, v1⟩ := kv
    obtain ⟨hv1, -, j, hjL, hkey⟩ := hkv (k1, v1) (by rw [he]; exact List.mem_cons_self _ _)
    refine ⟨j, hjL, ?_⟩
    rw [hrowv i j hi hjL, hkey]
    have hlk : (array.getD i []).lookup k1 = some v1 := by
      rw [he]
      simp [List.lookup]
    rw [if_pos (show hasOwn (array.getD i []) k1 = true from by
      unfold hasOwn
      rw [hlk]
      rfl)]
    show getOrEmpty (array.getD i []) k1 ≠ _
    unfold getOrEmpty
    rw [hlk]
    exact hv1
  have hTL : T.getLastColumn = sheet.getLastColumn := by
    have hle : T.getLastColumn ≤ sheet.getLastColumn :=
      getLastColumn_le_of_empty T _ (fun x y hy =>
        (hTout x y hy).trans (cell0_empty_of_lastCol_le sheet x y hy))
    have hcellH : T.cell0 (h - 1) (sheet.getLastColumn - 1) ≠ Cell.emptyC := by
      rw [hHead]
      intro he
      exact truthy_ne_emptyV _ (htruthy (sheet.getLastColumn - 1) (by omega))
        (congrArg Cell.value he)
    have hgt := lt_lastCol_of_cell_ne_empty T _ _ hcellH
    omega
  have hTLR : T.getLastRow = st - 1 + array.length := by
    have hle : T.getLastRow ≤ st - 1 + array.length :=
      getLastRow_le_of_empty T _ (fun x y hx =>
        (hTfr x y (by omega)).trans (honly x y (by omega)))
    obtain ⟨j, hjL, hne⟩ := hwit (array.length - 1) (by omega)
    have hgt := lt_lastRow_of_cell_ne_empty T _ j (fun he => hne (by rw [he]; rfl))
    omega
  unfold sheetToObjectsV2
  rw [show (⟨lc, mute, ud, false⟩ : DecodeOptions).pivot = false from rfl]
  rw [if_pos (by simp : ¬ (false = true))]
  dsimp only
  rw [hTL, hTLR, if_neg (by omega)]
  have hnR : st - 1 + array.length - st + 1 = array.length := by omega
  rw [hnR]
  have hhl : ((T.getValues h 1 1 sheet.getLastColumn).getD 0 []).length =
      sheet.getLastColumn := getValues_row_length T h 1 1 _ 0 (by omega)
  rw [hhl]
  have hhdj : ∀ j, j < sheet.getLastColumn →
      ((T.getValues h 1 1 sheet.getLastColumn).getD 0 []).getD j Value.emptyV =
        (sheet.cell0 (h - 1) j).value := by
    intro j hj
    rw [getValues_entry T h 1 1 _ 0 j (by omega) hj]
    have h0 : h - 1 + 0 = h - 1 := by omega
    have h1 : 1 - 1 + j = j := by omega
    rw [h0, h1, hHead j]
  have hrowj : ∀ i j, i < array.length → j < sheet.getLastColumn →
      ((T.getValues st 1 array.length sheet.getLastColumn).getD i []).getD j Value.emptyV =
        (T.cell0 (st - 1 + i) j).value := by
    intro i j hi hj
    rw [getValues_entry T st 1 _ _ i j hi hj]
    have h1 : 1 - 1 + j = j := by omega
    rw [h1]
  have hdlen : (T.getValues st 1 array.length sheet.getLastColumn).length = array.length :=
    getValues_length T st 1 _ _
  have hrlen : ∀ i, i < array.length →
      ((T.getValues st 1 array.length sheet.getLastColumn).getD i []).length =
        sheet.getLastColumn := fun i hi => getValues_row_length T st 1 _ _ i hi
  have hnb : ∀ row ∈ T.getValues st 1 array.length sheet.getLastColumn,
      (row.any fun cell => cell ≠ Value.emptyV) = true := by
    intro row hrow
    rw [List.mem_iff_getElem] at hrow
    obtain ⟨i, hil0, hie⟩ := hrow
    have hil : i < array.length := by
      rw [hdlen] at hil0
      exact hil0
    have hrowe : (T.getValues st 1 array.length sheet.getLastColumn).getD i [] = row := by
      rw [List.getD_eq_getElem _ _ hil0, hie]
    obtain ⟨j, hjL, hne⟩ := hwit i hil
    rw [List.any_eq_true]
    have hjlen : j < row.length := by
      rw [← hrowe, hrlen i hil]
      exact hjL
    refine ⟨row.getD j Value.emptyV, ?_, ?_⟩
    · rw [List.getD_eq_getElem _ _ hjlen]
      exact List.getElem_mem hjlen
    · rw [← hrowe, hrowj i j hil hjL]
      simpa using hne
  have hdne : T.getValues st 1 array.length sheet.getLastColumn ≠ [] := by
    intro he
    rw [he] at hdlen
    have h0 : (0 : Nat) = array.length := by simpa using hdlen
    omega
  rw [decodeRows_objects _ _ _ _ _ hnb hdne]
  refine ⟨_, rfl, ?_, ?_⟩
  · simp [hdlen]
  · intro i hi k
    rw [getD_map_lt _ _ i [] ((0 : Nat), ([] : List Value))
      (by rw [List.enum_length, hdlen]; exact hi)]
    have henum : (T.getValues st 1 array.length sheet.getLastColumn).enum.getD i (0, []) =
        (i, (T.getValues st 1 array.length sheet.getLastColumn).getD i []) := by
      rw [List.getD_eq_getElem _ _ (by rw [List.enum_length, hdlen]; exact hi),
        List.getElem_enum, List.getD_eq_getElem _ _ (by rw [hdlen]; exact hi)]
    rw [henum]
    have hcovi : ∀ j, j < ((T.getValues h 1 1 sheet.getLastColumn).getD 0 []).length →
        (((T.getValues h 1 1 sheet.getLastColumn).getD 0 []).getD j Value.emptyV).truthy
          = true →
        ((T.getValues st 1 array.length sheet.getLastColumn).getD i []).getD (0 + j)
          Value.emptyV ≠ Value.emptyV →
        (((T.getValues st 1 array.length sheet.getLastColumn).getD i []).getD (0 + j)
          Value.emptyV).isDate = false ∧
        (array.getD i []).lookup
            (((T.getValues h 1 1 sheet.getLastColumn).getD 0 []).getD j Value.emptyV).keyOf =
          some (((T.getValues st 1 array.length sheet.getLastColumn).getD i []).getD (0 + j)
            Value.emptyV) := by
      intro j hlenj htr hnej
      rw [hhl] at hlenj
      rw [Nat.zero_add, hrowj i j hi hlenj, hrowv i j hi hlenj] at hnej ⊢
      rw [hhdj j hlenj]
      by_cases hown : hasOwn (array.getD i []) ((sheet.cell0 (h - 1) j).value).keyOf = true
      · rw [if_pos hown] at hnej ⊢
        have hsome : ((array.getD i []).lookup
            ((sheet.cell0 (h - 1) j).value).keyOf).isSome = true := hown
        obtain ⟨v0, hlk0⟩ := Option.isSome_iff_exists.mp hsome
        have hmem : array.getD i [] ∈ array := by
          rw [List.getD_eq_getElem _ _ hi]
          exact List.getElem_mem hi
        obtain ⟨-, hkv⟩ := hobj _ hmem
        obtain ⟨-, hdate0, -⟩ := hkv (_, v0) (lookup_mem _ _ _ hlk0)
        have hge : getOrEmpty (array.getD i []) ((sheet.cell0 (h - 1) j).value).keyOf = v0 := by
          unfold getOrEmpty
          rw [hlk0]
          rfl
        rw [hge]
        exact ⟨hdate0, by rw [hlk0]⟩
      · rw [if_neg hown] at hnej
        exact absurd rfl hnej
    refine (decode_fold_lookup ((T.getValues h 1 1 sheet.getLastColumn).getD 0 [])
      ((T.getValues st 1 array.length sheet.getLastColumn).getD i []) ud
      (if ud = true then
        some (T.getDisplayValues st 1 array.length sheet.getLastColumn) else none)
      i (array.getD i []) k 0 [] hcovi).trans ?_
    by_cases hcov : ∃ j, j < ((T.getValues h 1 1 sheet.getLastColumn).getD 0 []).length ∧
        (((T.getValues h 1 1 sheet.getLastColumn).getD 0 []).getD j Value.emptyV).truthy
          = true ∧
        (((T.getValues h 1 1 sheet.getLastColumn).getD 0 []).getD j Value.emptyV).keyOf = k ∧
        ((T.getValues st 1 array.length sheet.getLastColumn).getD i []).getD (0 + j)
          Value.emptyV ≠ Value.emptyV
    · rw [if_pos hcov]
    · rw [if_neg hcov]
      cases hlk : (array.getD i []).lookup k with
      | none => rfl
      | some v0 =>
        exfalso
        have hmem : array.getD i [] ∈ array := by
          rw [List.getD_eq_getElem _ _ hi]
          exact List.getElem_mem hi
        obtain ⟨-, hkv⟩ := hobj _ hmem
        obtain ⟨hv0, -, j, hjL, hkeyj⟩ := hkv (k, v0) (lookup_mem _ _ _ hlk)
        refine hcov ⟨j, ?_, ?_, ?_, ?_⟩
        · rw [hhl]
          exact hjL
        · rw [hhdj j hjL]
          exact htruthy j hjL
        · rw [hhdj j hjL]
          exact hkeyj
        · rw [Nat.zero_add, hrowj i j hi hjL, hrowv i j hi hjL, hkeyj]
          rw [if_pos (show hasOwn (array.getD i []) k = true from by
            unfold hasOwn
            rw [hlk]
            rfl)]
          show getOrEmpty (array.getD i []) k ≠ _
          unfold getOrEmpty
          rw [hlk]
          exact hv0

def c1sheetCx : Sheet := ⟨"C", [[⟨Value.str "K", ""⟩]]⟩

/-- Writing one record whose only field holds the empty string. -/
def c1afterCx : Option Sheet :=
  objectsToSheetV2 [[("K", Value.str "")]] c1sheetCx 1 2 ⟨"overwrite", false, false⟩

/-- C1 counterexample: a record with an empty-string value (a
header-subset record) encodes to a blank line, and decoding the same
region returns the `null` early-result instead of the record list, so
the round trip fails without further hypotheses on the records. -/
theorem c1_counterexample :
    c1afterCx.isSome = true ∧
    sheetToObjectsV2 (c1afterCx.getD c1sheetCx) 1 2 ⟨none, true, true, false⟩ =
      DecodeResult.nullResult ∧
    DecodeResult.nullResult ≠ DecodeResult.objects [[("K", Value.str "")]] := by
  refine ⟨?_, ?_, ?_⟩ <;> decide

/-- C1 (amended): the encode-then-decode round trip holds for a sheet
whose only populated line is its header line (all header cells truthy)
and a non-empty record list in which every record is non-empty and
every field has a non-empty, non-date value and a field name drawn
from the headers; the recovered records agree with the input
extensionally (same value under `lookup` at every key — JS object
equality; the model represents objects as association lists, whose
field order the decoder normalizes to header order). -/
theorem c1_encode_decode_roundtrip (sheet : Sheet) (array : List RecordObj)
    (h st : Nat) (lc : Option Nat) (mute ud : Bool)
    (hh1 : 1 ≤ h) (hhs : h < st)
    (honly : ∀ x y, x ≠ h - 1 → sheet.cell0 x y = Cell.emptyC)
    (htruthy : ∀ j, j < sheet.getLastColumn →
      ((sheet.cell0 (h - 1) j).value).truthy = true)
    (hL1 : 1 ≤ sheet.getLastColumn)
    (harr : array ≠ [])
    (hobj : ∀ obj ∈ array, obj ≠ [] ∧ ∀ kv ∈ obj, kv.2 ≠ Value.emptyV ∧
      kv.2.isDate = false ∧
      ∃ j, j < sheet.getLastColumn ∧ ((sheet.cell0 (h - 1) j).value).keyOf = kv.1) :
    ∃ t, objectsToSheetV2 array sheet h st ⟨"overwrite", false, false⟩ = some t ∧
      ∃ out, sheetToObjectsV2 t h st ⟨lc, mute, ud, false⟩ = DecodeResult.objects out ∧
        out.length = array.length ∧
        ∀ i, i < array.length → ∀ k : String,
          (out.getD i []).lookup k = (array.getD i []).lookup k := by
  have hn : 0 < array.length := List.length_pos.mpr harr
  have hlr : sheet.getLastRow < st :=
    lt_of_le_of_lt (getLastRow_le_of_empty sheet h (fun x y hx => honly x y (by omega))) hhs
  rw [objectsToSheetV2_norm_ow_skip array sheet h st false hlr]
  dsimp only
  rw [if_pos (show (encodeRows (headersOf sheet h) array).length > 0 from by
    rw [encodeRows_length]
    exact hn)]
  refine ⟨_, rfl, ?_⟩
  apply c1_decode_of_encoded sheet _ array h st lc mute ud hh1 hhs honly htruthy hL1 harr hobj
  · intro y
    rw [cell0_setValuesM, if_neg (by
      rintro ⟨h1, -⟩
      omega)]
  · intro i j hi hj
    rw [cell0_setValuesM, if_pos ?_]
    · have hidx : st - 1 + i - (st - 1) = i := by omega
      rw [hidx, Nat.sub_zero, encodeRows_row _ _ i hi,
        getD_map_lt _ _ j Value.emptyV Value.emptyV (by rw [headersOf_length]; exact hj),
        headersOf_getD sheet h j hj]
    · refine ⟨by omega, by rw [encodeRows_length]; omega, by omega, ?_⟩
      have hidx : st - 1 + i - (st - 1) = i := by omega
      rw [hidx, encodeRows_row_length _ _ i hi, headersOf_length]
      omega
  · intro x y hxy
    rw [cell0_setValuesM, if_neg (by
      rintro ⟨h1, h2, -, -⟩
      rw [encodeRows_length] at h2
      exact hxy ⟨h1, h2⟩)]
  · intro x y hy
    rw [cell0_setValuesM, if_neg (by
      rintro ⟨-, -, -, h4⟩
      have hrl := encodeRows_getD_length (headersOf sheet h) array (x - (st - 1))
      rw [headersOf_length] at hrl
      omega)]

def c1sheetW : Sheet := ⟨"W", [[⟨Value.str "K", ""⟩, ⟨Value.str "A", ""⟩]]⟩

theorem c1sheetW_only_header : ∀ x y, x ≠ 0 → c1sheetW.cell0 x y = Cell.emptyC := by
  intro x y hx
  show (c1sheetW.grid.getD x []).getD y Cell.emptyC = Cell.emptyC
  rw [List.getD_eq_default _ _ (show c1sheetW.grid.length ≤ x by
    cases x with
    | zero => exact absurd rfl hx
    | succ m => show 1 ≤ m + 1; omega)]
  cases y <;> rfl

theorem c1_encode_decode_roundtrip_witness :
    ((1 : Nat) ≤ 1 ∧ (1 : Nat) < 2 ∧
     (∀ x y, x ≠ 1 - 1 → c1sheetW.cell0 x y = Cell.emptyC) ∧
     (∀ j, j < c1sheetW.getLastColumn →
       ((c1sheetW.cell0 (1 - 1) j).value).truthy = true) ∧
     (1 : Nat) ≤ c1sheetW.getLastColumn ∧
     ([[("K", Value.str "x"), ("A", Value.num 5)]] : List RecordObj) ≠ [] ∧
     (∀ obj ∈ ([[("K", Value.str "x"), ("A", Value.num 5)]] : List RecordObj),
       obj ≠ [] ∧ ∀ kv ∈ obj, kv.2 ≠ Value.emptyV ∧ kv.2.isDate = false ∧
         ∃ j, j < c1sheetW.getLastColumn ∧
           ((c1sheetW.cell0 (1 - 1) j).value).keyOf = kv.1)) ∧
    (∃ t, objectsToSheetV2 [[("K", Value.str "x"), ("A", Value.num 5)]] c1sheetW 1 2
        ⟨"overwrite", false, false⟩ = some t ∧
      ∃ out, sheetToObjectsV2 t 1 2 ⟨none, true, true, false⟩ = DecodeResult.objects out ∧
        out.length = ([[("K", Value.str "x"), ("A", Value.num 5)]] : List RecordObj).length ∧
        ∀ i, i < ([[("K", Value.str "x"), ("A", Value.num 5)]] : List RecordObj).length →
          ∀ k : String, (out.getD i []).lookup k =
            (([[("K", Value.str "x"), ("A", Value.num 5)]] : List RecordObj).getD i
              []).lookup k) :=
  ⟨⟨by decide, by decide, c1sheetW_only_header, by decide, by decide, by decide, by decide⟩,
   c1_encode_decode_roundtrip c1sheetW [[("K", Value.str "x"), ("A", Value.num 5)]] 1 2
     none true true (by decide) (by decide) c1sheetW_only_header (by decide) (by decide)
     (by decide) (by decide)⟩

/-! ### Support for upsert idempotence -/

theorem scanColsDown_eq_none (q : Nat → Bool) (s0 n : Nat)
    (h : ∀ k, s0 ≤ k → k < n → q k = false) : scanColsDown q s0 n = none := by
  induction n with
  | zero => rfl
  | succ n ih =>
    unfold scanColsDown
    by_cases h1 : n < s0
    · rw [if_pos h1]
    · rw [if_neg h1, if_neg (by rw [h n (by omega) (by omega)]; simp)]
      exact ih (fun k hk1 hk2 => h k hk1 (by omega))

theorem scanColsDown_eq_some (q : Nat → Bool) (s0 n c : Nat) (h1 : s0 ≤ c) (h2 : c < n)
    (h3 : q c = true) (h4 : ∀ k, c < k → k < n → q k = false) :
    scanColsDown q s0 n = some c := by
  induction n with
  | zero => omega
  | succ n ih =>
    unfold scanColsDown
    rw [if_neg (by omega)]
    by_cases hc : c = n
    · subst hc
      rw [if_pos h3]
    · rw [if_neg (by rw [h4 n (by omega) (by omega)]; simp)]
      exact ih (by omega) (fun k hk1 hk2 => h4 k hk1 (by omega))

theorem findIdxQ_found {α : Type} (p : α → Bool) (l : List α) (d : α) :
    ∀ (s i : Nat), List.findIdx? p l s = some i →
      s ≤ i ∧ i - s < l.length ∧ p (l.getD (i - s) d) = true := by
  induction l with
  | nil => intro s i h; cases h
  | cons x t ih =>
    intro s i h
    simp only [List.findIdx?] at h
    by_cases hx : p x = true
    · rw [if_pos hx] at h
      have hs : s = i := by simpa using h
      subst hs
      refine ⟨Nat.le_refl _, by simp, ?_⟩
      rw [Nat.sub_self]
      simpa using hx
    · rw [if_neg hx] at h
      obtain ⟨h1, h2, h3⟩ := ih (s + 1) i h
      refine ⟨by omega, by simp; omega, ?_⟩
      have he : i - s = (i - (s + 1)) + 1 := by omega
      rw [he, List.getD_cons_succ]
      exact h3

theorem jsIndexOf_found {α : Type} [DecidableEq α] (l : List α) (a : α) (i : Nat) (d : α)
    (h : jsIndexOf l a = some i) : i < l.length ∧ l.getD i d = a := by
  unfold jsIndexOf at h
  obtain ⟨-, h2, h3⟩ := findIdxQ_found (fun x => x == a) l d 0 i h
  rw [Nat.sub_zero] at h2 h3
  exact ⟨h2, by simpa using h3⟩

/-- A fold each of whose steps preserves pointwise agreement with a
reference sheet preserves it overall. -/
theorem foldl_pointwise_id {β : Type} (l : List β) (f : Sheet → β → Sheet) (S : Sheet)
    (h : ∀ u b, b ∈ l → (∀ x y, u.cell0 x y = S.cell0 x y) →
      ∀ x y, (f u b).cell0 x y = S.cell0 x y) :
    ∀ u, (∀ x y, u.cell0 x y = S.cell0 x y) →
    ∀ x y, (l.foldl f u).cell0 x y = S.cell0 x y := by
  induction l with
  | nil => exact fun u hu => hu
  | cons b t ih =>
    intro u hu x y
    rw [List.foldl_cons]
    exact ih (fun u2 b2 hb2 => h u2 b2 (List.mem_cons_of_mem _ hb2)) (f u b)
      (h u b (List.mem_cons_self _ _) hu) x y

theorem newRecordsOf_map_inl (l : List RecordObj) :
    newRecordsOf (l.map Sum.inl) = l := by
  induction l with
  | nil => rfl
  | cons r t ih =>
    simp only [List.map_cons, newRecordsOf, List.filterMap_cons] at ih ⊢
    rw [ih]

theorem existingUpdatesOf_map_inl (l : List RecordObj) :
    existingUpdatesOf (l.map Sum.inl) = [] := by
  induction l with
  | nil => rfl
  | cons r t ih =>
    simp only [List.map_cons, existingUpdatesOf, List.filterMap_cons] at ih ⊢
    rw [ih]

theorem foldr_max_mem (l : List Nat) : l.foldr max 0 = 0 ∨ l.foldr max 0 ∈ l := by
  induction l with
  | nil => exact Or.inl rfl
  | cons a t ih =>
    simp only [List.foldr_cons]
    rcases Nat.le_total a (t.foldr max 0) with hle | hle
    · rw [Nat.max_eq_right hle]
      rcases ih with h0 | hm
      · rw [h0]
        rw [h0] at hle
        interval_cases a
        exact Or.inl rfl
      · exact Or.inr (List.mem_cons_of_mem _ hm)
    · rw [Nat.max_eq_left hle]
      exact Or.inr (List.mem_cons_self _ _)

/-- A sheet with content has a content cell in its last column. -/
theorem getLastColumn_achieved (s : Sheet) (h : 1 ≤ s.getLastColumn) :
    ∃ x, s.cell0 x (s.getLastColumn - 1) ≠ Cell.emptyC := by
  rcases foldr_max_mem (s.grid.map (lastPos Cell.hasContent)) with h0 | hm
  · exact absurd (show s.getLastColumn = 0 from h0) (by omega)
  · have hm2 : s.getLastColumn ∈ s.grid.map (lastPos Cell.hasContent) := hm
    rw [List.mem_map] at hm2
    obtain ⟨row, hrmem, hre⟩ := hm2
    rw [List.mem_iff_getElem] at hrmem
    obtain ⟨x, hx, hxe⟩ := hrmem
    refine ⟨x, ?_⟩
    have hlast := getD_lastPos Cell.hasContent row Cell.emptyC (by omega)
    rw [hre] at hlast
    have hcell : s.cell0 x (s.getLastColumn - 1) =
        row.getD (s.getLastColumn - 1) Cell.emptyC := by
      unfold Sheet.cell0
      rw [List.getD_eq_getElem s.grid [] hx, hxe]
    rw [hcell]
    intro he
    rw [he] at hlast
    exact absurd hlast (by decide)

theorem dataRangeValues_entry (s : Sheet) (i j : Nat) (hi : i < max s.getLastRow 1)
    (hj : j < max s.getLastColumn 1) :
    (s.dataRangeValues.getD i []).getD j Value.emptyV = (s.cell0 i j).value := by
  rw [dataRangeValues_row s i hi, getD_map_range, if_pos hj]

theorem dataRangeValues_row0_length (s : Sheet) :
    (s.dataRangeValues.getD 0 []).length = max s.getLastColumn 1 := by
  unfold Sheet.dataRangeValues
  exact getValues_row_length s 1 1 _ _ 0 (by omega)

/-- A second upsert of the same records over a sheet that already holds
them (as the rows the first call appended) rewrites every cell with its
current content: the call succeeds and changes nothing. -/
theorem c4_second_call_noop (sheet T : Sheet) (data : List RecordObj)
    (columnToMatch : String) (ci : Nat)
    (hc : columnToMatch ≠ "")
    (hji : jsIndexOf (sheet.dataRangeValues.getD 0 []) (Value.str columnToMatch) = some ci)
    (hdata : data ≠ [])
    (hrec : ∀ r ∈ data, ((r.lookup columnToMatch).getD Value.emptyV).truthy = true ∧
      ∀ kv ∈ r, r.lookup kv.1 = some kv.2)
    (hbelow : ∀ x y, sheet.getLastNonEmptyRowS ≤ x → sheet.cell0 x y = Cell.emptyC)
    (hdist : ∀ j, j < data.length → ∀ i, i < j →
      (data.getD i []).lookup columnToMatch ≠ (data.getD j []).lookup columnToMatch)
    (hTin : ∀ i j, i < data.length → j < (sheet.dataRangeValues.getD 0 []).length →
      T.cell0 (sheet.getLastNonEmptyRowS + i) j =
        ⟨if hasOwn (data.getD i [])
              (((sheet.dataRangeValues.getD 0 []).getD j Value.emptyV).keyOf) then
            getOrEmpty (data.getD i [])
              (((sheet.dataRangeValues.getD 0 []).getD j Value.emptyV).keyOf)
          else Value.emptyV, ""⟩)
    (hTfr : ∀ x y, ¬ (sheet.getLastNonEmptyRowS ≤ x ∧
        x < sheet.getLastNonEmptyRowS + data.length) → T.cell0 x y = sheet.cell0 x y)
    (hToutcol : ∀ x y, (sheet.dataRangeValues.getD 0 []).length ≤ y →
      T.cell0 x y = sheet.cell0 x y) :
    ∃ t2, upsertRows T data columnToMatch = some t2 ∧ t2.EquivCells T := by
  have hn : 0 < data.length := List.length_pos.mpr hdata
  have hR1 : 1 ≤ sheet.getLastNonEmptyRowS := getLastNonEmptyRowS_pos sheet
  have hWlen := dataRangeValues_row0_length sheet
  have hfound := jsIndexOf_found _ (Value.str columnToMatch) ci Value.emptyV hji
  have hciW : ci < max sheet.getLastColumn 1 := by
    have := hfound.1
    rw [hWlen] at this
    exact this
  have hcell0ci : (sheet.cell0 0 ci).value = Value.str columnToMatch := by
    rw [← dataRangeValues_entry sheet 0 ci (by omega) hciW]
    exact hfound.2
  have hciL : ci < sheet.getLastColumn := by
    have hcc : sheet.cell0 0 ci ≠ Cell.emptyC := by
      intro he
      have hcv := congrArg Cell.value he
      rw [hcell0ci] at hcv
      have h2 : Value.str columnToMatch = Value.str "" := hcv
      exact hc (Value.str.inj h2)
    exact lt_lastCol_of_cell_ne_empty sheet 0 ci hcc
  have hLpos : 1 ≤ sheet.getLastColumn := by omega
  have hWL : max sheet.getLastColumn 1 = sheet.getLastColumn := by omega
  have hrecv : ∀ r ∈ data, ∃ v, r.lookup columnToMatch = some v ∧ v.truthy = true := by
    intro r hr
    obtain ⟨h1, -⟩ := hrec r hr
    cases hlk : r.lookup columnToMatch with
    | none =>
      rw [hlk] at h1
      exact absurd h1 (by decide)
    | some v =>
      rw [hlk] at h1
      exact ⟨v, rfl, h1⟩
  have hLRle : sheet.getLastRow ≤ sheet.getLastNonEmptyRowS :=
    getLastRow_le_of_empty sheet _ hbelow
  -- the match-column value of each written row
  have hTmatch : ∀ i, i < data.length → ∀ v,
      (data.getD i []).lookup columnToMatch = some v →
      (T.cell0 (sheet.getLastNonEmptyRowS + i) ci).value = v := by
    intro i hi v hv
    rw [hTin i ci hi hfound.1]
    show (if hasOwn (data.getD i [])
        (((sheet.dataRangeValues.getD 0 []).getD ci Value.emptyV).keyOf) then
      getOrEmpty (data.getD i [])
        (((sheet.dataRangeValues.getD 0 []).getD ci Value.emptyV).keyOf)
      else Value.emptyV) = v
    rw [hfound.2]
    show (if hasOwn (data.getD i []) columnToMatch then
      getOrEmpty (data.getD i []) columnToMatch else Value.emptyV) = v
    rw [if_pos (show hasOwn (data.getD i []) columnToMatch = true from by
      unfold hasOwn
      rw [hv]
      rfl)]
    unfold getOrEmpty
    rw [hv]
    rfl
  -- geometry of T
  have hLR1 : T.getLastRow = sheet.getLastNonEmptyRowS + data.length := by
    have hle : T.getLastRow ≤ sheet.getLastNonEmptyRowS + data.length :=
      getLastRow_le_of_empty T _ (fun x y hx =>
        (hTfr x y (by omega)).trans (hbelow x y (by omega)))
    have hmem : data.getD (data.length - 1) [] ∈ data := by
      rw [List.getD_eq_getElem _ _ (by omega)]
      exact List.getElem_mem (by omega)
    obtain ⟨v, hv, htr⟩ := hrecv _ hmem
    have hne : (T.cell0 (sheet.getLastNonEmptyRowS + (data.length - 1)) ci).value ≠
        Value.emptyV := by
      rw [hTmatch (data.length - 1) (by omega) v hv]
      exact truthy_ne_emptyV v htr
    have hgt := lt_lastRow_of_cell_ne_empty T _ ci (fun he => hne (by rw [he]; rfl))
    omega
  have hLC1 : T.getLastColumn = sheet.getLastColumn := by
    have hle : T.getLastColumn ≤ sheet.getLastColumn :=
      getLastColumn_le_of_empty T _ (fun x y hy =>
        (hToutcol x y (by rw [hWlen]; omega)).trans
          (cell0_empty_of_lastCol_le sheet x y hy))
    obtain ⟨x0, hx0⟩ := getLastColumn_achieved sheet hLpos
    have hx0R : x0 < sheet.getLastNonEmptyRowS := by
      have := lt_lastRow_of_cell_ne_empty sheet x0 _ hx0
      omega
    have hT0 : T.cell0 x0 (sheet.getLastColumn - 1) ≠ Cell.emptyC := by
      rw [hTfr x0 _ (by omega)]
      exact hx0
    have hgt := lt_lastCol_of_cell_ne_empty T _ _ hT0
    omega
  have hTdlen : T.dataRangeValues.length = sheet.getLastNonEmptyRowS + data.length := by
    rw [dataRangeValues_length, hLR1]
    omega
  have hhd2 : T.dataRangeValues.getD 0 [] = sheet.dataRangeValues.getD 0 [] := by
    rw [dataRangeValues_row T 0 (by omega), dataRangeValues_row sheet 0 (by omega), hLC1]
    apply List.map_congr_left
    intro j hj
    rw [hTfr 0 j (by omega)]
  -- the second call's row map finds each record at its appended row
  have hmap2 : ∀ i, i < data.length → ∀ v,
      (data.getD i []).lookup columnToMatch = some v → v.truthy = true →
      (buildExistingRowsMap T.dataRangeValues ci).lookup v =
        some (sheet.getLastNonEmptyRowS + i) := by
    intro i hi v hv htr
    rw [buildExistingRowsMap_lookup _ _ v (truthy_ne_emptyV v htr), hTdlen]
    apply scanColsDown_eq_some _ _ _ _ (by omega) (by omega)
    · rw [beq_iff_eq,
        dataRangeValues_entry T _ ci (by rw [hLR1]; omega) (by rw [hLC1]; exact hciW)]
      exact hTmatch i hi v hv
    · intro k hk1 hk2
      rw [beq_eq_false_iff_ne,
        dataRangeValues_entry T k ci (by rw [hLR1]; omega) (by rw [hLC1]; exact hciW)]
      have hkmem : data.getD (k - sheet.getLastNonEmptyRowS) [] ∈ data := by
        rw [List.getD_eq_getElem _ _ (by omega)]
        exact List.getElem_mem (by omega)
      obtain ⟨w, hw, htw⟩ := hrecv _ hkmem
      have hcellk : (T.cell0 k ci).value = w := by
        have hke : k = sheet.getLastNonEmptyRowS + (k - sheet.getLastNonEmptyRowS) := by
          omega
        rw [hke]
        exact hTmatch (k - sheet.getLastNonEmptyRowS) (by omega) w hw
      rw [hcellk]
      intro hwv
      have := hdist (k - sheet.getLastNonEmptyRowS) (by omega) i (by omega)
      rw [hv, hw, hwv] at this
      exact this rfl
  have hlen0 : ¬ data.length = 0 := by omega
  have hnew2 : newRecordsOf (upsertClassify
      (buildExistingRowsMap T.dataRangeValues ci) columnToMatch data) = [] := by
    unfold newRecordsOf
    rw [List.filterMap_eq_nil_iff]
    intro x hx
    unfold upsertClassify at hx
    rw [List.mem_map] at hx
    obtain ⟨r, hr, hrx⟩ := hx
    subst hrx
    obtain ⟨v, hv, htr⟩ := hrecv r hr
    obtain ⟨i, hi, hie⟩ := List.mem_iff_getElem.mp hr
    have hgd : data.getD i [] = r := by
      rw [List.getD_eq_getElem _ _ hi, hie]
    have hv2 : (data.getD i []).lookup columnToMatch = some v := by
      rw [hgd]
      exact hv
    rw [hv]
    dsimp only
    rw [if_neg (not_not_intro htr), hmap2 i hi v hv2 htr]
  unfold upsertRows
  rw [if_neg hlen0]
  dsimp only
  rw [hhd2, hji]
  dsimp only
  rw [hnew2, if_neg (by simp)]
  refine ⟨_, rfl, ?_⟩
  intro x y
  refine foldl_pointwise_id _ _ _ ?_ _ (fun _ _ => rfl) x y
  intro u p hp hu
  unfold upsertUpdateStep
  refine foldl_pointwise_id _ _ _ ?_ u hu
  intro u2 kv hkv hu2 x3 y3
  cases hji2 : jsIndexOf (sheet.dataRangeValues.getD 0 []) (Value.str kv.1) with
  | none => exact hu2 x3 y3
  | some ck =>
    rw [cell0_setValue1]
    by_cases hxy : x3 = p.1 + 1 - 1 ∧ y3 = ck + 1 - 1
    · rw [if_pos hxy]
      obtain ⟨hx3, hy3⟩ := hxy
      rw [hx3, hy3]
      obtain ⟨v, htrv, hml, hpmem, hplook⟩ := existingUpdates_mem _ _ _ p hp
      obtain ⟨i, hi, hie⟩ := List.mem_iff_getElem.mp hpmem
      have hgd : data.getD i [] = p.2 := by
        rw [List.getD_eq_getElem _ _ hi, hie]
      have hl2 : (data.getD i []).lookup columnToMatch = some v := by
        rw [hgd]
        exact hplook
      have hp1 : p.1 = sheet.getLastNonEmptyRowS + i :=
        Option.some.inj (hml.symm.trans (hmap2 i hi v hl2 htrv))
      obtain ⟨hcik, hhk⟩ := jsIndexOf_found _ _ ck Value.emptyV hji2
      have harith1 : p.1 + 1 - 1 = sheet.getLastNonEmptyRowS + i := by omega
      have harith2 : ck + 1 - 1 = ck := by omega
      rw [harith1, harith2, hTin i ck hi hcik]
      have hcoh : (p.2).lookup kv.1 = some kv.2 := (hrec p.2 hpmem).2 kv hkv
      have hl3 : (data.getD i []).lookup kv.1 = some kv.2 := by
        rw [hgd]
        exact hcoh
      rw [hhk]
      show (⟨kv.2, ""⟩ : Cell) =
        ⟨if hasOwn (data.getD i []) kv.1 then getOrEmpty (data.getD i []) kv.1
          else Value.emptyV, ""⟩
      rw [if_pos (show hasOwn (data.getD i []) kv.1 = true from by
        unfold hasOwn
        rw [hl3]
        rfl)]
      show (⟨kv.2, ""⟩ : Cell) = ⟨((data.getD i []).lookup kv.1).getD Value.emptyV, ""⟩
      rw [hl3]
      rfl
    · rw [if_neg hxy]
      exact hu2 x3 y3

def c4sheetCx : Sheet := ⟨"C", [[⟨Value.str "K", ""⟩]]⟩

/-- One upsert of a record whose match value is the falsy `0`. -/
def c4after1 : Option Sheet := upsertRows c4sheetCx [[("K", Value.num 0)]] "K"

/-- The same upsert applied a second time. -/
def c4after2 : Option Sheet :=
  upsertRows (c4after1.getD c4sheetCx) [[("K", Value.num 0)]] "K"

/-- C4 counterexample: a record with the falsy match value `0` is
classified as new on *every* call (`!matchValue` short-circuits before
the map lookup), so the second identical call appends the row again and
the sheet grows. -/
theorem c4_counterexample :
    c4after1.isSome = true ∧ c4after2.isSome = true ∧
    (c4after2.getD c4sheetCx).getLastRow ≠ (c4after1.getD c4sheetCx).getLastRow := by
  refine ⟨?_, ?_, ?_⟩ <;> decide

/-- C4 (amended): upsert is idempotent for records with truthy
*non-date* match values that are pairwise distinct and absent from the
source table (self-coherent records, no stray content below the
table): the first call appends all records, the second call classifies
every record as an update of its appended row and rewrites each cell
with its current content, so the sheet after the second call agrees
with the first call's result on every cell. Date match values are
excluded because a JS Map compares Date keys by reference and
getValues returns fresh Date objects, so a date-matched record is
re-appended on every call, like a falsy one; the model's structural
Value equality would not see this, hence the explicit hypothesis. -/
theorem c4_upsert_idempotent (sheet : Sheet) (data : List RecordObj)
    (columnToMatch : String) (ci : Nat)
    (hc : columnToMatch ≠ "")
    (hji : jsIndexOf (sheet.dataRangeValues.getD 0 []) (Value.str columnToMatch) = some ci)
    (hdata : data ≠ [])
    (hrec : ∀ r ∈ data, ((r.lookup columnToMatch).getD Value.emptyV).truthy = true ∧
      ∀ kv ∈ r, r.lookup kv.1 = some kv.2)
    (_hnodate : ∀ r ∈ data,
      ((r.lookup columnToMatch).getD Value.emptyV).isDate = false)
    (hbelow : ∀ x y, sheet.getLastNonEmptyRowS ≤ x → sheet.cell0 x y = Cell.emptyC)
    (hnew : ∀ r ∈ data, ∀ i, 1 ≤ i → i < sheet.dataRangeValues.length →
      some ((sheet.dataRangeValues.getD i []).getD ci Value.emptyV) ≠
        r.lookup columnToMatch)
    (hdist : ∀ j, j < data.length → ∀ i, i < j →
      (data.getD i []).lookup columnToMatch ≠ (data.getD j []).lookup columnToMatch) :
    ∃ t1, upsertRows sheet data columnToMatch = some t1 ∧
      ∃ t2, upsertRows t1 data columnToMatch = some t2 ∧ t2.EquivCells t1 := by
  have hn : 0 < data.length := List.length_pos.mpr hdata
  have hlen0 : ¬ data.length = 0 := by omega
  have hrecv : ∀ r ∈ data, ∃ v, r.lookup columnToMatch = some v ∧ v.truthy = true := by
    intro r hr
    obtain ⟨h1, -⟩ := hrec r hr
    cases hlk : r.lookup columnToMatch with
    | none =>
      rw [hlk] at h1
      exact absurd h1 (by decide)
    | some v =>
      rw [hlk] at h1
      exact ⟨v, rfl, h1⟩
  have hmap1 : ∀ r ∈ data, ∀ v, r.lookup columnToMatch = some v → v.truthy = true →
      (buildExistingRowsMap sheet.dataRangeValues ci).lookup v = none := by
    intro r hr v hv htr
    rw [buildExistingRowsMap_lookup _ _ v (truthy_ne_emptyV v htr)]
    apply scanColsDown_eq_none
    intro k hk1 hk2
    rw [beq_eq_false_iff_ne]
    intro hcv
    exact (hnew r hr k hk1 hk2) (by rw [hcv, hv])
  have hclass1 : upsertClassify (buildExistingRowsMap sheet.dataRangeValues ci)
      columnToMatch data = data.map Sum.inl := by
    unfold upsertClassify
    apply List.map_congr_left
    intro r hr
    obtain ⟨v, hv, htr⟩ := hrecv r hr
    rw [hv]
    dsimp only
    rw [if_neg (not_not_intro htr), hmap1 r hr v hv htr]
  have hcall1 : upsertRows sheet data columnToMatch =
      some (sheet.setValuesM (sheet.getLastNonEmptyRowS + 1) 1
        (upsertRowsToAppend (sheet.dataRangeValues.getD 0 []) data)) := by
    unfold upsertRows
    rw [if_neg hlen0]
    dsimp only
    rw [hji]
    dsimp only
    rw [hclass1, newRecordsOf_map_inl, existingUpdatesOf_map_inl, List.foldl_nil,
      if_pos (show data.length > 0 from hn)]
  have hAlen : (upsertRowsToAppend (sheet.dataRangeValues.getD 0 []) data).length =
      data.length := by
    unfold upsertRowsToAppend
    simp
  have hArow : ∀ i, i < data.length →
      (upsertRowsToAppend (sheet.dataRangeValues.getD 0 []) data).getD i [] =
        (sheet.dataRangeValues.getD 0 []).map (fun hd =>
          if hasOwn (data.getD i []) hd.keyOf then getOrEmpty (data.getD i []) hd.keyOf
          else Value.emptyV) := by
    intro i hi
    unfold upsertRowsToAppend
    rw [getD_map_lt _ _ i [] [] hi]
  have hArowlen : ∀ i, i < data.length →
      ((upsertRowsToAppend (sheet.dataRangeValues.getD 0 []) data).getD i []).length =
        (sheet.dataRangeValues.getD 0 []).length := by
    intro i hi
    rw [hArow i hi]
    simp
  refine ⟨_, hcall1, ?_⟩
  apply c4_second_call_noop sheet _ data columnToMatch ci hc hji hdata hrec hbelow hdist
  · intro i j hi hj
    rw [cell0_setValuesM, if_pos ?_]
    · have hidx : sheet.getLastNonEmptyRowS + i - (sheet.getLastNonEmptyRowS + 1 - 1) = i := by
        omega
      rw [hidx, Nat.sub_zero, hArow i hi, getD_map_lt _ _ j Value.emptyV Value.emptyV hj]
    · refine ⟨by omega, ?_, by omega, ?_⟩
      · rw [hAlen]
        omega
      · have hidx : sheet.getLastNonEmptyRowS + i - (sheet.getLastNonEmptyRowS + 1 - 1) = i := by
          omega
        rw [hidx, hArowlen i hi]
        omega
  · intro x y hxy
    rw [cell0_setValuesM, if_neg ?_]
    rintro ⟨p1, p2, -, -⟩
    rw [hAlen] at p2
    exact hxy ⟨by omega, by omega⟩
  · intro x y hy
    rw [cell0_setValuesM, if_neg ?_]
    rintro ⟨-, -, -, p4⟩
    have hb : ((upsertRowsToAppend (sheet.dataRangeValues.getD 0 []) data).getD
        (x - (sheet.getLastNonEmptyRowS + 1 - 1)) []).length ≤
        (sheet.dataRangeValues.getD 0 []).length := by
      by_cases hx2 : x - (sheet.getLastNonEmptyRowS + 1 - 1) < data.length
      · rw [hArowlen _ hx2]
      · rw [List.getD_eq_default _ _ (by rw [hAlen]; omega)]
        simp
    omega

def c4sheetW : Sheet := ⟨"W", [[⟨Value.str "K", ""⟩, ⟨Value.str "A", ""⟩]]⟩

theorem c4sheetW_below :
    ∀ x y, c4sheetW.getLastNonEmptyRowS ≤ x → c4sheetW.cell0 x y = Cell.emptyC := by
  intro x y hx
  have h1 : c4sheetW.getLastNonEmptyRowS = 1 := by decide
  rw [h1] at hx
  show (c4sheetW.grid.getD x []).getD y Cell.emptyC = Cell.emptyC
  rw [List.getD_eq_default _ _ (show c4sheetW.grid.length ≤ x from hx)]
  cases y <;> rfl

theorem c4_upsert_idempotent_witness :
    (("K" : String) ≠ "" ∧
     jsIndexOf (c4sheetW.dataRangeValues.getD 0 []) (Value.str "K") = some 0 ∧
     ([[("K", Value.str "x"), ("A", Value.num 5)]] : List RecordObj) ≠ [] ∧
     (∀ r ∈ ([[("K", Value.str "x"), ("A", Value.num 5)]] : List RecordObj),
       ((r.lookup "K").getD Value.emptyV).truthy = true ∧
       ∀ kv ∈ r, r.lookup kv.1 = some kv.2) ∧
     (∀ r ∈ ([[("K", Value.str "x"), ("A", Value.num 5)]] : List RecordObj),
       ((r.lookup "K").getD Value.emptyV).isDate = false) ∧
     (∀ x y, c4sheetW.getLastNonEmptyRowS ≤ x → c4sheetW.cell0 x y = Cell.emptyC) ∧
     (∀ r ∈ ([[("K", Value.str "x"), ("A", Value.num 5)]] : List RecordObj),
       ∀ i, 1 ≤ i → i < c4sheetW.dataRangeValues.length →
         some ((c4sheetW.dataRangeValues.getD i []).getD 0 Value.emptyV) ≠
           r.lookup "K") ∧
     (∀ j, j < ([[("K", Value.str "x"), ("A", Value.num 5)]] : List RecordObj).length →
       ∀ i, i < j →
         (([[("K", Value.str "x"), ("A", Value.num 5)]] : List RecordObj).getD i
           []).lookup "K" ≠
         (([[("K", Value.str "x"), ("A", Value.num 5)]] : List RecordObj).getD j
           []).lookup "K")) ∧
    (∃ t1, upsertRows c4sheetW [[("K", Value.str "x"), ("A", Value.num 5)]] "K" = some t1 ∧
      ∃ t2, upsertRows t1 [[("K", Value.str "x"), ("A", Value.num 5)]] "K" = some t2 ∧
        t2.EquivCells t1) :=
  ⟨⟨by decide, by decide, by decide, by decide, by decide, c4sheetW_below, by decide,
    by decide⟩,
   c4_upsert_idempotent c4sheetW [[("K", Value.str "x"), ("A", Value.num 5)]] "K" 0
     (by decide) (by decide) (by decide) (by decide) (by decide) c4sheetW_below (by decide)
     (by decide)⟩

/-! ### Support for comparing findAndUpdateRows with the upsert update path -/

/-- spec-modelled: `upsertRows`' update path restricted to named fields,
as the spec describes `findAndUpdateRows`: build the row map, classify
the records, and apply step 4's per-field single-cell writes with each
record filtered to the `columnsToAdd` names; no append step. -/
def upsertUpdateRestricted (sheet : Sheet) (data : List RecordObj)
    (columnToMatch : String) (columnsToAdd : List String) : Option Sheet :=
  if data.length = 0 then some sheet
  else
    let sheetData := sheet.dataRangeValues
    let headers := sheetData.getD 0 []
    match jsIndexOf headers (Value.str columnToMatch) with
    | none => none
    | some columnIndexToMatch =>
      let existingRowsMap := buildExistingRowsMap sheetData columnIndexToMatch
      let classify := upsertClassify existingRowsMap columnToMatch data
      let existingUpdates := existingUpdatesOf classify
      some (existingUpdates.foldl (fun s2 p =>
        upsertUpdateStep headers s2 (p.1, p.2.filter fun kv => columnsToAdd.contains kv.1))
        sheet)

theorem setAt_length_of_lt {α : Type} (l : List α) (i : Nat) (d a : α) (h : i < l.length) :
    (setAt l i d a).length = l.length := by
  induction i generalizing l with
  | zero =>
    cases l with
    | nil => simp at h
    | cons x t => rfl
  | succ n ih =>
    cases l with
    | nil => simp at h
    | cons x t =>
      show (setAt t n d a).length + 1 = t.length + 1
      rw [ih t (by simpa using h)]

theorem mem_range_drop1 (n x : Nat) : x ∈ (List.range n).drop 1 ↔ 1 ≤ x ∧ x < n := by
  cases n with
  | zero => simp
  | succ m =>
    rw [List.range_succ_eq_map]
    show x ∈ ((List.range m).map (· + 1)).drop 0 ↔ _
    rw [List.drop_zero, List.mem_map]
    constructor
    · rintro ⟨a, ha, rfl⟩
      rw [List.mem_range] at ha
      omega
    · rintro ⟨h1, h2⟩
      exact ⟨x - 1, by rw [List.mem_range]; omega, by omega⟩

theorem dataLookupGet_some (data : List RecordObj) (c : String) (v : Value)
    (r : RecordObj) (h : dataLookupGet data c v = some r) :
    r ∈ data ∧ r.lookup c = some v := by
  unfold dataLookupGet at h
  have hm := List.mem_of_mem_getLast? h
  rw [List.mem_filter] at hm
  exact ⟨hm.1, by simpa using hm.2⟩

theorem dataLookupGet_none (data : List RecordObj) (c : String) (v : Value)
    (h : dataLookupGet data c v = none) : ∀ r ∈ data, r.lookup c ≠ some v := by
  unfold dataLookupGet at h
  rw [List.getLast?_eq_none_iff] at h
  intro r hr hlk
  have : r ∈ data.filter fun r2 => r2.lookup c == some v := by
    rw [List.mem_filter]
    exact ⟨hr, by simpa using hlk⟩
  rw [h] at this
  cases this

theorem dataLookupGet_isSome (data : List RecordObj) (c : String) (v : Value)
    (r : RecordObj) (hr : r ∈ data) (hlk : r.lookup c = some v) :
    (dataLookupGet data c v).isSome = true := by
  cases hdl : dataLookupGet data c v with
  | none => exact absurd hlk (dataLookupGet_none data c v hdl r hr)
  | some r2 => rfl

/-- A fold whose steps each either keep a cell or set it to a fixed
content: once set (or if some step always sets it), the cell ends at
that content. -/
theorem foldl_cell_const {β : Type} (l : List β) (f : Sheet → β → Sheet) (x y : Nat)
    (cl : Cell)
    (hkeep : ∀ u b, b ∈ l → (f u b).cell0 x y = u.cell0 x y ∨ (f u b).cell0 x y = cl) :
    (∀ s, s.cell0 x y = cl → (l.foldl f s).cell0 x y = cl) ∧
    ((∃ b ∈ l, ∀ u, (f u b).cell0 x y = cl) → ∀ s, (l.foldl f s).cell0 x y = cl) := by
  induction l with
  | nil =>
    refine ⟨fun s hs => hs, ?_⟩
    rintro ⟨b, hb, -⟩ s
    cases hb
  | cons b t ih =>
    have iht := ih (fun u b2 hb2 => hkeep u b2 (List.mem_cons_of_mem _ hb2))
    constructor
    · intro s hs
      rw [List.foldl_cons]
      rcases hkeep s b (List.mem_cons_self _ _) with hk | hk
      · exact iht.1 _ (hk.trans hs)
      · exact iht.1 _ hk
    · rintro ⟨b2, hb2, hw⟩ s
      rw [List.foldl_cons]
      rcases List.mem_cons.mp hb2 with he | hm
      · subst he
        exact iht.1 _ (hw s)
      · exact iht.2 ⟨b2, hm, hw⟩ _

/-- The read-modify loop over `rowsToUpdate` applied to a column of
single-cell rows: each listed row's cell is replaced by `f row`, other
rows are kept; all rows stay single cells. -/
theorem foldl_colupdate (rows : List Nat) (f : Nat → Value) :
    ∀ (cv : List (List Value)), (∀ j, j < cv.length → (cv.getD j []).length = 1) →
    (∀ ri ∈ rows, 1 ≤ ri ∧ ri - 1 < cv.length) →
    (rows.foldl (fun cv2 ri =>
        setAt cv2 (ri - 1) [] (setAt (cv2.getD (ri - 1) []) 0 Value.emptyV (f ri))) cv).length
        = cv.length ∧
    (∀ j, j < cv.length →
      ((rows.foldl (fun cv2 ri =>
        setAt cv2 (ri - 1) [] (setAt (cv2.getD (ri - 1) []) 0 Value.emptyV (f ri)))
          cv).getD j []).length = 1) ∧
    (∀ j, j < cv.length →
      (rows.foldl (fun cv2 ri =>
        setAt cv2 (ri - 1) [] (setAt (cv2.getD (ri - 1) []) 0 Value.emptyV (f ri)))
          cv).getD j [] = (if j + 1 ∈ rows then [f (j + 1)] else cv.getD j [])) := by
  induction rows with
  | nil =>
    intro cv hcv1 hb
    refine ⟨rfl, hcv1, ?_⟩
    intro j hj
    rw [if_neg (by simp)]
    rfl
  | cons ri t ih =>
    intro cv hcv1 hb
    have hri := hb ri (List.mem_cons_self _ _)
    have hrow : cv.getD (ri - 1) [] ≠ [] := by
      intro he
      have := hcv1 (ri - 1) hri.2
      rw [he] at this
      cases this
    have hrowset : setAt (cv.getD (ri - 1) []) 0 Value.emptyV (f ri) = [f ri] := by
      cases hc : cv.getD (ri - 1) [] with
      | nil => exact absurd hc hrow
      | cons a t2 =>
        have := hcv1 (ri - 1) hri.2
        rw [hc] at this
        have ht2 : t2 = [] := by
          cases t2 with
          | nil => rfl
          | cons b t3 => simp at this
        rw [ht2]
        rfl
    rw [List.foldl_cons, hrowset]
    have hlen2 : (setAt cv (ri - 1) [] [f ri]).length = cv.length :=
      setAt_length_of_lt cv (ri - 1) [] [f ri] hri.2
    have hcv2 : ∀ j, j < (setAt cv (ri - 1) [] [f ri]).length →
        ((setAt cv (ri - 1) [] [f ri]).getD j []).length = 1 := by
      intro j hj
      rw [getD_setAt]
      by_cases hje : j = ri - 1
      · rw [if_pos hje]
        rfl
      · rw [if_neg hje]
        exact hcv1 j (by omega)
    have hb2 : ∀ ri2 ∈ t, 1 ≤ ri2 ∧ ri2 - 1 < (setAt cv (ri - 1) [] [f ri]).length := by
      intro ri2 hri2
      rw [hlen2]
      exact hb ri2 (List.mem_cons_of_mem _ hri2)
    obtain ⟨ihl, ihr1, ihr⟩ := ih (setAt cv (ri - 1) [] [f ri]) hcv2 hb2
    rw [hlen2] at ihl ihr1 ihr
    refine ⟨ihl, ihr1, ?_⟩
    intro j hj
    rw [ihr j hj, getD_setAt]
    by_cases hjt : j + 1 ∈ t
    · rw [if_pos hjt, if_pos (List.mem_cons_of_mem _ hjt)]
    · rw [if_neg hjt]
      by_cases hje : j = ri - 1
      · rw [if_pos hje, if_pos (by rw [List.mem_cons]; left; omega)]
        have hrieq : ri = j + 1 := by omega
        rw [hrieq]
      · rw [if_neg hje, if_neg (by
          rw [List.mem_cons]
          rintro (he | hm)
          · exact hje (by omega)
          · exact hjt hm)]

/-- Cell-level effect of one `findAndUpdateRows` column pass: inside
the written block (rows 2..n of the target column) a listed row gets
the matching record's value for this column (`|| ""`-coerced) and any
other row gets its current value copied back, both with the formula
cleared; every other cell is untouched. -/
theorem findUpdateColumnStep_cell (data : List RecordObj) (c : String)
    (sd : List (List Value)) (cim : Nat) (rows : List Nat) (s : Sheet) (p : Nat × String)
    (x y : Nat) (hn2 : 2 ≤ sd.length)
    (hrows : ∀ ri ∈ rows, 1 ≤ ri ∧ ri < sd.length) :
    (findUpdateColumnStep data c sd cim rows s p).cell0 x y =
      if y = p.1 ∧ 1 ≤ x ∧ x < sd.length then
        (if x ∈ rows then
          ⟨jsOrEmpty (((dataLookupGet data c ((sd.getD x []).getD cim Value.emptyV)).getD
            []).lookup p.2), ""⟩
        else ⟨(s.cell0 x y).value, ""⟩)
      else s.cell0 x y := by
  unfold findUpdateColumnStep
  dsimp only
  have hcvlen : (s.getValues 2 (p.1 + 1) (sd.length - 1) 1).length = sd.length - 1 :=
    getValues_length s 2 (p.1 + 1) _ _
  have hcv1 : ∀ j, j < (s.getValues 2 (p.1 + 1) (sd.length - 1) 1).length →
      ((s.getValues 2 (p.1 + 1) (sd.length - 1) 1).getD j []).length = 1 := by
    intro j hj
    rw [hcvlen] at hj
    exact getValues_row_length s 2 (p.1 + 1) _ 1 j hj
  have hb : ∀ ri ∈ rows, 1 ≤ ri ∧ ri - 1 <
      (s.getValues 2 (p.1 + 1) (sd.length - 1) 1).length := by
    intro ri hri
    rw [hcvlen]
    have := hrows ri hri
    omega
  obtain ⟨hul, hu1, hug⟩ := foldl_colupdate rows
    (fun ri => jsOrEmpty (((dataLookupGet data c
      ((sd.getD ri []).getD cim Value.emptyV)).getD []).lookup p.2))
    (s.getValues 2 (p.1 + 1) (sd.length - 1) 1) hcv1 hb
  rw [cell0_setValuesM]
  by_cases hreg : y = p.1 ∧ 1 ≤ x ∧ x < sd.length
  · obtain ⟨hy, hx1, hx2⟩ := hreg
    have hxlen : x - (2 - 1) < (s.getValues 2 (p.1 + 1) (sd.length - 1) 1).length := by
      rw [hcvlen]
      omega
    rw [if_pos ?_]
    · rw [hug (x - (2 - 1)) hxlen]
      have hxx : x - (2 - 1) + 1 = x := by omega
      rw [hxx]
      rw [if_pos (show y = p.1 ∧ 1 ≤ x ∧ x < sd.length from ⟨hy, hx1, hx2⟩)]
      by_cases hxr : x ∈ rows
      · rw [if_pos hxr, if_pos hxr]
        have hy0 : y - (p.1 + 1 - 1) = 0 := by omega
        rw [hy0]
        rfl
      · rw [if_neg hxr, if_neg hxr]
        rw [getValues_row s 2 (p.1 + 1) _ 1 (x - (2 - 1)) (by rw [← hcvlen]; exact hxlen)]
        rw [getD_map_range, if_pos (by omega : y - (p.1 + 1 - 1) < 1)]
        have he1 : 2 - 1 + (x - (2 - 1)) = x := by omega
        have he2 : p.1 + 1 - 1 + (y - (p.1 + 1 - 1)) = y := by omega
        rw [he1, he2]
    · refine ⟨by omega, ?_, by omega, ?_⟩
      · rw [hul, hcvlen]
        omega
      · rw [hu1 (x - (2 - 1)) hxlen]
        omega
  · rw [if_neg ?_, if_neg hreg]
    rintro ⟨q1, q2, q3, q4⟩
    have hrl : ((rows.foldl (fun cv2 ri =>
        setAt cv2 (ri - 1) [] (setAt (cv2.getD (ri - 1) []) 0 Value.emptyV
          (jsOrEmpty (((dataLookupGet data c
            ((sd.getD ri []).getD cim Value.emptyV)).getD []).lookup p.2))))
        (s.getValues 2 (p.1 + 1) (sd.length - 1) 1)).getD (x - (2 - 1)) []).length ≤ 1 := by
      by_cases hin : x - (2 - 1) < (s.getValues 2 (p.1 + 1) (sd.length - 1) 1).length
      · rw [hu1 (x - (2 - 1)) hin]
      · rw [List.getD_eq_default _ _ (by rw [hul]; omega)]
        simp
    rw [hul, hcvlen] at q2
    exact hreg ⟨by omega, by omega, by omega⟩

/-- Pointwise description of the whole `findAndUpdateRows` column loop
relative to the starting sheet, for a column list in which a column
index determines its name. -/
theorem find_fold_char (data : List RecordObj) (c : String) (sd : List (List Value))
    (cim : Nat) (rows : List Nat) (hn2 : 2 ≤ sd.length)
    (hrows : ∀ ri ∈ rows, 1 ≤ ri ∧ ri < sd.length) :
    ∀ (cinfo : List (Nat × String)) (s : Sheet),
    (∀ q ∈ cinfo, ∀ q2 ∈ cinfo, q.1 = q2.1 → q.2 = q2.2) →
    (∀ x y, (¬ ∃ nm, (y, nm) ∈ cinfo) →
      (cinfo.foldl (findUpdateColumnStep data c sd cim rows) s).cell0 x y = s.cell0 x y) ∧
    (∀ x y nm, (y, nm) ∈ cinfo →
      (cinfo.foldl (findUpdateColumnStep data c sd cim rows) s).cell0 x y =
        if 1 ≤ x ∧ x < sd.length then
          (if x ∈ rows then
            ⟨jsOrEmpty (((dataLookupGet data c ((sd.getD x []).getD cim
              Value.emptyV)).getD []).lookup nm), ""⟩
          else ⟨(s.cell0 x y).value, ""⟩)
        else s.cell0 x y) := by
  intro cinfo
  induction cinfo with
  | nil =>
    intro s hcd
    refine ⟨fun x y h => rfl, ?_⟩
    intro x y nm hnm
    cases hnm
  | cons q t ih =>
    intro s hcd
    have hcdt : ∀ q1 ∈ t, ∀ q2 ∈ t, q1.1 = q2.1 → q1.2 = q2.2 :=
      fun q1 h1 q2 h2 => hcd q1 (List.mem_cons_of_mem _ h1) q2 (List.mem_cons_of_mem _ h2)
    obtain ⟨ih1, ih2⟩ := ih (findUpdateColumnStep data c sd cim rows s q) hcdt
    constructor
    · intro x y hno
      rw [List.foldl_cons, ih1 x y (fun hex => hno ⟨hex.choose, List.mem_cons_of_mem _ hex.choose_spec⟩)]
      rw [findUpdateColumnStep_cell data c sd cim rows s q x y hn2 hrows,
        if_neg (fun hcon => hno ⟨q.2, by
          rw [hcon.1, Prod.mk.eta]
          exact List.mem_cons_self _ _⟩)]
    · intro x y nm hnm
      rw [List.foldl_cons]
      rcases List.mem_cons.mp hnm with he | hmt
      · by_cases hyt : ∃ nm2, (y, nm2) ∈ t
        · obtain ⟨nm2, hnm2⟩ := hyt
          have hnm2e : nm2 = nm :=
            hcd (y, nm2) (List.mem_cons_of_mem _ hnm2) (y, nm) hnm rfl
          subst hnm2e
          rw [ih2 x y nm2 hnm2]
          by_cases hx : 1 ≤ x ∧ x < sd.length
          · rw [if_pos hx, if_pos hx]
            by_cases hxr : x ∈ rows
            · rw [if_pos hxr, if_pos hxr]
            · rw [if_neg hxr, if_neg hxr]
              rw [findUpdateColumnStep_cell data c sd cim rows s q x y hn2 hrows]
              have hq1 : q.1 = y := by rw [← he]
              rw [if_pos ⟨hq1.symm, hx.1, hx.2⟩, if_neg hxr]
          · rw [if_neg hx, if_neg hx]
            rw [findUpdateColumnStep_cell data c sd cim rows s q x y hn2 hrows,
              if_neg (fun hcon => hx ⟨hcon.2.1, hcon.2.2⟩)]
        · rw [ih1 x y hyt]
          rw [findUpdateColumnStep_cell data c sd cim rows s q x y hn2 hrows]
          have hq1 : q.1 = y := by rw [← he]
          have hq2 : q.2 = nm := by rw [← he]
          by_cases hx : 1 ≤ x ∧ x < sd.length
          · rw [if_pos ⟨hq1.symm, hx.1, hx.2⟩, if_pos hx, hq2]
          · rw [if_neg (fun hcon => hx ⟨hcon.2.1, hcon.2.2⟩), if_neg hx]
      · rw [ih2 x y nm hmt]
        by_cases hx : 1 ≤ x ∧ x < sd.length
        · rw [if_pos hx, if_pos hx]
          by_cases hxr : x ∈ rows
          · rw [if_pos hxr, if_pos hxr]
          · rw [if_neg hxr, if_neg hxr]
            rw [findUpdateColumnStep_cell data c sd cim rows s q x y hn2 hrows]
            by_cases hyq : y = q.1
            · rw [if_pos ⟨hyq, hx.1, hx.2⟩, if_neg hxr]
            · rw [if_neg (fun hcon => hyq hcon.1)]
        · rw [if_neg hx, if_neg hx]
          rw [findUpdateColumnStep_cell data c sd cim rows s q x y hn2 hrows,
            if_neg (fun hcon => hx ⟨hcon.2.1, hcon.2.2⟩)]

/-- A fold whose steps each keep a cell or set it to a fixed content
ends with the cell either untouched or at that content. -/
theorem foldl_cell_keep {β : Type} (l : List β) (f : Sheet → β → Sheet) (x y : Nat)
    (cl : Cell)
    (hkeep : ∀ u b, b ∈ l → (f u b).cell0 x y = u.cell0 x y ∨ (f u b).cell0 x y = cl) :
    ∀ s, (l.foldl f s).cell0 x y = s.cell0 x y ∨ (l.foldl f s).cell0 x y = cl := by
  induction l with
  | nil => exact fun s => Or.inl rfl
  | cons b t ih =>
    intro s
    rw [List.foldl_cons]
    have iht := ih (fun u b2 hb2 => hkeep u b2 (List.mem_cons_of_mem _ hb2))
    rcases hkeep s b (List.mem_cons_self _ _) with hk | hk
    · rcases iht (f s b) with h2 | h2
      · exact Or.inl (h2.trans hk)
      · exact Or.inr h2
    · exact Or.inr ((foldl_cell_const t f x y cl
        (fun u b2 hb2 => hkeep u b2 (List.mem_cons_of_mem _ hb2))).1 _ hk)

/-- Building a member of the `existingUpdates` list from a record whose
truthy match value the row map resolves. -/
theorem existingUpdates_mem_intro (m : List (Value × Nat)) (c : String)
    (data : List RecordObj) (r : RecordObj) (hr : r ∈ data) (v : Value)
    (hv : r.lookup c = some v) (htr : v.truthy = true) (rowIdx : Nat)
    (hm : m.lookup v = some rowIdx) :
    (rowIdx, r) ∈ existingUpdatesOf (upsertClassify m c data) := by
  unfold existingUpdatesOf upsertClassify
  rw [List.mem_filterMap]
  refine ⟨Sum.inr (rowIdx, r), ?_, rfl⟩
  rw [List.mem_map]
  refine ⟨r, hr, ?_⟩
  rw [hv]
  dsimp only
  rw [if_neg (not_not_intro htr), hm]

def c8sheetCx : Sheet :=
  ⟨"C", [[⟨Value.str "K", ""⟩, ⟨Value.str "A", ""⟩],
         [⟨Value.str "x", ""⟩, ⟨Value.num 1, ""⟩],
         [⟨Value.str "x", ""⟩, ⟨Value.num 2, ""⟩]]⟩

/-- `findAndUpdateRows` over a duplicated match value. -/
def c8findCx : Option Sheet :=
  findAndUpdateRows c8sheetCx [[("K", Value.str "x"), ("A", Value.num 9)]] "K" ["A"]

/-- The restricted upsert update path over the same input. -/
def c8upsCx : Option Sheet :=
  upsertUpdateRestricted c8sheetCx [[("K", Value.str "x"), ("A", Value.num 9)]] "K" ["A"]

/-- C8 counterexample: when the match value `x` occupies two table
rows, `findAndUpdateRows` rewrites the named column of *both* matching
rows, while the upsert update path touches only the last one (the row
map keeps a single row per value), so the two operations produce
different sheets and the claimed equivalence fails unconditionally. -/
theorem c8_counterexample :
    c8findCx.isSome = true ∧ c8upsCx.isSome = true ∧
    ((c8findCx.getD c8sheetCx).getCell 2 2).value = Value.num 9 ∧
    ((c8upsCx.getD c8sheetCx).getCell 2 2).value = Value.num 1 ∧
    Value.num 9 ≠ Value.num 1 := by
  refine ⟨?_, ?_, ?_, ?_, ?_⟩ <;> decide

/-- C8 (amended): `findAndUpdateRows` computes the same final cells as
`upsertRows`' update path restricted to the named fields, provided the
divergences of the source are ruled out: truthy pairwise-distinct
record match values, match-column values unique among data rows (blanks
aside), every record carrying every named field with a truthy value
(truthiness, not mere non-emptiness: find-and-update coerces a falsy
field value such as 0 or false to the empty string via the or-empty
fallback, while the upsert path writes the raw value), every named
field present in the headers, and no formulas in the named columns'
data rows (the column rewrite clears them). -/
theorem c8_find_equals_restricted_upsert (sheet : Sheet) (data : List RecordObj)
    (columnToMatch : String) (columnsToAdd : List String) (ci : Nat)
    (hn2 : 2 ≤ sheet.dataRangeValues.length)
    (hji : jsIndexOf (sheet.dataRangeValues.getD 0 []) (Value.str columnToMatch) = some ci)
    (hdata : data ≠ [])
    (hcols : columnsToAdd ≠ [])
    (hnames : ∀ name ∈ columnsToAdd,
      (jsIndexOf (sheet.dataRangeValues.getD 0 []) (Value.str name)).isSome = true)
    (hrec : ∀ r ∈ data, ((r.lookup columnToMatch).getD Value.emptyV).truthy = true ∧
      ∀ kv ∈ r, r.lookup kv.1 = some kv.2)
    (hfull : ∀ r ∈ data, ∀ name ∈ columnsToAdd,
      ((r.lookup name).getD Value.emptyV).truthy = true)
    (hddist : ∀ j, j < data.length → ∀ i, i < j →
      (data.getD i []).lookup columnToMatch ≠ (data.getD j []).lookup columnToMatch)
    (hsdist : ∀ i2, i2 < sheet.dataRangeValues.length → ∀ i, 1 ≤ i → i < i2 →
      (sheet.dataRangeValues.getD i []).getD ci Value.emptyV =
        (sheet.dataRangeValues.getD i2 []).getD ci Value.emptyV →
      (sheet.dataRangeValues.getD i2 []).getD ci Value.emptyV = Value.emptyV)
    (hnof : ∀ name ∈ columnsToAdd, ∀ k,
      jsIndexOf (sheet.dataRangeValues.getD 0 []) (Value.str name) = some k →
      ∀ i, 1 ≤ i → i < sheet.dataRangeValues.length → (sheet.cell0 i k).formula = "") :
    ∃ t1, findAndUpdateRows sheet data columnToMatch columnsToAdd = some t1 ∧
      ∃ t2, upsertUpdateRestricted sheet data columnToMatch columnsToAdd = some t2 ∧
        t1.EquivCells t2 := by
  have hn : 0 < data.length := List.length_pos.mpr hdata
  have hlen0 : ¬ data.length = 0 := by omega
  have hrecv : ∀ r ∈ data, ∃ v, r.lookup columnToMatch = some v ∧ v.truthy = true := by
    intro r hr
    obtain ⟨h1, -⟩ := hrec r hr
    cases hlk : r.lookup columnToMatch with
    | none =>
      rw [hlk] at h1
      exact absurd h1 (by decide)
    | some v =>
      rw [hlk] at h1
      exact ⟨v, rfl, h1⟩
  have hfullv : ∀ r ∈ data, ∀ name ∈ columnsToAdd, ∃ v2,
      r.lookup name = some v2 ∧ v2.truthy = true := by
    intro r hr name hname
    have h1 := hfull r hr name hname
    cases hlk : r.lookup name with
    | none =>
      rw [hlk] at h1
      exact absurd h1 (by decide)
    | some v2 =>
      rw [hlk] at h1
      exact ⟨v2, rfl, h1⟩
  have hrecuniq : ∀ r1 ∈ data, ∀ r2 ∈ data, ∀ v, r1.lookup columnToMatch = some v →
      r2.lookup columnToMatch = some v → r1 = r2 := by
    intro r1 h1 r2 h2 v hv1 hv2
    obtain ⟨i1, hi1, he1⟩ := List.mem_iff_getElem.mp h1
    obtain ⟨i2, hi2, he2⟩ := List.mem_iff_getElem.mp h2
    have hg1 : data.getD i1 [] = r1 := by rw [List.getD_eq_getElem _ _ hi1, he1]
    have hg2 : data.getD i2 [] = r2 := by rw [List.getD_eq_getElem _ _ hi2, he2]
    by_cases hii : i1 = i2
    · rw [← hg1, ← hg2, hii]
    · rcases Nat.lt_or_ge i1 i2 with hlt | hge
      · exact absurd (by rw [hg1, hg2, hv1, hv2]) (hddist i2 hi2 i1 hlt)
      · exact absurd (by rw [hg1, hg2, hv1, hv2]) (hddist i1 hi1 i2 (by omega)).symm
  have hmapsome : ∀ x : Nat, 1 ≤ x → x < sheet.dataRangeValues.length →
      ((sheet.dataRangeValues.getD x []).getD ci Value.emptyV).truthy = true →
      (buildExistingRowsMap sheet.dataRangeValues ci).lookup
        ((sheet.dataRangeValues.getD x []).getD ci Value.emptyV) = some x := by
    intro x hx1 hx2 htw
    rw [buildExistingRowsMap_lookup _ _ _ (truthy_ne_emptyV _ htw)]
    apply scanColsDown_eq_some _ _ _ _ hx1 hx2
    · rw [beq_iff_eq]
    · intro k hk1 hk2
      rw [beq_eq_false_iff_ne]
      intro hkeq
      have hemp := hsdist k hk2 x hx1 hk1 hkeq.symm
      rw [hemp] at hkeq
      exact truthy_ne_emptyV _ htw hkeq.symm
  have hupd : ∀ p ∈ existingUpdatesOf (upsertClassify
      (buildExistingRowsMap sheet.dataRangeValues ci) columnToMatch data),
      1 ≤ p.1 ∧ p.1 < sheet.dataRangeValues.length ∧ p.2 ∈ data ∧
      p.2.lookup columnToMatch =
        some ((sheet.dataRangeValues.getD p.1 []).getD ci Value.emptyV) := by
    intro p hp
    obtain ⟨v, htrv, hml, hpmem, hplook⟩ := existingUpdates_mem _ _ _ p hp
    have hb := buildExistingRowsMap_lookup_bounds sheet.dataRangeValues ci v
      (truthy_ne_emptyV v htrv) p.1 hml
    refine ⟨hb.1, hb.2.1, hpmem, ?_⟩
    rw [hb.2.2.1]
    exact hplook
  have hcinfo_mem : ∀ q ∈ (columnsToAdd.filterMap fun column =>
      (jsIndexOf (sheet.dataRangeValues.getD 0 [])
        (Value.str column)).map fun index => (index, column)),
      q.2 ∈ columnsToAdd ∧
      jsIndexOf (sheet.dataRangeValues.getD 0 []) (Value.str q.2) = some q.1 := by
    intro q hq
    rw [List.mem_filterMap] at hq
    obtain ⟨name, hname, hqe⟩ := hq
    cases hjn : jsIndexOf (sheet.dataRangeValues.getD 0 []) (Value.str name) with
    | none =>
      rw [hjn] at hqe
      cases hqe
    | some k =>
      rw [hjn] at hqe
      have hqq : (k, name) = q := by simpa using hqe
      rw [← hqq]
      exact ⟨hname, hjn⟩
  have hcdist : ∀ q ∈ (columnsToAdd.filterMap fun column =>
      (jsIndexOf (sheet.dataRangeValues.getD 0 [])
        (Value.str column)).map fun index => (index, column)),
      ∀ q2 ∈ (columnsToAdd.filterMap fun column =>
      (jsIndexOf (sheet.dataRangeValues.getD 0 [])
        (Value.str column)).map fun index => (index, column)),
      q.1 = q2.1 → q.2 = q2.2 := by
    intro q hq q2 hq2 h12
    obtain ⟨-, hjq⟩ := hcinfo_mem q hq
    obtain ⟨-, hjq2⟩ := hcinfo_mem q2 hq2
    have h1 := (jsIndexOf_found _ _ _ Value.emptyV hjq).2
    have h2 := (jsIndexOf_found _ _ _ Value.emptyV hjq2).2
    rw [h12] at h1
    rw [h1] at h2
    exact Value.str.inj h2
  have hclen : ¬ (columnsToAdd.filterMap fun column =>
      (jsIndexOf (sheet.dataRangeValues.getD 0 [])
        (Value.str column)).map fun index => (index, column)).length = 0 := by
    obtain ⟨nm0, t0, hc0⟩ := List.exists_cons_of_ne_nil hcols
    have hnm0 : nm0 ∈ columnsToAdd := by
      rw [hc0]
      exact List.mem_cons_self _ _
    obtain ⟨k0, hk0⟩ := Option.isSome_iff_exists.mp (hnames nm0 hnm0)
    have hmem : (k0, nm0) ∈ (columnsToAdd.filterMap fun column =>
        (jsIndexOf (sheet.dataRangeValues.getD 0 [])
          (Value.str column)).map fun index => (index, column)) := by
      rw [List.mem_filterMap]
      exact ⟨nm0, hnm0, by rw [hk0]; rfl⟩
    intro h0
    rw [List.length_eq_zero] at h0
    rw [h0] at hmem
    cases hmem
  have hrowsB : ∀ ri ∈ ((List.range sheet.dataRangeValues.length).drop 1).filter
      (fun i => (dataLookupGet data columnToMatch
        ((sheet.dataRangeValues.getD i []).getD ci Value.emptyV)).isSome),
      1 ≤ ri ∧ ri < sheet.dataRangeValues.length := by
    intro ri hri
    rw [List.mem_filter] at hri
    exact (mem_range_drop1 _ _).mp hri.1
  have hupseq : upsertUpdateRestricted sheet data columnToMatch columnsToAdd =
      some ((existingUpdatesOf (upsertClassify
        (buildExistingRowsMap sheet.dataRangeValues ci) columnToMatch data)).foldl
        (fun s2 p => upsertUpdateStep (sheet.dataRangeValues.getD 0 []) s2
          (p.1, p.2.filter fun kv => columnsToAdd.contains kv.1)) sheet) := by
    unfold upsertUpdateRestricted
    rw [if_neg hlen0]
    dsimp only
    rw [hji]
  unfold findAndUpdateRows
  rw [if_neg (by omega : ¬ sheet.dataRangeValues.length < 2)]
  dsimp only
  rw [hji]
  dsimp only
  rw [if_neg hclen]
  by_cases hrz : (((List.range sheet.dataRangeValues.length).drop 1).filter
      (fun i => (dataLookupGet data columnToMatch
        ((sheet.dataRangeValues.getD i []).getD ci Value.emptyV)).isSome)).length = 0
  · rw [if_pos hrz]
    have hupdnil : existingUpdatesOf (upsertClassify
        (buildExistingRowsMap sheet.dataRangeValues ci) columnToMatch data) = [] := by
      unfold existingUpdatesOf
      rw [List.filterMap_eq_nil_iff]
      intro x hx
      unfold upsertClassify at hx
      rw [List.mem_map] at hx
      obtain ⟨r, hr, hrx⟩ := hx
      subst hrx
      obtain ⟨v, hv, htr⟩ := hrecv r hr
      rw [hv]
      dsimp only
      rw [if_neg (not_not_intro htr)]
      cases hml : (buildExistingRowsMap sheet.dataRangeValues ci).lookup v with
      | none => rfl
      | some rowIdx =>
        exfalso
        have hb := buildExistingRowsMap_lookup_bounds sheet.dataRangeValues ci v
          (truthy_ne_emptyV v htr) rowIdx hml
        have hds : (dataLookupGet data columnToMatch
            ((sheet.dataRangeValues.getD rowIdx []).getD ci Value.emptyV)).isSome = true := by
          rw [hb.2.2.1]
          exact dataLookupGet_isSome data columnToMatch v r hr hv
        have hmem : rowIdx ∈ ((List.range sheet.dataRangeValues.length).drop 1).filter
            (fun i => (dataLookupGet data columnToMatch
              ((sheet.dataRangeValues.getD i []).getD ci Value.emptyV)).isSome) := by
          rw [List.mem_filter]
          exact ⟨(mem_range_drop1 _ _).mpr ⟨hb.1, hb.2.1⟩, hds⟩
        rw [List.length_eq_zero] at hrz
        rw [hrz] at hmem
        cases hmem
    refine ⟨_, rfl, ?_⟩
    rw [hupseq]
    refine ⟨_, rfl, ?_⟩
    intro x y
    rw [hupdnil, List.foldl_nil]
  · rw [if_neg hrz]
    refine ⟨_, rfl, ?_⟩
    rw [hupseq]
    refine ⟨_, rfl, ?_⟩
    intro x y
    obtain ⟨hfc1, hfc2⟩ := find_fold_char data columnToMatch sheet.dataRangeValues ci
      (((List.range sheet.dataRangeValues.length).drop 1).filter
        (fun i => (dataLookupGet data columnToMatch
          ((sheet.dataRangeValues.getD i []).getD ci Value.emptyV)).isSome))
      hn2 hrowsB
      (columnsToAdd.filterMap fun column =>
        (jsIndexOf (sheet.dataRangeValues.getD 0 [])
          (Value.str column)).map fun index => (index, column))
      sheet hcdist
    by_cases hycol : ∃ nm, (y, nm) ∈ (columnsToAdd.filterMap fun column =>
        (jsIndexOf (sheet.dataRangeValues.getD 0 [])
          (Value.str column)).map fun index => (index, column))
    · obtain ⟨nm, hnm⟩ := hycol
      obtain ⟨hnmcols, hjnm⟩ := hcinfo_mem (y, nm) hnm
      rw [hfc2 x y nm hnm]
      by_cases hx : 1 ≤ x ∧ x < sheet.dataRangeValues.length
      · cases hdl : dataLookupGet data columnToMatch
            ((sheet.dataRangeValues.getD x []).getD ci Value.emptyV) with
        | none =>
          have hxr : x ∉ ((List.range sheet.dataRangeValues.length).drop 1).filter
              (fun i => (dataLookupGet data columnToMatch
                ((sheet.dataRangeValues.getD i []).getD ci Value.emptyV)).isSome) := by
            intro hmem
            rw [List.mem_filter] at hmem
            have h2 := hmem.2
            rw [hdl] at h2
            cases h2
          rw [if_pos hx, if_neg hxr]
          have hups : ((existingUpdatesOf (upsertClassify
              (buildExistingRowsMap sheet.dataRangeValues ci) columnToMatch data)).foldl
              (fun s2 p => upsertUpdateStep (sheet.dataRangeValues.getD 0 []) s2
                (p.1, p.2.filter fun kv => columnsToAdd.contains kv.1)) sheet).cell0 x y =
              sheet.cell0 x y := by
            refine cell0_foldl _ _ _ x y ?_
            intro u p hp
            by_cases hpx : p.1 = x
            · exfalso
              obtain ⟨hp1, hp2, hpmem, hplook⟩ := hupd p hp
              rw [hpx] at hplook
              have := dataLookupGet_isSome data columnToMatch _ p.2 hpmem hplook
              rw [hdl] at this
              cases this
            · unfold upsertUpdateStep
              refine cell0_foldl _ _ _ x y ?_
              intro u2 kv hkv
              cases hjk : jsIndexOf (sheet.dataRangeValues.getD 0 [])
                  (Value.str kv.1) with
              | none => rfl
              | some k =>
                rw [cell0_setValue1, if_neg ?_]
                rintro ⟨h1, -⟩
                exact hpx (by omega)
          rw [hups]
          have hnf : (sheet.cell0 x y).formula = "" := hnof nm hnmcols y hjnm x hx.1 hx.2
          rw [← hnf]
        | some r =>
          obtain ⟨hrmem, hrlook⟩ := dataLookupGet_some _ _ _ r hdl
          have hxr : x ∈ ((List.range sheet.dataRangeValues.length).drop 1).filter
              (fun i => (dataLookupGet data columnToMatch
                ((sheet.dataRangeValues.getD i []).getD ci Value.emptyV)).isSome) := by
            rw [List.mem_filter]
            refine ⟨(mem_range_drop1 _ _).mpr ⟨hx.1, hx.2⟩, ?_⟩
            rw [hdl]
            rfl
          rw [if_pos hx, if_pos hxr]
          obtain ⟨v2, hlknm, htv2⟩ := hfullv r hrmem nm hnmcols
          have hjse : jsOrEmpty (((some r).getD
              ([] : RecordObj)).lookup nm) = v2 := by
            show jsOrEmpty (r.lookup nm) = v2
            rw [hlknm]
            show (if v2.truthy then v2 else Value.emptyV) = v2
            rw [if_pos htv2]
          rw [hjse]
          have htw : ((sheet.dataRangeValues.getD x []).getD ci Value.emptyV).truthy
              = true := by
            obtain ⟨vv, hvv, htvv⟩ := hrecv r hrmem
            rw [hvv] at hrlook
            rw [← Option.some.inj hrlook]
            exact htvv
          have hmapw := hmapsome x hx.1 hx.2 htw
          have hp0 : (x, r) ∈ existingUpdatesOf (upsertClassify
              (buildExistingRowsMap sheet.dataRangeValues ci) columnToMatch data) :=
            existingUpdates_mem_intro _ _ _ r hrmem _ hrlook htw x hmapw
          symm
          refine (foldl_cell_const _ _ x y ⟨v2, ""⟩ ?_).2 ⟨(x, r), hp0, ?_⟩ sheet
          · intro u p hp
            by_cases hpx : p.1 = x
            · obtain ⟨hp1, hp2, hpmem, hplook⟩ := hupd p hp
              rw [hpx] at hplook
              have hp2r : p.2 = r := hrecuniq p.2 hpmem r hrmem _ hplook hrlook
              unfold upsertUpdateStep
              refine foldl_cell_keep _ _ x y ⟨v2, ""⟩ ?_ u
              intro u2 kv hkv
              cases hjk : jsIndexOf (sheet.dataRangeValues.getD 0 [])
                  (Value.str kv.1) with
              | none => exact Or.inl rfl
              | some k =>
                rw [cell0_setValue1]
                by_cases hcon : x = p.1 + 1 - 1 ∧ y = k + 1 - 1
                · right
                  rw [if_pos hcon]
                  have hky : k = y := by
                    have := hcon.2
                    omega
                  have hh1 := (jsIndexOf_found _ _ k Value.emptyV hjk).2
                  have hh2 := (jsIndexOf_found _ _ y Value.emptyV hjnm).2
                  rw [hky] at hh1
                  rw [hh1] at hh2
                  have hkvnm : kv.1 = nm := Value.str.inj hh2
                  have hkvmem2 : kv ∈ p.2 := (List.mem_filter.mp hkv).1
                  have hcoh := (hrec p.2 hpmem).2 kv hkvmem2
                  rw [hp2r, hkvnm, hlknm] at hcoh
                  rw [Option.some.inj hcoh]
                · left
                  rw [if_neg hcon]
            · left
              unfold upsertUpdateStep
              refine cell0_foldl _ _ _ x y ?_
              intro u2 kv hkv
              cases hjk : jsIndexOf (sheet.dataRangeValues.getD 0 [])
                  (Value.str kv.1) with
              | none => rfl
              | some k =>
                rw [cell0_setValue1, if_neg ?_]
                rintro ⟨h1, -⟩
                exact hpx (by omega)
          · intro u
            unfold upsertUpdateStep
            dsimp only
            refine (foldl_cell_const _ _ x y ⟨v2, ""⟩ ?_).2 ⟨(nm, v2), ?_, ?_⟩ u
            · intro u2 kv hkv
              cases hjk : jsIndexOf (sheet.dataRangeValues.getD 0 [])
                  (Value.str kv.1) with
              | none => exact Or.inl rfl
              | some k =>
                rw [cell0_setValue1]
                by_cases hcon : x = x + 1 - 1 ∧ y = k + 1 - 1
                · right
                  rw [if_pos hcon]
                  have hky : k = y := by
                    have := hcon.2
                    omega
                  have hh1 := (jsIndexOf_found _ _ k Value.emptyV hjk).2
                  have hh2 := (jsIndexOf_found _ _ y Value.emptyV hjnm).2
                  rw [hky] at hh1
                  rw [hh1] at hh2
                  have hkvnm : kv.1 = nm := Value.str.inj hh2
                  have hkvmem2 : kv ∈ r := (List.mem_filter.mp hkv).1
                  have hcoh := (hrec r hrmem).2 kv hkvmem2
                  rw [hkvnm, hlknm] at hcoh
                  rw [Option.some.inj hcoh]
                · left
                  rw [if_neg hcon]
            · rw [List.mem_filter]
              exact ⟨lookup_mem r nm v2 hlknm, List.elem_eq_true_of_mem hnmcols⟩
            · intro u2
              dsimp only
              rw [hjnm]
              rw [cell0_setValue1, if_pos ⟨by omega, by omega⟩]
      · rw [if_neg hx]
        symm
        refine cell0_foldl _ _ _ x y ?_
        intro u p hp
        obtain ⟨hp1, hp2, -, -⟩ := hupd p hp
        unfold upsertUpdateStep
        refine cell0_foldl _ _ _ x y ?_
        intro u2 kv hkv
        cases hjk : jsIndexOf (sheet.dataRangeValues.getD 0 []) (Value.str kv.1) with
        | none => rfl
        | some k =>
          rw [cell0_setValue1, if_neg ?_]
          rintro ⟨h1, -⟩
          exact hx ⟨by omega, by omega⟩
    · rw [hfc1 x y hycol]
      symm
      refine cell0_foldl _ _ _ x y ?_
      intro u p hp
      unfold upsertUpdateStep
      refine cell0_foldl _ _ _ x y ?_
      intro u2 kv hkv
      cases hjk : jsIndexOf (sheet.dataRangeValues.getD 0 []) (Value.str kv.1) with
      | none => rfl
      | some k =>
        rw [cell0_setValue1, if_neg ?_]
        rintro ⟨-, hyk⟩
        have hkvmem : kv.1 ∈ columnsToAdd := by
          have hmf := List.mem_filter.mp hkv
          exact List.mem_of_elem_eq_true hmf.2
        refine hycol ⟨kv.1, ?_⟩
        rw [List.mem_filterMap]
        refine ⟨kv.1, hkvmem, ?_⟩
        rw [hjk]
        show some (k, kv.1) = some (y, kv.1)
        rw [show y = k from by omega]

def c8sheetW : Sheet :=
  ⟨"W", [[⟨Value.str "K", ""⟩, ⟨Value.str "A", ""⟩],
         [⟨Value.str "x", ""⟩, ⟨Value.num 1, ""⟩]]⟩

theorem c8sheetW_nof : ∀ name ∈ (["A"] : List String), ∀ k,
    jsIndexOf (c8sheetW.dataRangeValues.getD 0 []) (Value.str name) = some k →
    ∀ i, 1 ≤ i → i < c8sheetW.dataRangeValues.length →
    (c8sheetW.cell0 i k).formula = "" := by
  intro name hname k hk i hi1 hi2
  have hname2 : name = "A" := by
    rcases List.mem_cons.mp hname with h | h
    · exact h
    · cases h
  subst hname2
  have he : jsIndexOf (c8sheetW.dataRangeValues.getD 0 []) (Value.str "A") =
      some 1 := by decide
  have hk1 : k = 1 := Option.some.inj (hk.symm.trans he)
  subst hk1
  have hlen : c8sheetW.dataRangeValues.length = 2 := by decide
  have hi : i = 1 := by omega
  subst hi
  decide

theorem c8_find_equals_restricted_upsert_witness :
    ((2 : Nat) ≤ c8sheetW.dataRangeValues.length ∧
     jsIndexOf (c8sheetW.dataRangeValues.getD 0 []) (Value.str "K") = some 0 ∧
     ([[("K", Value.str "x"), ("A", Value.num 9)]] : List RecordObj) ≠ [] ∧
     (["A"] : List String) ≠ [] ∧
     (∀ name ∈ (["A"] : List String),
       (jsIndexOf (c8sheetW.dataRangeValues.getD 0 []) (Value.str name)).isSome = true) ∧
     (∀ r ∈ ([[("K", Value.str "x"), ("A", Value.num 9)]] : List RecordObj),
       ((r.lookup "K").getD Value.emptyV).truthy = true ∧
       ∀ kv ∈ r, r.lookup kv.1 = some kv.2) ∧
     (∀ r ∈ ([[("K", Value.str "x"), ("A", Value.num 9)]] : List RecordObj),
       ∀ name ∈ (["A"] : List String),
       ((r.lookup name).getD Value.emptyV).truthy = true) ∧
     (∀ j, j < ([[("K", Value.str "x"), ("A", Value.num 9)]] : List RecordObj).length →
       ∀ i, i < j →
       (([[("K", Value.str "x"), ("A", Value.num 9)]] : List RecordObj).getD i
         []).lookup "K" ≠
       (([[("K", Value.str "x"), ("A", Value.num 9)]] : List RecordObj).getD j
         []).lookup "K") ∧
     (∀ i2, i2 < c8sheetW.dataRangeValues.length → ∀ i, 1 ≤ i → i < i2 →
       (c8sheetW.dataRangeValues.getD i []).getD 0 Value.emptyV =
         (c8sheetW.dataRangeValues.getD i2 []).getD 0 Value.emptyV →
       (c8sheetW.dataRangeValues.getD i2 []).getD 0 Value.emptyV = Value.emptyV) ∧
     (∀ name ∈ (["A"] : List String), ∀ k,
       jsIndexOf (c8sheetW.dataRangeValues.getD 0 []) (Value.str name) = some k →
       ∀ i, 1 ≤ i → i < c8sheetW.dataRangeValues.length →
       (c8sheetW.cell0 i k).formula = "")) ∧
    (∃ t1, findAndUpdateRows c8sheetW [[("K", Value.str "x"), ("A", Value.num 9)]]
        "K" ["A"] = some t1 ∧
      ∃ t2, upsertUpdateRestricted c8sheetW [[("K", Value.str "x"), ("A", Value.num 9)]]
        "K" ["A"] = some t2 ∧ t1.EquivCells t2) :=
  ⟨⟨by decide, by decide, by decide, by decide, by decide, by decide, by decide, by decide,
    by decide, c8sheetW_nof⟩,
   c8_find_equals_restricted_upsert c8sheetW [[("K", Value.str "x"), ("A", Value.num 9)]]
     "K" ["A"] 0 (by decide) (by decide) (by decide) (by decide) (by decide) (by decide)
     (by decide) (by decide) (by decide) c8sheetW_nof⟩

end NpHelper
